import Mathlib

/-!
# The reconciliation engine of the OpenSearch operator

A shallow embedding of `opensearch-operator/controllers/opensearchController.go`:
`Reconcile`, `deleteExternalResources`, `reconcilePhasePending` and
`reconcilePhaseRunning`, written as state-passing functions over

* the object store (`Store`), read and written through `Get`, `Update` and
  `StatusUpdate` (the controller-runtime client),
* the in-memory object `instance` of the Go code, threaded explicitly,
* a history (`World.trace`) to which every interaction with a collaborator is
  appended, so that "which calls were made, in which order, with what outcome" can
  be stated.

Everything the engine does not own is a field of `Env`: the outcome of every store
operation (`Env.fault`), the readiness predicate `builders.AllMastersReady` and the
behaviour of the pipeline units of package `reconcilers`.  An `Env` is indexed by a
clock (the length of the history), so one `Env` stands for one arbitrary run of the
collaborators; the theorems quantify over all of them.
-/

namespace OpenSearchController

/-! ## Data model -/

/-- The key of an object: `types.NamespacedName`. -/
structure NamespacedName where
  Namespace : String := ""
  Name : String := ""
deriving DecidableEq

/-- The reason carried by an API error (`metav1.StatusReason`); only the two reasons
the controller tests for are distinguished. -/
inductive StatusReason where
  | NotFound
  | Conflict
  | Other
deriving DecidableEq

/-- A non-nil Go `error`; `Option Err` is a Go `error`, `none` being `nil`. -/
structure Err where
  reason : StatusReason
  msg : String
deriving DecidableEq

/-- The predicate `errors.IsNotFound`. -/
def IsNotFound (e : Err) : Bool := decide (e.reason = StatusReason.NotFound)

/-- The predicate `errors.IsConflict`, the retriable test of `retry.RetryOnConflict`. -/
def IsConflict (e : Err) : Bool := decide (e.reason = StatusReason.Conflict)

/-- The value `ctrl.Result`; `RequeueAfter` is a `time.Duration`, in nanoseconds. -/
structure Result where
  Requeue : Bool := false
  RequeueAfter : Nat := 0
deriving DecidableEq

/-- The duration `time.Second`. -/
def Second : Nat := 1000000000

/-- Modelled from the spec: the type `opsterv1.ComponentStatus` of package `api/v1`
(absent from the sources), "an opaque payload owned by each unit". -/
structure ComponentStatus where
  payload : String := ""
deriving DecidableEq

/-- Modelled from the spec: `opsterv1.ClusterStatus` of package `api/v1` (absent from
the sources), with the three fields the controller reads and writes. -/
structure ClusterStatus where
  Phase : String := ""
  ComponentsStatus : List ComponentStatus := []
  Initialized : Bool := false
deriving DecidableEq

/-- Modelled from the spec: `opsterv1.ClusterSpec` of package `api/v1` (absent from
the sources); the controller only passes `Spec.NodePools` on, its content is opaque. -/
structure ClusterSpec where
  NodePools : List String := []
deriving DecidableEq

/-- The part of `metav1.ObjectMeta` the controller uses.  `ResourceVersion` is the
version token of optimistic concurrency; `DeletionTimestamp` is a `*metav1.Time`
(`none` is the nil pointer, `some 0` the zero time). -/
structure ObjectMeta where
  Namespace : String := ""
  Name : String := ""
  ResourceVersion : Nat := 0
  Finalizers : List String := []
  DeletionTimestamp : Option Nat := none
deriving DecidableEq

/-- Modelled from the spec: the managed object `opsterv1.OpenSearchCluster` of package
`api/v1` (absent from the sources).  The default value is Go's zero value
`&opsterv1.OpenSearchCluster{}`. -/
structure OpenSearchCluster where
  ObjectMeta : ObjectMeta := {}
  Spec : ClusterSpec := {}
  Status : ClusterStatus := {}
deriving DecidableEq

/-- Modelled from the spec: the constant `opsterv1.PhasePending` of package `api/v1`
(absent from the sources), the phase the spec calls `Pending`. -/
def PhasePending : String := "PENDING"

/-- Modelled from the spec: the constant `opsterv1.PhaseRunning` of package `api/v1`
(absent from the sources), the phase the spec calls `Running`. -/
def PhaseRunning : String := "RUNNING"

/-- The method `(*metav1.Time).IsZero`: a nil pointer or the zero time. -/
def IsZero (t : Option Nat) : Bool :=
  match t with
  | none => true
  | some n => decide (n = 0)

/-- The function `client.ObjectKeyFromObject`. -/
def ObjectKeyFromObject (obj : OpenSearchCluster) : NamespacedName :=
  { Namespace := obj.ObjectMeta.Namespace, Name := obj.ObjectMeta.Name }

/-- Modelled from the spec: `helpers.ContainsString` of package `pkg/helpers` (absent
from the sources), the membership test on the finalizer markers. -/
def ContainsString (slice : List String) (s : String) : Bool :=
  slice.any (fun item => decide (item = s))

/-- The function `controllerutil.AddFinalizer`: appends the marker unless it is there. -/
def AddFinalizer (o : OpenSearchCluster) (finalizer : String) : OpenSearchCluster :=
  if o.ObjectMeta.Finalizers.any (fun e => decide (e = finalizer)) then o
  else { o with ObjectMeta := { o.ObjectMeta with
           Finalizers := o.ObjectMeta.Finalizers ++ [finalizer] } }

/-- The function `controllerutil.RemoveFinalizer`: drops every occurrence of the marker. -/
def RemoveFinalizer (o : OpenSearchCluster) (finalizer : String) : OpenSearchCluster :=
  { o with ObjectMeta := { o.ObjectMeta with
      Finalizers := o.ObjectMeta.Finalizers.filter (fun e => !decide (e = finalizer)) } }

/-! ## The store, the history and the collaborators -/

/-- The object store: the objects it holds, found by key.  Only the engine and the
pipeline units write it here: another writer shows as a conflict or another error of a
store operation (`Env.fault`), and the purge of an object whose finalizer set became
empty, which the store does on its own, is not modelled. -/
abbrev Store := List OpenSearchCluster

/-- The object stored under a key, if any. -/
def Store.lookup (s : Store) (key : NamespacedName) : Option OpenSearchCluster :=
  s.find? (fun o => decide (ObjectKeyFromObject o = key))

/-- The store with the object under the key of `obj` replaced by `obj`. -/
def Store.put (s : Store) (obj : OpenSearchCluster) : Store :=
  s.map (fun o => if ObjectKeyFromObject o = ObjectKeyFromObject obj then obj else o)

/-- The three helper functions of the controller. -/
inductive Func where
  | deleteExternalResources
  | reconcilePhasePending
  | reconcilePhaseRunning
deriving DecidableEq

/-- The pipeline units built from package `reconcilers`. -/
inductive Component where
  | tls
  | securityconfig
  | config
  | cluster
  | scaler
  | dashboards
  | upgrade
  | restart
deriving DecidableEq

/-- The two methods of a unit that have the type `reconcilers.ComponentReconciler`. -/
inductive Method where
  | Reconcile
  | DeleteResources
deriving DecidableEq

/-- One entry of the history. -/
inductive Event where
  /-- The call `r.Get(ctx, key, instance)`: what was fetched, or the error. -/
  | get (key : NamespacedName) (fetched : Option OpenSearchCluster) (err : Option Err)
  /-- The call `r.Update(ctx, instance)`: the object submitted and the outcome. -/
  | update (obj : OpenSearchCluster) (err : Option Err)
  /-- The call `r.Status().Update(ctx, instance)`: the object submitted and the outcome. -/
  | statusUpdate (obj : OpenSearchCluster) (err : Option Err)
  /-- The call `builders.AllMastersReady(ctx, r.Client, instance)` and its answer. -/
  | allMastersReady (obj : OpenSearchCluster) (ready : Bool)
  /-- Entry into one of the helper functions. -/
  | enter (f : Func)
  /-- One call `rec()` of a bound method: the in-memory object handed to the unit and
  the `(result, err)` it returned. -/
  | component (c : Component) (m : Method) (handed : OpenSearchCluster)
      (result : Result) (err : Option Err)
deriving DecidableEq

/-- What the engine acts on: the store and the history of its interactions. -/
structure World where
  store : Store := []
  trace : List Event := []
deriving DecidableEq

/-- The clock: the number of interactions so far. -/
def World.clock (w : World) : Nat := w.trace.length

/-- Appends an event to the history. -/
def World.log (w : World) (e : Event) : World := { w with trace := w.trace ++ [e] }

/-- What one call of a pipeline unit does: the `(result, err)` it returns, the in-memory
object it leaves behind (the units hold the same pointer as the engine) and the store it
leaves behind (the units hold the same client). -/
structure Outcome where
  result : Result
  err : Option Err
  obj : OpenSearchCluster
  store : Store

/-- The type `reconcilers.ComponentReconciler`, a `func() (ctrl.Result, error)`: here a
function of the clock, the in-memory object and the store. -/
abbrev ComponentReconciler := Nat → OpenSearchCluster → Store → Outcome

/-- The collaborators of the engine.  `fault n` is the failure, if any, of the store
operation issued at clock `n`; `AllMastersReady` is the readiness predicate of package
`builders`; `reconcilers c m` is the bound method `m` of the unit `c`. -/
structure Env where
  fault : Nat → Option Err
  AllMastersReady : Nat → OpenSearchCluster → Store → Bool
  reconcilers : Component → Method → ComponentReconciler

/-- The error of the store for a key it does not hold. -/
def errNotFound : Err := { reason := StatusReason.NotFound, msg := "not found" }

/-- The error of the store for a write carrying a stale version token. -/
def errConflict : Err :=
  { reason := StatusReason.Conflict, msg := "the object has been modified" }

/-- The call `r.Get(ctx, key, obj)`: it fails with the injected fault, or with a
not-found error when the store holds no object under the key; on success the in-memory
object is replaced as a whole by the stored one. -/
def Get (env : Env) (key : NamespacedName) (obj : OpenSearchCluster) (w : World) :
    Option Err × OpenSearchCluster × World :=
  match env.fault w.clock with
  | some e => (some e, obj, w.log (Event.get key none (some e)))
  | none =>
    match w.store.lookup key with
    | none => (some errNotFound, obj, w.log (Event.get key none (some errNotFound)))
    | some o => (none, o, w.log (Event.get key (some o) none))

/-- The object the store holds after an accepted `Update` of `obj` over the stored `cur`:
metadata and spec of `obj`, the status is a subresource and keeps its stored value, and
the version token moves on. -/
def writeMeta (cur obj : OpenSearchCluster) : OpenSearchCluster :=
  { ObjectMeta := { obj.ObjectMeta with ResourceVersion := cur.ObjectMeta.ResourceVersion + 1 },
    Spec := obj.Spec,
    Status := cur.Status }

/-- The object the store holds after an accepted `Status().Update` of `obj` over the
stored `cur`: the status of `obj`, everything else as stored, and the version token
moves on. -/
def writeStatus (cur obj : OpenSearchCluster) : OpenSearchCluster :=
  { ObjectMeta := { cur.ObjectMeta with ResourceVersion := cur.ObjectMeta.ResourceVersion + 1 },
    Spec := cur.Spec,
    Status := obj.Status }

/-- The call `r.Update(ctx, obj)`: accepted when the store holds the object and the
version token of `obj` is current; the in-memory object becomes the stored one. -/
def Update (env : Env) (obj : OpenSearchCluster) (w : World) :
    Option Err × OpenSearchCluster × World :=
  match env.fault w.clock with
  | some e => (some e, obj, w.log (Event.update obj (some e)))
  | none =>
    match w.store.lookup (ObjectKeyFromObject obj) with
    | none => (some errNotFound, obj, w.log (Event.update obj (some errNotFound)))
    | some cur =>
      if cur.ObjectMeta.ResourceVersion = obj.ObjectMeta.ResourceVersion then
        (none, writeMeta cur obj,
          { store := w.store.put (writeMeta cur obj),
            trace := w.trace ++ [Event.update obj none] })
      else (some errConflict, obj, w.log (Event.update obj (some errConflict)))

/-- The call `r.Status().Update(ctx, obj)`: accepted when the store holds the object and
the version token of `obj` is current; the in-memory object becomes the stored one. -/
def StatusUpdate (env : Env) (obj : OpenSearchCluster) (w : World) :
    Option Err × OpenSearchCluster × World :=
  match env.fault w.clock with
  | some e => (some e, obj, w.log (Event.statusUpdate obj (some e)))
  | none =>
    match w.store.lookup (ObjectKeyFromObject obj) with
    | none => (some errNotFound, obj, w.log (Event.statusUpdate obj (some errNotFound)))
    | some cur =>
      if cur.ObjectMeta.ResourceVersion = obj.ObjectMeta.ResourceVersion then
        (none, writeStatus cur obj,
          { store := w.store.put (writeStatus cur obj),
            trace := w.trace ++ [Event.statusUpdate obj none] })
      else (some errConflict, obj, w.log (Event.statusUpdate obj (some errConflict)))

/-- The attempt count of a `wait.Backoff`; the delays between attempts are not modelled. -/
structure Backoff where
  Steps : Nat

/-- The policy `retry.DefaultRetry` of client-go: five steps. -/
def DefaultRetry : Backoff := { Steps := 5 }

/-- The function `retry.OnError`: runs `fn` until it succeeds, fails with an error that
is not retriable, or the steps are used up, in which case the last error is returned. -/
def OnError {σ : Type} (retriable : Err → Bool) (fn : σ → Option Err × σ) :
    Nat → Option Err → σ → Option Err × σ
  | 0, lastErr, s => (lastErr, s)
  | n + 1, _, s =>
    match fn s with
    | (none, s1) => (none, s1)
    | (some e, s1) => if retriable e then OnError retriable fn n (some e) s1 else (some e, s1)

/-- The function `retry.RetryOnConflict`. -/
def RetryOnConflict {σ : Type} (backoff : Backoff) (fn : σ → Option Err × σ) (s : σ) :
    Option Err × σ :=
  OnError IsConflict fn backoff.Steps none s

/-! ## The controller -/

/-- The loop `for _, rec := range componentReconcilers` of both pipelines: `some` is the
`(result, err)` the loop returns from the function with, `none` is falling through. -/
def runComponentReconcilers (env : Env) :
    List (Component × Method) → OpenSearchCluster → World →
      Option (Result × Option Err) × OpenSearchCluster × World
  | [], obj, w => (none, obj, w)
  | (c, m) :: rest, obj, w =>
    let out := env.reconcilers c m w.clock obj w.store
    let w1 : World :=
      { store := out.store,
        trace := w.trace ++ [Event.component c m obj out.result out.err] }
    if out.err.isSome || out.result.Requeue then (some (out.result, out.err), out.obj, w1)
    else runComponentReconcilers env rest out.obj w1

/-- The slice `componentReconcilers` of `deleteExternalResources`. -/
def teardownReconcilers : List (Component × Method) :=
  [(Component.tls, Method.DeleteResources),
   (Component.securityconfig, Method.DeleteResources),
   (Component.config, Method.DeleteResources),
   (Component.cluster, Method.DeleteResources),
   (Component.dashboards, Method.DeleteResources)]

/-- The slice `componentReconcilers` of `reconcilePhaseRunning`. -/
def applyReconcilers : List (Component × Method) :=
  [(Component.tls, Method.Reconcile),
   (Component.securityconfig, Method.Reconcile),
   (Component.config, Method.Reconcile),
   (Component.cluster, Method.Reconcile),
   (Component.scaler, Method.Reconcile),
   (Component.dashboards, Method.Reconcile),
   (Component.upgrade, Method.Reconcile),
   (Component.restart, Method.Reconcile)]

/-- The function `deleteExternalResources`. -/
def deleteExternalResources (env : Env) (obj : OpenSearchCluster) (w : World) :
    (Result × Option Err) × OpenSearchCluster × World :=
  match runComponentReconcilers env teardownReconcilers obj
      (w.log (Event.enter Func.deleteExternalResources)) with
  | (some r, obj1, w1) => (r, obj1, w1)
  | (none, obj1, w1) => (({}, none), obj1, w1)

/-- The closure retried by `reconcilePhasePending`. -/
def pendingAttempt (env : Env) (s : OpenSearchCluster × World) :
    Option Err × OpenSearchCluster × World :=
  match Get env (ObjectKeyFromObject s.1) s.1 s.2 with
  | (some e, obj, w) => (some e, obj, w)
  | (none, obj, w) =>
    StatusUpdate env
      { obj with Status := { obj.Status with Phase := PhaseRunning, ComponentsStatus := [] } } w

/-- The function `reconcilePhasePending`. -/
def reconcilePhasePending (env : Env) (obj : OpenSearchCluster) (w : World) :
    (Result × Option Err) × World :=
  match RetryOnConflict DefaultRetry (pendingAttempt env)
      (obj, w.log (Event.enter Func.reconcilePhasePending)) with
  | (some e, _, w1) => (({}, some e), w1)
  | (none, _, w1) => (({ Requeue := true }, none), w1)

/-- The closure retried by `reconcilePhaseRunning`. -/
def initializedAttempt (env : Env) (s : OpenSearchCluster × World) :
    Option Err × OpenSearchCluster × World :=
  match Get env (ObjectKeyFromObject s.1) s.1 s.2 with
  | (some e, obj, w) => (some e, obj, w)
  | (none, obj, w) =>
    let ready := env.AllMastersReady w.clock obj w.store
    StatusUpdate env { obj with Status := { obj.Status with Initialized := ready } }
      (w.log (Event.allMastersReady obj ready))

/-- The function `reconcilePhaseRunning`. -/
def reconcilePhaseRunning (env : Env) (obj : OpenSearchCluster) (w : World) :
    (Result × Option Err) × World :=
  let w0 := w.log (Event.enter Func.reconcilePhaseRunning)
  match (if !obj.Status.Initialized then RetryOnConflict DefaultRetry (initializedAttempt env) (obj, w0)
         else (none, obj, w0)) with
  | (some e, _, w1) => (({}, some e), w1)
  | (none, obj1, w1) =>
    match runComponentReconcilers env applyReconcilers obj1 w1 with
    | (some r, _, w2) => (r, w2)
    | (none, _, w2) => (({ Requeue := true, RequeueAfter := 30 * Second }, none), w2)

/-- The finalizer marker `myFinalizerName`. -/
def myFinalizerName : String := "Opster"

/-- The two closures retried by `Reconcile`: re-fetch, change the finalizer set with
`change`, write. -/
def finalizerAttempt (env : Env) (key : NamespacedName)
    (change : OpenSearchCluster → String → OpenSearchCluster)
    (s : OpenSearchCluster × World) : Option Err × OpenSearchCluster × World :=
  match Get env key s.1 s.2 with
  | (some e, obj, w) => (some e, obj, w)
  | (none, obj, w) => Update env (change obj myFinalizerName) w

/-- The tail of `Reconcile` for an object that is not being deleted: the phase
default and the `switch` on the phase. -/
def phaseDispatch (env : Env) (obj : OpenSearchCluster) (w : World) :
    (Result × Option Err) × World :=
  let obj1 : OpenSearchCluster :=
    if obj.Status.Phase = "" then
      { obj with Status := { obj.Status with Phase := PhaseRunning, ComponentsStatus := [] } }
    else obj
  if obj1.Status.Phase = PhasePending then reconcilePhasePending env obj1 w
  else if obj1.Status.Phase = PhaseRunning then reconcilePhaseRunning env obj1 w
  else (({ Requeue := true, RequeueAfter := 30 * Second }, none), w)

/-- The function `Reconcile`. -/
def Reconcile (env : Env) (req : NamespacedName) (w : World) : (Result × Option Err) × World :=
  match Get env req {} w with
  | (some err, _, w1) =>
    if IsNotFound err then (({}, none), w1) else (({}, some err), w1)
  | (none, obj, w1) =>
    if IsZero obj.ObjectMeta.DeletionTimestamp then
      if !ContainsString obj.ObjectMeta.Finalizers myFinalizerName then
        match RetryOnConflict DefaultRetry (finalizerAttempt env req AddFinalizer) (obj, w1) with
        | (some err, _, w2) => (({}, some err), w2)
        | (none, obj2, w2) => phaseDispatch env obj2 w2
      else phaseDispatch env obj w1
    else
      if ContainsString obj.ObjectMeta.Finalizers myFinalizerName then
        match deleteExternalResources env obj w1 with
        | ((result, some err), _, w2) => ((result, some err), w2)
        | ((_, none), obj2, w2) =>
          match RetryOnConflict DefaultRetry (finalizerAttempt env req RemoveFinalizer)
              (obj2, w2) with
          | (some err, _, w3) => (({}, some err), w3)
          | (none, _, w3) => (({}, none), w3)
      else (({}, none), w1)

/-! ## Observations on histories -/

/-- One recorded call of a bound method: the unit, the method and what it returned. -/
structure Call where
  component : Component
  method : Method
  result : Result
  err : Option Err
deriving DecidableEq

/-- The test `err != nil || result.Requeue` of the pipeline loops. -/
def Call.halts (c : Call) : Bool := c.err.isSome || c.result.Requeue

/-- The bound method a call went to. -/
def Call.bound (c : Call) : Component × Method := (c.component, c.method)

/-- The call an event records, if it records one. -/
def Event.call? : Event → Option Call
  | Event.component c m _ r e => some { component := c, method := m, result := r, err := e }
  | _ => none

/-- The calls of pipeline units recorded in a history, in order. -/
def componentCalls (t : List Event) : List Call := t.filterMap Event.call?

/-- What a pipeline loop over the slice `l` can have done: `seg` is what it appended to
the history and `ret` what it returned with (`none`: it fell through).  The calls went
to an initial stretch of `l`, in order; either all of `l` was called and no call
halted, or the last call halted, none before it did, and its `(result, err)` is
returned. -/
def LoopSpec (l : List (Component × Method)) (seg : List Event)
    (ret : Option (Result × Option Err)) : Prop :=
  (∀ e ∈ seg, (Event.call? e).isSome = true) ∧
  (componentCalls seg).map Call.bound = l.take (componentCalls seg).length ∧
  ((ret = none ∧ (componentCalls seg).length = l.length ∧
      ∀ c ∈ componentCalls seg, Call.halts c = false) ∨
   (∃ pre c, componentCalls seg = pre ++ [c] ∧ (∀ x ∈ pre, Call.halts x = false) ∧
      Call.halts c = true ∧ ret = some (c.result, c.err)))

/-- The attempts of `retry.OnError` that failed with a retriable error: `Retried r fn k s
s1` says that `k` runs of `fn` in a row, the first from state `s`, each failed with a
retriable error, and left the state `s1`. -/
inductive Retried {σ : Type} (retriable : Err → Bool) (fn : σ → Option Err × σ) :
    Nat → σ → σ → Prop where
  | zero (s : σ) : Retried retriable fn 0 s s
  | succ {k : Nat} {s s1 s2 : σ} {e : Err} :
      fn s = (some e, s1) → retriable e = true → Retried retriable fn k s1 s2 →
      Retried retriable fn (k + 1) s s2

/-- The store is read and written only by the engine: no pipeline unit changes it. -/
def UnitsKeepStore (env : Env) : Prop :=
  ∀ (c : Component) (m : Method) (n : Nat) (obj : OpenSearchCluster) (s : Store),
    (env.reconcilers c m n obj s).store = s

/-- No store operation fails for an outside reason. -/
def NoFaults (env : Env) : Prop := ∀ n : Nat, env.fault n = none

/-- The initial fetch of `Reconcile` succeeds and yields `o`. -/
def Fetched (env : Env) (req : NamespacedName) (w : World) (o : OpenSearchCluster) : Prop :=
  env.fault w.clock = none ∧ w.store.lookup req = some o

/-- What one run of a finalizer closure of `Reconcile` appends to the history, given the
store it ran against and the error it returned: a failed fetch, or a fetch of the stored
object followed by the `Update` of that object with the finalizer set changed. -/
def FinalizerAtom (change : OpenSearchCluster → String → OpenSearchCluster)
    (key : NamespacedName) (store : Store) (err : Option Err) (seg : List Event) : Prop :=
  (∃ e, err = some e ∧ seg = [Event.get key none (some e)]) ∨
  (∃ o, store.lookup key = some o ∧
    seg = [Event.get key (some o) none, Event.update (change o myFinalizerName) err])

/-- What one run of the closure of `reconcilePhasePending` appends to the history: a
failed fetch, or a fetch of the stored object followed by the `Status().Update` of that
object with the phase set to `Running` and `ComponentsStatus` emptied. -/
def PendingAtom (key : NamespacedName) (store : Store) (err : Option Err)
    (seg : List Event) : Prop :=
  (∃ e, err = some e ∧ seg = [Event.get key none (some e)]) ∨
  (∃ o, store.lookup key = some o ∧
    seg = [Event.get key (some o) none,
      Event.statusUpdate
        { o with Status := { o.Status with Phase := PhaseRunning, ComponentsStatus := [] } }
        err])

/-- What one run of the closure of `reconcilePhaseRunning` appends to the history: a
failed fetch, or a fetch of the stored object, the readiness predicate's answer `b` on
it, and the `Status().Update` of that object with `Initialized` set to `b`. -/
def InitializedAtom (key : NamespacedName) (store : Store) (err : Option Err)
    (seg : List Event) : Prop :=
  (∃ e, err = some e ∧ seg = [Event.get key none (some e)]) ∨
  (∃ o b, store.lookup key = some o ∧
    seg = [Event.get key (some o) none, Event.allMastersReady o b,
      Event.statusUpdate { o with Status := { o.Status with Initialized := b } } err])

/-- What `retry.RetryOnConflict(retry.DefaultRetry, fn)` appends to the history when one
run of `fn` returning `err` appends a segment `a` with `A err a`: the segments `atoms` of
at most four runs that failed with a conflict, then the segment `last` of the run whose
error `err` is returned; that last run is the fifth, or `err` is not a conflict. -/
def RetrySegment (A : Option Err → List Event → Prop) (err : Option Err)
    (atoms : List (List Event)) (last : List Event) : Prop :=
  atoms.length ≤ 4 ∧
  (∀ a ∈ atoms, ∃ e, IsConflict e = true ∧ A (some e) a) ∧ A err last ∧
  (atoms.length < 4 → ∀ e, err = some e → IsConflict e = false)

/-- The events a `Reconcile` of an object that is being deleted may append: fetches,
`Update`s, the entry into `deleteExternalResources` and calls of `DeleteResources`;
not a `Status().Update`, the readiness predicate, a phase handler or a call of the
method `Reconcile` of a unit. -/
def Event.teardownOnly : Event → Bool
  | Event.get _ _ _ => true
  | Event.update _ _ => true
  | Event.enter Func.deleteExternalResources => true
  | Event.component _ Method.DeleteResources _ _ _ => true
  | _ => false

/-- A unit that does nothing and reports success. -/
def quietUnit : ComponentReconciler :=
  fun _ obj s => { result := {}, err := none, obj := obj, store := s }

/-- A unit that does nothing and asks to be run again. -/
def requeueUnit : ComponentReconciler :=
  fun _ obj s => { result := { Requeue := true }, err := none, obj := obj, store := s }

/-- A unit that does nothing and fails. -/
def failingUnit (e : Err) : ComponentReconciler :=
  fun _ obj s => { result := {}, err := some e, obj := obj, store := s }

/-- Collaborators that never fail: every store operation is accepted, the masters are
ready, every unit is `quietUnit`. -/
def quietEnv : Env :=
  { fault := fun _ => none,
    AllMastersReady := fun _ _ _ => true,
    reconcilers := fun _ _ => quietUnit }

/-- An error that is neither a not-found nor a conflict. -/
def errOther : Err := { reason := StatusReason.Other, msg := "internal error" }

/-- The key used in the examples. -/
def exampleKey : NamespacedName := { Namespace := "default", Name := "cluster" }

/-- A newly created object: no finalizer, no deletion timestamp, no phase. -/
def newCluster : OpenSearchCluster :=
  { ObjectMeta := { Namespace := "default", Name := "cluster", ResourceVersion := 1 } }

/-- An object in phase `Running` that carries the finalizer and is not initialized yet. -/
def runningCluster : OpenSearchCluster :=
  { ObjectMeta := { Namespace := "default", Name := "cluster", ResourceVersion := 3,
                    Finalizers := ["Opster"] },
    Status := { Phase := "RUNNING" } }

/-- An object in phase `Running` that carries the finalizer and is being deleted. -/
def deletingCluster : OpenSearchCluster :=
  { ObjectMeta := { Namespace := "default", Name := "cluster", ResourceVersion := 7,
                    Finalizers := ["Opster"], DeletionTimestamp := some 1700000000 },
    Status := { Phase := "RUNNING", Initialized := true } }

/-- A relation between the store before and after that every write of the engine
respects: it holds of the four accepted writes (the two finalizer updates and the two
status updates, each over the object `o` the store holds) and is reflexive and
transitive. -/
structure StoreRel (R : Store → Store → Prop) : Prop where
  refl : ∀ s, R s s
  trans : ∀ a b c, R a b → R b c → R a c
  addFinalizer : ∀ (s : Store) (key : NamespacedName) (o : OpenSearchCluster),
    s.lookup key = some o → R s (s.put (writeMeta o (AddFinalizer o myFinalizerName)))
  removeFinalizer : ∀ (s : Store) (key : NamespacedName) (o : OpenSearchCluster),
    s.lookup key = some o → R s (s.put (writeMeta o (RemoveFinalizer o myFinalizerName)))
  pending : ∀ (s : Store) (key : NamespacedName) (o : OpenSearchCluster),
    s.lookup key = some o →
    R s (s.put (writeStatus o { o with Status :=
      { o.Status with Phase := PhaseRunning, ComponentsStatus := [] } }))
  initialized : ∀ (s : Store) (key : NamespacedName) (o : OpenSearchCluster) (b : Bool),
    s.lookup key = some o →
    R s (s.put (writeStatus o { o with Status := { o.Status with Initialized := b } }))

/-- A property of stretches of history that holds of everything the engine appends in
one go (a fetch, an entry into a helper, a call of a unit, one run of a retried
closure) and of concatenations. -/
structure SegmentClosed (P : List Event → Prop) : Prop where
  nil : P []
  append : ∀ s t, P s → P t → P (s ++ t)
  get : ∀ key fetched err, P [Event.get key fetched err]
  enter : ∀ f, P [Event.enter f]
  component : ∀ c m handed r err, P [Event.component c m handed r err]
  addFinalizer : ∀ key store err a, FinalizerAtom AddFinalizer key store err a → P a
  removeFinalizer : ∀ key store err a, FinalizerAtom RemoveFinalizer key store err a → P a
  pending : ∀ key store err a, PendingAtom key store err a → P a
  initialized : ∀ key store err a, InitializedAtom key store err a → P a

/-- A sequence of `Reconcile` calls, one per request, each on the world the previous one
left. -/
def ReconcileAll (env : Env) : List NamespacedName → World → World
  | [], w => w
  | req :: rest, w => ReconcileAll env rest (Reconcile env req w).2

/-- Every `Status().Update` in a stretch of history comes right after the fetch of the
object (and, for the `Initialized` write, the answer of the readiness predicate on
it), and submits that object with its phase as fetched or set to `Running`. -/
def PhaseWritesFollowFetch (seg : List Event) : Prop :=
  ∀ (pre post : List Event) (obj : OpenSearchCluster) (err : Option Err),
    seg = pre ++ Event.statusUpdate obj err :: post →
    ∃ (pre1 : List Event) (key : NamespacedName) (o : OpenSearchCluster),
      (pre = pre1 ++ [Event.get key (some o) none] ∨
        ∃ b, pre = pre1 ++ [Event.get key (some o) none, Event.allMastersReady o b]) ∧
      (obj.Status.Phase = o.Status.Phase ∨ obj.Status.Phase = PhaseRunning)

/-- Collaborators that never fail, except that the configuration unit asks to be run
again when applied. -/
def configRequeueEnv : Env :=
  { fault := fun _ => none,
    AllMastersReady := fun _ _ _ => true,
    reconcilers := fun c m =>
      if c = Component.config ∧ m = Method.Reconcile then requeueUnit else quietUnit }

/-- Collaborators that never fail, except that the TLS unit asks to be run again when
torn down. -/
def tlsTeardownRequeueEnv : Env :=
  { fault := fun _ => none,
    AllMastersReady := fun _ _ _ => true,
    reconcilers := fun c m =>
      if c = Component.tls ∧ m = Method.DeleteResources then requeueUnit else quietUnit }

/-- Collaborators that never fail, except that the security configuration unit fails
when torn down. -/
def securityTeardownFailsEnv : Env :=
  { fault := fun _ => none,
    AllMastersReady := fun _ _ _ => true,
    reconcilers := fun c m =>
      if c = Component.securityconfig ∧ m = Method.DeleteResources then failingUnit errOther
      else quietUnit }

/-- Collaborators whose store fails the very first operation with an internal error. -/
def firstFetchFailsEnv : Env :=
  { fault := fun n => if n = 0 then some errOther else none,
    AllMastersReady := fun _ _ _ => true,
    reconcilers := fun _ _ => quietUnit }

/-- An object without a phase that carries the finalizer, is already initialized and
has a component status recorded. -/
def phaselessCluster : OpenSearchCluster :=
  { ObjectMeta := { Namespace := "default", Name := "cluster", ResourceVersion := 5,
                    Finalizers := ["Opster"] },
    Status := { Phase := "", ComponentsStatus := [{ payload := "stale" }],
                Initialized := true } }

/-- The in-memory object an event records as handed to a unit, if it records a call. -/
def Event.handed? : Event → Option OpenSearchCluster
  | Event.component _ _ handed _ _ => some handed
  | _ => none

/-- The in-memory objects handed to the units called in a history, in order. -/
def handedObjects (t : List Event) : List OpenSearchCluster := t.filterMap Event.handed?

/-- The finalizer step of `Reconcile` on an object that is not being deleted (the block
guarded by `!helpers.ContainsString(instance.GetFinalizers(), myFinalizerName)`): the
error, the in-memory object and the world with which `Reconcile` goes on. -/
def ensureFinalizer (env : Env) (req : NamespacedName) (obj : OpenSearchCluster) (w : World) :
    Option Err × OpenSearchCluster × World :=
  if !ContainsString obj.ObjectMeta.Finalizers myFinalizerName then
    RetryOnConflict DefaultRetry (finalizerAttempt env req AddFinalizer) (obj, w)
  else (none, obj, w)

/-- The tail of `reconcilePhaseRunning`: the loop over the eight apply-mode units and
the periodic re-sync it ends with when no unit halts. -/
def applyPipeline (env : Env) (obj : OpenSearchCluster) (w : World) :
    (Result × Option Err) × World :=
  match runComponentReconcilers env applyReconcilers obj w with
  | (some r, _, w2) => (r, w2)
  | (none, _, w2) => (({ Requeue := true, RequeueAfter := 30 * Second }, none), w2)

/-- A store write recorded in the history: the object submitted by an `Update` or a
`Status().Update`. -/
def Event.written? : Event → Option OpenSearchCluster
  | Event.update obj _ => some obj
  | Event.statusUpdate obj _ => some obj
  | _ => none

/-- Collaborators whose store fails the operation at clock 2 with an internal error: in
a call on an empty history that has to add the finalizer, the `Update`. -/
def secondWriteFailsEnv : Env :=
  { fault := fun n => if n = 2 then some errOther else none,
    AllMastersReady := fun _ _ _ => true,
    reconcilers := fun _ _ => quietUnit }

/-- Collaborators whose store rejects the operation at clock 2 with a conflict and
accepts every other one. -/
def oneConflictEnv : Env :=
  { fault := fun n => if n = 2 then some errConflict else none,
    AllMastersReady := fun _ _ _ => true,
    reconcilers := fun _ _ => quietUnit }

/-- Collaborators whose store answers every operation but the first with a conflict. -/
def alwaysConflictEnv : Env :=
  { fault := fun n => if n = 0 then none else if n % 2 = 0 then some errConflict else none,
    AllMastersReady := fun _ _ _ => true,
    reconcilers := fun _ _ => quietUnit }

/-- A relation between the store before and after that the two accepted status writes
of the engine respect, reflexive and transitive: what the phase handlers preserve. -/
structure StatusRel (R : Store → Store → Prop) : Prop where
  refl : ∀ s, R s s
  trans : ∀ a b c, R a b → R b c → R a c
  pending : ∀ (s : Store) (key : NamespacedName) (o : OpenSearchCluster),
    s.lookup key = some o →
    R s (s.put (writeStatus o { o with Status :=
      { o.Status with Phase := PhaseRunning, ComponentsStatus := [] } }))
  initialized : ∀ (s : Store) (key : NamespacedName) (o : OpenSearchCluster) (b : Bool),
    s.lookup key = some o →
    R s (s.put (writeStatus o { o with Status := { o.Status with Initialized := b } }))

/-- An object in phase `Pending` that carries the finalizer marker. -/
def pendingCluster : OpenSearchCluster :=
  { ObjectMeta := { Namespace := "default", Name := "cluster", ResourceVersion := 2,
                    Finalizers := ["Opster"] },
    Status := { Phase := "PENDING", ComponentsStatus := [{ payload := "old" }] } }

/-- An object whose phase is neither unset, `Pending` nor `Running`, without the
finalizer marker. -/
def unknownPhaseCluster : OpenSearchCluster :=
  { ObjectMeta := { Namespace := "default", Name := "cluster", ResourceVersion := 4 },
    Status := { Phase := "UPGRADING" } }

/-- Collaborators whose store fails the operation at clock 4 with an internal error:
for an object in phase `Running` that carries the marker, the `Status().Update` of the
`Initialized` flag. -/
def statusWriteFailsEnv : Env :=
  { fault := fun n => if n = 4 then some errOther else none,
    AllMastersReady := fun _ _ _ => true,
    reconcilers := fun _ _ => quietUnit }

/-- Events of the read-modify-write of the finalizer set: a `Get` or an `Update`. -/
def Event.fetchOrUpdate : Event → Bool
  | Event.get _ _ _ => true
  | Event.update _ _ => true
  | _ => false

/-- Every write in a stretch of the history (`Update` or `Status().Update`) comes right
after the successful `Get` of the object it submits (only the answer of the readiness
predicate may stand in between), under that object's key and with the version token as
fetched. -/
def WritesFollowFetch (seg : List Event) : Prop :=
  ∀ (pre post : List Event) (ev : Event) (obj : OpenSearchCluster),
    seg = pre ++ ev :: post → Event.written? ev = some obj →
    ∃ (pre1 : List Event) (o : OpenSearchCluster),
      obj.ObjectMeta.ResourceVersion = o.ObjectMeta.ResourceVersion ∧
      (pre = pre1 ++ [Event.get (ObjectKeyFromObject obj) (some o) none] ∨
        ∃ b, pre = pre1 ++ [Event.get (ObjectKeyFromObject obj) (some o) none,
          Event.allMastersReady o b])

/-- The fields of a stored object the engine does not own: the spec, the deletion
timestamp, the finalizer markers other than its own, and the name. -/
def foreignFields (o : OpenSearchCluster) :
    ClusterSpec × Option Nat × List String × String × String :=
  (o.Spec, o.ObjectMeta.DeletionTimestamp,
    o.ObjectMeta.Finalizers.filter (fun f => !decide (f = myFinalizerName)),
    o.ObjectMeta.Namespace, o.ObjectMeta.Name)

/-- The store after a write of `obj` that returned `err`: the object is put when the
write was accepted, nothing changes otherwise. -/
def Store.after (s : Store) (err : Option Err) (obj : OpenSearchCluster) : Store :=
  match err with
  | none => s.put obj
  | some _ => s

/-- A relation between the store before a stretch of the history, the stretch, and the
store after it, that holds of every elementary step of the engine and composes. The
readiness predicate is asked, and the flag written, only on a fetched object whose
flag is false. -/
structure StepClosed (J : Store → List Event → Store → Prop) : Prop where
  refl : ∀ s, J s [] s
  trans : ∀ a b c s t, J a s b → J b t c → J a (s ++ t) c
  get : ∀ s key fetched err, J s [Event.get key fetched err] s
  enter : ∀ s f, J s [Event.enter f] s
  component : ∀ s c m handed r err, J s [Event.component c m handed r err] s
  addFinalizer : ∀ (s : Store) (key : NamespacedName) (o : OpenSearchCluster)
    (err : Option Err), s.lookup key = some o →
    J s [Event.get key (some o) none, Event.update (AddFinalizer o myFinalizerName) err]
      (s.after err (writeMeta o (AddFinalizer o myFinalizerName)))
  removeFinalizer : ∀ (s : Store) (key : NamespacedName) (o : OpenSearchCluster)
    (err : Option Err), s.lookup key = some o →
    J s [Event.get key (some o) none, Event.update (RemoveFinalizer o myFinalizerName) err]
      (s.after err (writeMeta o (RemoveFinalizer o myFinalizerName)))
  pending : ∀ (s : Store) (key : NamespacedName) (o : OpenSearchCluster)
    (err : Option Err), s.lookup key = some o →
    J s [Event.get key (some o) none,
        Event.statusUpdate { o with Status :=
          { o.Status with Phase := PhaseRunning, ComponentsStatus := [] } } err]
      (s.after err (writeStatus o { o with Status :=
          { o.Status with Phase := PhaseRunning, ComponentsStatus := [] } }))
  initialized : ∀ (s : Store) (key : NamespacedName) (o : OpenSearchCluster) (b : Bool)
    (err : Option Err), s.lookup key = some o → o.Status.Initialized = false →
    J s [Event.get key (some o) none, Event.allMastersReady o b,
        Event.statusUpdate { o with Status := { o.Status with Initialized := b } } err]
      (s.after err (writeStatus o { o with Status := { o.Status with Initialized := b } }))

/-- The stored `Status.Initialized` flag of the object under a key. -/
def storedInitialized (s : Store) (key : NamespacedName) : Option Bool :=
  (s.lookup key).map (fun o => o.Status.Initialized)

/-- The `Initialized` flag of the object under `k` over a stretch of the history: the
object stays stored or absent; a stored flag `true` is `true` afterwards, the readiness
predicate is not asked about that object and every `Status().Update` of it submits the
flag `true`; a flag that went from `false` to `true` did so in a stretch where the
readiness predicate answered `true` for that object. -/
def InitializedStable (k : NamespacedName) (s : Store) (seg : List Event) (s1 : Store) :
    Prop :=
  (s1.lookup k).isSome = (s.lookup k).isSome ∧
  (storedInitialized s k = some true →
    storedInitialized s1 k = some true ∧
    (∀ o b, Event.allMastersReady o b ∈ seg → ObjectKeyFromObject o ≠ k) ∧
    (∀ o err, Event.statusUpdate o err ∈ seg → ObjectKeyFromObject o = k →
      o.Status.Initialized = true)) ∧
  (storedInitialized s k = some false → storedInitialized s1 k = some true →
    ∃ o, ObjectKeyFromObject o = k ∧ Event.allMastersReady o true ∈ seg)

/-- An object with its version token erased. -/
def eraseVersion (o : OpenSearchCluster) : OpenSearchCluster :=
  { o with ObjectMeta := { o.ObjectMeta with ResourceVersion := 0 } }

/-- The pipeline units answer the same whenever they are asked the same. -/
def UnitsTimeless (env : Env) : Prop :=
  ∀ (c : Component) (m : Method) (n n1 : Nat) (obj : OpenSearchCluster) (s : Store),
    env.reconcilers c m n obj s = env.reconcilers c m n1 obj s

/-- A unit that records its component status on the object, in memory and in the
store. -/
def recordingUnit : ComponentReconciler :=
  fun _ obj s =>
    { result := {}, err := none,
      obj := { obj with Status :=
        { obj.Status with ComponentsStatus := [{ payload := "tls" }] } },
      store := match s.lookup (ObjectKeyFromObject obj) with
        | some cur => s.put { cur with Status :=
            { cur.Status with ComponentsStatus := [{ payload := "tls" }] } }
        | none => s }

/-- Collaborators whose operations all succeed, whose readiness predicate answers
true, and whose TLS unit records its component status when it is applied. -/
def recordingEnv : Env :=
  { fault := fun _ => none,
    AllMastersReady := fun _ _ _ => true,
    reconcilers := fun c m =>
      match c, m with
      | Component.tls, Method.Reconcile => recordingUnit
      | _, _ => quietUnit }

/-- The answers of the units of a pipeline asked one after the other, none stopping the
pass: the first unit is handed `obj` with the store `s` at clock `n`, and every later
unit the object and the store the one before it left, one tick later.  The loops of the
engine are compared with it: what they record must be an initial stretch of these
answers. -/
def unitEvents (env : Env) :
    List (Component × Method) → OpenSearchCluster → Store → Nat → List Event
  | [], _, _, _ => []
  | (c, m) :: rest, obj, s, n =>
    Event.component c m obj (env.reconcilers c m n obj s).result
        (env.reconcilers c m n obj s).err ::
      unitEvents env rest (env.reconcilers c m n obj s).obj
        (env.reconcilers c m n obj s).store (n + 1)

/-- The head of `reconcilePhaseRunning`: the retried read-modify-write of the flag
`Initialized`, run only when the flag of the in-memory object is false. -/
def updateInitialized (env : Env) (obj : OpenSearchCluster) (w : World) :
    Option Err × OpenSearchCluster × World :=
  if !obj.Status.Initialized then
    RetryOnConflict DefaultRetry (initializedAttempt env) (obj, w)
  else (none, obj, w)

/-- The answer of the readiness predicate an event records, if it is one. -/
def Event.readiness? : Event → Option Bool
  | Event.allMastersReady _ b => some b
  | _ => none

/-- The answers of the readiness predicate in a history. -/
def readinessAnswers (t : List Event) : List Bool := t.filterMap Event.readiness?

/-- An object in phase `Running`, not initialized, without the finalizer marker. -/
def bareRunningCluster : OpenSearchCluster :=
  { ObjectMeta := { Namespace := "default", Name := "cluster", ResourceVersion := 6 },
    Status := { Phase := "RUNNING" } }

/-- An object in phase `Running`, not initialized, that carries the finalizer marker
and is being deleted. -/
def deletingBareCluster : OpenSearchCluster :=
  { ObjectMeta := { Namespace := "default", Name := "cluster", ResourceVersion := 8,
                    Finalizers := ["Opster"], DeletionTimestamp := some 1700000000 },
    Status := { Phase := "RUNNING" } }

/-! ## The pipeline loop -/

theorem componentCalls_append (s t : List Event) :
    componentCalls (s ++ t) = componentCalls s ++ componentCalls t := by
  simp [componentCalls, List.filterMap_append]

theorem runComponentReconcilers_cons (env : Env) (c : Component) (m : Method)
    (rest : List (Component × Method)) (obj : OpenSearchCluster) (w : World) :
    runComponentReconcilers env ((c, m) :: rest) obj w =
      if (env.reconcilers c m w.clock obj w.store).err.isSome
          || (env.reconcilers c m w.clock obj w.store).result.Requeue then
        (some ((env.reconcilers c m w.clock obj w.store).result,
            (env.reconcilers c m w.clock obj w.store).err),
          (env.reconcilers c m w.clock obj w.store).obj,
          { store := (env.reconcilers c m w.clock obj w.store).store,
            trace := w.trace ++ [Event.component c m obj
              (env.reconcilers c m w.clock obj w.store).result
              (env.reconcilers c m w.clock obj w.store).err] })
      else runComponentReconcilers env rest (env.reconcilers c m w.clock obj w.store).obj
          { store := (env.reconcilers c m w.clock obj w.store).store,
            trace := w.trace ++ [Event.component c m obj
              (env.reconcilers c m w.clock obj w.store).result
              (env.reconcilers c m w.clock obj w.store).err] } := rfl

theorem runComponentReconcilers_spec (env : Env) (l : List (Component × Method)) :
    ∀ (obj : OpenSearchCluster) (w : World),
      ∃ seg, (runComponentReconcilers env l obj w).2.2.trace = w.trace ++ seg ∧
        LoopSpec l seg (runComponentReconcilers env l obj w).1 := by
  induction l with
  | nil =>
    intro obj w
    exact ⟨[], by simp [runComponentReconcilers],
      by simp [LoopSpec, componentCalls, runComponentReconcilers]⟩
  | cons b rest ih =>
    intro obj w
    obtain ⟨c, m⟩ := b
    rw [runComponentReconcilers_cons]
    generalize env.reconcilers c m w.clock obj w.store = out
    by_cases h : (out.err.isSome || out.result.Requeue) = true
    · rw [if_pos h]
      refine ⟨[Event.component c m obj out.result out.err], rfl, ?_⟩
      refine ⟨by simp [Event.call?], by simp [componentCalls, Event.call?, Call.bound],
        Or.inr ⟨[], ⟨c, m, out.result, out.err⟩, ?_, ?_, h, rfl⟩⟩
      · simp [componentCalls, Event.call?]
      · simp
    · rw [if_neg h]
      have hh : Call.halts ⟨c, m, out.result, out.err⟩ = false := by
        simpa [Call.halts] using h
      obtain ⟨seg, hseg, hall, hord, hres⟩ := ih out.obj
        { store := out.store, trace := w.trace ++ [Event.component c m obj out.result out.err] }
      refine ⟨Event.component c m obj out.result out.err :: seg, ?_, ?_, ?_, ?_⟩
      · simpa using hseg
      · intro e he
        rcases List.mem_cons.mp he with rfl | he
        · simp [Event.call?]
        · exact hall e he
      · simp only [componentCalls, List.filterMap_cons, Event.call?, List.map_cons,
          List.length_cons, List.take_succ_cons, Call.bound] at hord ⊢
        rw [hord]
      · rcases hres with ⟨hn, hlen, hcl⟩ | ⟨pre, c', hc, hpre, hhalt, hret⟩
        · refine Or.inl ⟨hn, ?_, ?_⟩
          · simp only [componentCalls, List.filterMap_cons, Event.call?, List.length_cons] at hlen ⊢
            rw [hlen]
          · intro x hx
            simp only [componentCalls, List.filterMap_cons, Event.call?, List.mem_cons] at hx
            rcases hx with rfl | hx
            · exact hh
            · exact hcl x hx
        · refine Or.inr ⟨⟨c, m, out.result, out.err⟩ :: pre, c', ?_, ?_, hhalt, hret⟩
          · simp only [componentCalls, List.filterMap_cons, Event.call?, List.cons_append] at hc ⊢
            rw [hc]
          · intro x hx
            rcases List.mem_cons.mp hx with rfl | hx
            · exact hh
            · exact hpre x hx

/-! ## The store -/

theorem Store.lookup_key {s : Store} {key : NamespacedName} {o : OpenSearchCluster}
    (h : s.lookup key = some o) : ObjectKeyFromObject o = key := by
  have := List.find?_some h
  simpa using this

theorem Store.lookup_put_self (s : Store) (obj cur : OpenSearchCluster)
    (h : s.lookup (ObjectKeyFromObject obj) = some cur) :
    (s.put obj).lookup (ObjectKeyFromObject obj) = some obj := by
  induction s with
  | nil => simp [Store.lookup] at h
  | cons a t ih =>
    by_cases ha : ObjectKeyFromObject a = ObjectKeyFromObject obj
    · simp [Store.lookup, Store.put, ha]
    · have ht : Store.lookup t (ObjectKeyFromObject obj) = some cur := by
        simpa [Store.lookup, List.find?_cons, ha] using h
      have := ih ht
      simpa [Store.lookup, Store.put, List.find?_cons, ha] using this

theorem Store.lookup_put_other (s : Store) (obj : OpenSearchCluster) (key : NamespacedName)
    (h : key ≠ ObjectKeyFromObject obj) : (s.put obj).lookup key = s.lookup key := by
  induction s with
  | nil => rfl
  | cons a t ih =>
    by_cases ha : ObjectKeyFromObject a = ObjectKeyFromObject obj
    · have hk : ¬ ObjectKeyFromObject obj = key := fun hh => h hh.symm
      have hk2 : ¬ ObjectKeyFromObject a = key := fun hh => h (hh.symm.trans ha)
      simpa [Store.lookup, Store.put, List.find?_cons, ha, hk, hk2] using ih
    · by_cases hk : ObjectKeyFromObject a = key
      · subst hk
        simp [Store.lookup, Store.put, List.find?_cons, ha]
      · simpa [Store.lookup, Store.put, List.find?_cons, ha, hk] using ih

/-! ## The client operations, case by case -/

theorem Get_cases (env : Env) (key : NamespacedName) (obj : OpenSearchCluster) (w : World) :
    (∃ e, Get env key obj w = (some e, obj, w.log (Event.get key none (some e)))) ∨
    (∃ o, env.fault w.clock = none ∧ w.store.lookup key = some o ∧
      Get env key obj w = (none, o, w.log (Event.get key (some o) none))) := by
  unfold Get
  cases hf : env.fault w.clock with
  | some e => exact Or.inl ⟨e, rfl⟩
  | none =>
    cases hl : w.store.lookup key with
    | none => exact Or.inl ⟨errNotFound, rfl⟩
    | some o => exact Or.inr ⟨o, rfl, rfl, rfl⟩

theorem Get_ok (env : Env) (key : NamespacedName) (obj o : OpenSearchCluster) (w : World)
    (hf : env.fault w.clock = none) (hl : w.store.lookup key = some o) :
    Get env key obj w = (none, o, w.log (Event.get key (some o) none)) := by
  simp [Get, hf, hl]

theorem Update_cases (env : Env) (obj : OpenSearchCluster) (w : World) :
    (∃ e, Update env obj w = (some e, obj, w.log (Event.update obj (some e)))) ∨
    (∃ cur, env.fault w.clock = none ∧ w.store.lookup (ObjectKeyFromObject obj) = some cur ∧
      cur.ObjectMeta.ResourceVersion = obj.ObjectMeta.ResourceVersion ∧
      Update env obj w = (none, writeMeta cur obj,
        { store := w.store.put (writeMeta cur obj),
          trace := w.trace ++ [Event.update obj none] })) := by
  unfold Update
  cases hf : env.fault w.clock with
  | some e => exact Or.inl ⟨e, rfl⟩
  | none =>
    cases hl : w.store.lookup (ObjectKeyFromObject obj) with
    | none => exact Or.inl ⟨errNotFound, rfl⟩
    | some cur =>
      by_cases hv : cur.ObjectMeta.ResourceVersion = obj.ObjectMeta.ResourceVersion
      · exact Or.inr ⟨cur, rfl, rfl, hv, by simp [hv]⟩
      · exact Or.inl ⟨errConflict, by simp [hv]⟩

theorem StatusUpdate_cases (env : Env) (obj : OpenSearchCluster) (w : World) :
    (∃ e, StatusUpdate env obj w = (some e, obj, w.log (Event.statusUpdate obj (some e)))) ∨
    (∃ cur, env.fault w.clock = none ∧ w.store.lookup (ObjectKeyFromObject obj) = some cur ∧
      cur.ObjectMeta.ResourceVersion = obj.ObjectMeta.ResourceVersion ∧
      StatusUpdate env obj w = (none, writeStatus cur obj,
        { store := w.store.put (writeStatus cur obj),
          trace := w.trace ++ [Event.statusUpdate obj none] })) := by
  unfold StatusUpdate
  cases hf : env.fault w.clock with
  | some e => exact Or.inl ⟨e, rfl⟩
  | none =>
    cases hl : w.store.lookup (ObjectKeyFromObject obj) with
    | none => exact Or.inl ⟨errNotFound, rfl⟩
    | some cur =>
      by_cases hv : cur.ObjectMeta.ResourceVersion = obj.ObjectMeta.ResourceVersion
      · exact Or.inr ⟨cur, rfl, rfl, hv, by simp [hv]⟩
      · exact Or.inl ⟨errConflict, by simp [hv]⟩

/-! ## The retry policy -/

theorem OnError_succ {σ : Type} (retriable : Err → Bool) (fn : σ → Option Err × σ) (n : Nat) :
    ∀ (lastErr : Option Err) (s : σ),
      ∃ k s1, k ≤ n ∧ Retried retriable fn k s s1 ∧
        OnError retriable fn (n + 1) lastErr s = fn s1 ∧
        (k < n → ∀ e, (fn s1).1 = some e → retriable e = false) := by
  induction n with
  | zero =>
    intro lastErr s
    refine ⟨0, s, Nat.le_refl _, Retried.zero s, ?_, fun h => absurd h (Nat.lt_irrefl _)⟩
    unfold OnError
    rcases hfn : fn s with ⟨_ | e, s1⟩
    · rfl
    · by_cases hr : retriable e = true <;> simp [hr, OnError]
  | succ n ih =>
    intro lastErr s
    rcases hfn : fn s with ⟨_ | e, s1⟩
    · refine ⟨0, s, Nat.zero_le _, Retried.zero s, ?_, ?_⟩
      · rw [OnError, hfn]
      · intro _ e he
        rw [hfn] at he
        cases he
    · by_cases hr : retriable e = true
      · obtain ⟨k, s2, hk, hret, heq, hlast⟩ := ih (some e) s1
        refine ⟨k + 1, s2, Nat.succ_le_succ hk, Retried.succ hfn hr hret, ?_, ?_⟩
        · rw [OnError, hfn]
          simp only [hr, if_true]
          exact heq
        · intro hlt
          exact hlast (Nat.lt_of_succ_lt_succ hlt)
      · refine ⟨0, s, Nat.zero_le _, Retried.zero s, ?_, ?_⟩
        · rw [OnError, hfn]
          simp [hr]
        · intro _ e1 he1
          rw [hfn] at he1
          simp only [Option.some.injEq] at he1
          subst he1
          simpa using hr

theorem RetryOnConflict_default {σ : Type} (fn : σ → Option Err × σ) (s : σ) :
    ∃ k s1, k ≤ 4 ∧ Retried IsConflict fn k s s1 ∧ RetryOnConflict DefaultRetry fn s = fn s1 ∧
      (k < 4 → ∀ e, (fn s1).1 = some e → IsConflict e = false) :=
  OnError_succ IsConflict fn 4 none s

theorem RetryOnConflict_first {σ : Type} (fn : σ → Option Err × σ) (s : σ)
    (h : (fn s).1 = none) : RetryOnConflict DefaultRetry fn s = fn s := by
  rcases hfn : fn s with ⟨_ | e, s1⟩
  · simp [RetryOnConflict, DefaultRetry, OnError, hfn]
  · rw [hfn] at h
    cases h

theorem Retried_segment (A : NamespacedName → Store → Option Err → List Event → Prop)
    (κ : OpenSearchCluster → NamespacedName)
    (fn : OpenSearchCluster × World → Option Err × OpenSearchCluster × World)
    (hfn : ∀ s, ∃ seg, (fn s).2.2.trace = s.2.trace ++ seg ∧ A (κ s.1) s.2.store (fn s).1 seg ∧
      ((fn s).1 ≠ none → (fn s).2.2.store = s.2.store ∧ κ (fn s).2.1 = κ s.1))
    {k : Nat} {s s1 : OpenSearchCluster × World} (h : Retried IsConflict fn k s s1) :
    s1.2.store = s.2.store ∧ κ s1.1 = κ s.1 ∧
      ∃ atoms : List (List Event), atoms.length = k ∧ s1.2.trace = s.2.trace ++ atoms.flatten ∧
        ∀ a ∈ atoms, ∃ e, IsConflict e = true ∧ A (κ s.1) s.2.store (some e) a := by
  induction h with
  | zero s => exact ⟨rfl, rfl, [], rfl, by simp, by simp⟩
  | @succ k s s1 s2 e hrun hconf _ ih =>
    obtain ⟨seg, htr, hA, hkeep⟩ := hfn s
    rw [hrun] at htr hA hkeep
    obtain ⟨hst, hκ⟩ := hkeep (by simp)
    obtain ⟨hst2, hκ2, atoms, hlen, htr2, hall⟩ := ih
    simp only at htr hA hst hκ
    refine ⟨hst2.trans hst, hκ2.trans hκ, seg :: atoms, by simp [hlen], ?_, ?_⟩
    · rw [htr2, htr]
      simp
    · intro a ha
      rcases List.mem_cons.mp ha with rfl | ha
      · exact ⟨e, hconf, hA⟩
      · obtain ⟨e1, he1, hA1⟩ := hall a ha
        rw [hst, hκ] at hA1
        exact ⟨e1, he1, hA1⟩

theorem RetryOnConflict_segment (A : NamespacedName → Store → Option Err → List Event → Prop)
    (κ : OpenSearchCluster → NamespacedName)
    (fn : OpenSearchCluster × World → Option Err × OpenSearchCluster × World)
    (hfn : ∀ s, ∃ seg, (fn s).2.2.trace = s.2.trace ++ seg ∧ A (κ s.1) s.2.store (fn s).1 seg ∧
      ((fn s).1 ≠ none → (fn s).2.2.store = s.2.store ∧ κ (fn s).2.1 = κ s.1))
    (s : OpenSearchCluster × World) :
    ∃ atoms last s1,
      (RetryOnConflict DefaultRetry fn s).2.2.trace = s.2.trace ++ atoms.flatten ++ last ∧
      RetrySegment (A (κ s.1) s.2.store) (RetryOnConflict DefaultRetry fn s).1 atoms last ∧
      ((RetryOnConflict DefaultRetry fn s).1 ≠ none →
        (RetryOnConflict DefaultRetry fn s).2.2.store = s.2.store) ∧
      s1.2.store = s.2.store ∧ κ s1.1 = κ s.1 ∧ s1.2.trace = s.2.trace ++ atoms.flatten ∧
      (fn s1).2.2.trace = s1.2.trace ++ last ∧
      RetryOnConflict DefaultRetry fn s = fn s1 := by
  obtain ⟨k, s1, hk, hret, heq, hlast⟩ := RetryOnConflict_default fn s
  obtain ⟨hst, hκ, atoms, hlen, htr, hall⟩ := Retried_segment A κ fn hfn hret
  obtain ⟨last, hl, hA, hkeep⟩ := hfn s1
  rw [heq]
  refine ⟨atoms, last, s1, ?_, ⟨by omega, hall, ?_, ?_⟩, ?_, hst, hκ, htr, hl, rfl⟩
  · rw [hl, htr]
  · rw [← hst, ← hκ]
    exact hA
  · intro hlt
    exact hlast (by omega)
  · intro hne
    rw [(hkeep hne).1, hst]

/-! ## The retried closures -/

theorem AddFinalizer_key (o : OpenSearchCluster) (m : String) :
    ObjectKeyFromObject (AddFinalizer o m) = ObjectKeyFromObject o := by
  unfold AddFinalizer
  split <;> rfl

theorem AddFinalizer_version (o : OpenSearchCluster) (m : String) :
    (AddFinalizer o m).ObjectMeta.ResourceVersion = o.ObjectMeta.ResourceVersion := by
  unfold AddFinalizer
  split <;> rfl

theorem RemoveFinalizer_key (o : OpenSearchCluster) (m : String) :
    ObjectKeyFromObject (RemoveFinalizer o m) = ObjectKeyFromObject o := rfl

theorem RemoveFinalizer_version (o : OpenSearchCluster) (m : String) :
    (RemoveFinalizer o m).ObjectMeta.ResourceVersion = o.ObjectMeta.ResourceVersion := rfl

theorem finalizerAttempt_get_err (env : Env) (key : NamespacedName)
    (change : OpenSearchCluster → String → OpenSearchCluster) {obj obj1 : OpenSearchCluster}
    {w w1 : World} {e : Err} (h : Get env key obj w = (some e, obj1, w1)) :
    finalizerAttempt env key change (obj, w) = (some e, obj1, w1) := by
  simp [finalizerAttempt, h]

theorem finalizerAttempt_get_ok (env : Env) (key : NamespacedName)
    (change : OpenSearchCluster → String → OpenSearchCluster) {obj o : OpenSearchCluster}
    {w w1 : World} (h : Get env key obj w = (none, o, w1)) :
    finalizerAttempt env key change (obj, w) = Update env (change o myFinalizerName) w1 := by
  simp [finalizerAttempt, h]

theorem pendingAttempt_get_err (env : Env) {obj obj1 : OpenSearchCluster}
    {w w1 : World} {e : Err} (h : Get env (ObjectKeyFromObject obj) obj w = (some e, obj1, w1)) :
    pendingAttempt env (obj, w) = (some e, obj1, w1) := by
  simp [pendingAttempt, h]

theorem pendingAttempt_get_ok (env : Env) {obj o : OpenSearchCluster}
    {w w1 : World} (h : Get env (ObjectKeyFromObject obj) obj w = (none, o, w1)) :
    pendingAttempt env (obj, w) =
      StatusUpdate env
        { o with Status := { o.Status with Phase := PhaseRunning, ComponentsStatus := [] } }
        w1 := by
  simp [pendingAttempt, h]

theorem initializedAttempt_get_err (env : Env) {obj obj1 : OpenSearchCluster}
    {w w1 : World} {e : Err} (h : Get env (ObjectKeyFromObject obj) obj w = (some e, obj1, w1)) :
    initializedAttempt env (obj, w) = (some e, obj1, w1) := by
  simp [initializedAttempt, h]

theorem initializedAttempt_get_ok (env : Env) {obj o : OpenSearchCluster}
    {w w1 : World} (h : Get env (ObjectKeyFromObject obj) obj w = (none, o, w1)) :
    initializedAttempt env (obj, w) =
      StatusUpdate env
        { o with Status := { o.Status with
            Initialized := env.AllMastersReady w1.clock o w1.store } }
        (w1.log (Event.allMastersReady o (env.AllMastersReady w1.clock o w1.store))) := by
  simp [initializedAttempt, h]

theorem finalizerAttempt_run (env : Env) (key : NamespacedName)
    (change : OpenSearchCluster → String → OpenSearchCluster)
    (s : OpenSearchCluster × World) :
    ∃ seg, (finalizerAttempt env key change s).2.2.trace = s.2.trace ++ seg ∧
      FinalizerAtom change key s.2.store (finalizerAttempt env key change s).1 seg ∧
      ((finalizerAttempt env key change s).1 ≠ none →
        (finalizerAttempt env key change s).2.2.store = s.2.store ∧
        (fun _ => key) (finalizerAttempt env key change s).2.1 = (fun _ => key) s.1) := by
  obtain ⟨obj, w⟩ := s
  rcases Get_cases env key obj w with ⟨e, hg⟩ | ⟨o, _, hl, hg⟩
  · rw [finalizerAttempt_get_err env key change hg]
    exact ⟨_, by simp [World.log], Or.inl ⟨e, rfl, rfl⟩, fun _ => ⟨rfl, rfl⟩⟩
  · rw [finalizerAttempt_get_ok env key change hg]
    rcases Update_cases env (change o myFinalizerName) (w.log (Event.get key (some o) none))
      with ⟨e, hu⟩ | ⟨cur, _, _, _, hu⟩
    · rw [hu]
      exact ⟨[Event.get key (some o) none, Event.update (change o myFinalizerName) (some e)],
        by simp [World.log], Or.inr ⟨o, hl, rfl⟩, fun _ => ⟨rfl, rfl⟩⟩
    · rw [hu]
      exact ⟨[Event.get key (some o) none, Event.update (change o myFinalizerName) none],
        by simp [World.log], Or.inr ⟨o, hl, rfl⟩, fun h => absurd rfl h⟩

theorem finalizerAttempt_ok (env : Env) (key : NamespacedName)
    (change : OpenSearchCluster → String → OpenSearchCluster)
    (hkey : ∀ o m, ObjectKeyFromObject (change o m) = ObjectKeyFromObject o)
    (s : OpenSearchCluster × World) (h : (finalizerAttempt env key change s).1 = none) :
    ∃ o, s.2.store.lookup key = some o ∧
      (finalizerAttempt env key change s).2.1 = writeMeta o (change o myFinalizerName) ∧
      (finalizerAttempt env key change s).2.2.store =
        s.2.store.put (writeMeta o (change o myFinalizerName)) := by
  obtain ⟨obj, w⟩ := s
  rcases Get_cases env key obj w with ⟨e, hg⟩ | ⟨o, _, hl, hg⟩
  · rw [finalizerAttempt_get_err env key change hg] at h
    cases h
  · rw [finalizerAttempt_get_ok env key change hg] at h ⊢
    rcases Update_cases env (change o myFinalizerName) (w.log (Event.get key (some o) none))
      with ⟨e, hu⟩ | ⟨cur, _, hc, _, hu⟩
    · rw [hu] at h
      cases h
    · rw [hu]
      have hk : ObjectKeyFromObject (change o myFinalizerName) = key :=
        (hkey o myFinalizerName).trans (Store.lookup_key hl)
      rw [hk] at hc
      have hco : cur = o := by
        have : (w.log (Event.get key (some o) none)).store = w.store := rfl
        rw [this, hl] at hc
        exact (Option.some.inj hc).symm
      subst hco
      exact ⟨cur, hl, rfl, rfl⟩

theorem finalizerAttempt_noFault (env : Env) (key : NamespacedName)
    (change : OpenSearchCluster → String → OpenSearchCluster)
    (hkey : ∀ o m, ObjectKeyFromObject (change o m) = ObjectKeyFromObject o)
    (hver : ∀ o m, (change o m).ObjectMeta.ResourceVersion = o.ObjectMeta.ResourceVersion)
    (obj o : OpenSearchCluster) (w : World) (hl : w.store.lookup key = some o)
    (h0 : env.fault w.clock = none) (h1 : env.fault (w.clock + 1) = none) :
    finalizerAttempt env key change (obj, w) =
      (none, writeMeta o (change o myFinalizerName),
        { store := w.store.put (writeMeta o (change o myFinalizerName)),
          trace := w.trace ++ [Event.get key (some o) none,
            Event.update (change o myFinalizerName) none] }) := by
  have hk : ObjectKeyFromObject (change o myFinalizerName) = key :=
    (hkey o myFinalizerName).trans (Store.lookup_key hl)
  rw [finalizerAttempt_get_ok env key change (Get_ok env key obj o w h0 hl)]
  simp only [World.clock] at h1
  simp [Update, h1, hk, hl, hver, World.log, World.clock]

theorem pendingAttempt_run (env : Env) (s : OpenSearchCluster × World) :
    ∃ seg, (pendingAttempt env s).2.2.trace = s.2.trace ++ seg ∧
      PendingAtom (ObjectKeyFromObject s.1) s.2.store (pendingAttempt env s).1 seg ∧
      ((pendingAttempt env s).1 ≠ none →
        (pendingAttempt env s).2.2.store = s.2.store ∧
        ObjectKeyFromObject (pendingAttempt env s).2.1 = ObjectKeyFromObject s.1) := by
  obtain ⟨obj, w⟩ := s
  rcases Get_cases env (ObjectKeyFromObject obj) obj w with ⟨e, hg⟩ | ⟨o, _, hl, hg⟩
  · rw [pendingAttempt_get_err env hg]
    exact ⟨_, by simp [World.log], Or.inl ⟨e, rfl, rfl⟩, fun _ => ⟨rfl, rfl⟩⟩
  · rw [pendingAttempt_get_ok env hg]
    have hk : ObjectKeyFromObject o = ObjectKeyFromObject obj := Store.lookup_key hl
    rcases StatusUpdate_cases env
      { o with Status := { o.Status with Phase := PhaseRunning, ComponentsStatus := [] } }
      (w.log (Event.get (ObjectKeyFromObject obj) (some o) none))
      with ⟨e, hu⟩ | ⟨cur, _, _, _, hu⟩
    · rw [hu]
      exact ⟨[Event.get (ObjectKeyFromObject obj) (some o) none, _],
        by simp [World.log], Or.inr ⟨o, hl, rfl⟩, fun _ => ⟨rfl, hk⟩⟩
    · rw [hu]
      exact ⟨[Event.get (ObjectKeyFromObject obj) (some o) none, _],
        by simp [World.log], Or.inr ⟨o, hl, rfl⟩, fun h => absurd rfl h⟩

theorem initializedAttempt_run (env : Env) (s : OpenSearchCluster × World) :
    ∃ seg, (initializedAttempt env s).2.2.trace = s.2.trace ++ seg ∧
      InitializedAtom (ObjectKeyFromObject s.1) s.2.store (initializedAttempt env s).1 seg ∧
      ((initializedAttempt env s).1 ≠ none →
        (initializedAttempt env s).2.2.store = s.2.store ∧
        ObjectKeyFromObject (initializedAttempt env s).2.1 = ObjectKeyFromObject s.1) := by
  obtain ⟨obj, w⟩ := s
  rcases Get_cases env (ObjectKeyFromObject obj) obj w with ⟨e, hg⟩ | ⟨o, _, hl, hg⟩
  · rw [initializedAttempt_get_err env hg]
    exact ⟨_, by simp [World.log], Or.inl ⟨e, rfl, rfl⟩, fun _ => ⟨rfl, rfl⟩⟩
  · rw [initializedAttempt_get_ok env hg]
    have hk : ObjectKeyFromObject o = ObjectKeyFromObject obj := Store.lookup_key hl
    generalize env.AllMastersReady (w.log (Event.get (ObjectKeyFromObject obj) (some o) none)).clock
      o (w.log (Event.get (ObjectKeyFromObject obj) (some o) none)).store = b
    rcases StatusUpdate_cases env
      { o with Status := { o.Status with Initialized := b } }
      ((w.log (Event.get (ObjectKeyFromObject obj) (some o) none)).log
        (Event.allMastersReady o b))
      with ⟨e, hu⟩ | ⟨cur, _, _, _, hu⟩
    · rw [hu]
      exact ⟨[Event.get (ObjectKeyFromObject obj) (some o) none, Event.allMastersReady o b, _],
        by simp [World.log], Or.inr ⟨o, b, hl, rfl⟩, fun _ => ⟨rfl, hk⟩⟩
    · rw [hu]
      exact ⟨[Event.get (ObjectKeyFromObject obj) (some o) none, Event.allMastersReady o b, _],
        by simp [World.log], Or.inr ⟨o, b, hl, rfl⟩, fun h => absurd rfl h⟩

theorem pendingAttempt_ok (env : Env) (obj : OpenSearchCluster) (w : World)
    (h : (pendingAttempt env (obj, w)).1 = none) :
    ∃ o, w.store.lookup (ObjectKeyFromObject obj) = some o ∧
      pendingAttempt env (obj, w) =
        (none,
         writeStatus o
          { o with Status := { o.Status with Phase := PhaseRunning, ComponentsStatus := [] } },
         { store := w.store.put (writeStatus o
            { o with Status := { o.Status with Phase := PhaseRunning, ComponentsStatus := [] } }),
           trace := w.trace ++ [Event.get (ObjectKeyFromObject obj) (some o) none,
            Event.statusUpdate
              { o with Status := { o.Status with Phase := PhaseRunning, ComponentsStatus := [] } }
              none] }) := by
  rcases Get_cases env (ObjectKeyFromObject obj) obj w with ⟨e, hg⟩ | ⟨o, _, hl, hg⟩
  · rw [pendingAttempt_get_err env hg] at h
    cases h
  · rw [pendingAttempt_get_ok env hg] at h ⊢
    rcases StatusUpdate_cases env
      { o with Status := { o.Status with Phase := PhaseRunning, ComponentsStatus := [] } }
      (w.log (Event.get (ObjectKeyFromObject obj) (some o) none))
      with ⟨e, hu⟩ | ⟨cur, _, hc, _, hu⟩
    · rw [hu] at h
      cases h
    · rw [hu]
      have hk : ObjectKeyFromObject o = ObjectKeyFromObject obj := Store.lookup_key hl
      have hc' : w.store.lookup (ObjectKeyFromObject o) = some cur := hc
      rw [hk, hl] at hc'
      have hco : o = cur := Option.some.inj hc'
      subst hco
      exact ⟨o, hl, by simp [World.log]⟩

theorem initializedAttempt_ok (env : Env) (obj : OpenSearchCluster) (w : World)
    (h : (initializedAttempt env (obj, w)).1 = none) :
    ∃ o, w.store.lookup (ObjectKeyFromObject obj) = some o ∧
      initializedAttempt env (obj, w) =
        (none,
         writeStatus o { o with Status := { o.Status with
            Initialized := env.AllMastersReady (w.clock + 1) o w.store } },
         { store := w.store.put (writeStatus o { o with Status := { o.Status with
              Initialized := env.AllMastersReady (w.clock + 1) o w.store } }),
           trace := w.trace ++ [Event.get (ObjectKeyFromObject obj) (some o) none,
            Event.allMastersReady o (env.AllMastersReady (w.clock + 1) o w.store),
            Event.statusUpdate { o with Status := { o.Status with
              Initialized := env.AllMastersReady (w.clock + 1) o w.store } } none] }) := by
  rcases Get_cases env (ObjectKeyFromObject obj) obj w with ⟨e, hg⟩ | ⟨o, _, hl, hg⟩
  · rw [initializedAttempt_get_err env hg] at h
    cases h
  · rw [initializedAttempt_get_ok env hg] at h ⊢
    have hclk : (w.log (Event.get (ObjectKeyFromObject obj) (some o) none)).clock = w.clock + 1 := by
      simp [World.log, World.clock]
    have hst : (w.log (Event.get (ObjectKeyFromObject obj) (some o) none)).store = w.store := rfl
    rw [hclk, hst] at h ⊢
    rcases StatusUpdate_cases env
      { o with Status := { o.Status with
          Initialized := env.AllMastersReady (w.clock + 1) o w.store } }
      ((w.log (Event.get (ObjectKeyFromObject obj) (some o) none)).log
        (Event.allMastersReady o (env.AllMastersReady (w.clock + 1) o w.store)))
      with ⟨e, hu⟩ | ⟨cur, _, hc, _, hu⟩
    · rw [hu] at h
      cases h
    · rw [hu]
      have hk : ObjectKeyFromObject o = ObjectKeyFromObject obj := Store.lookup_key hl
      have hc' : w.store.lookup (ObjectKeyFromObject o) = some cur := hc
      rw [hk, hl] at hc'
      have hco : o = cur := Option.some.inj hc'
      subst hco
      exact ⟨o, hl, by simp [World.log]⟩

theorem initializedAttempt_noFault (env : Env) (obj cur : OpenSearchCluster) (w : World)
    (hl : w.store.lookup (ObjectKeyFromObject obj) = some cur)
    (h0 : env.fault w.clock = none) (h2 : env.fault (w.clock + 2) = none) :
    (initializedAttempt env (obj, w)).1 = none := by
  rw [initializedAttempt_get_ok env (Get_ok env _ obj cur w h0 hl)]
  have hk : ObjectKeyFromObject cur = ObjectKeyFromObject obj := Store.lookup_key hl
  simp only [World.clock] at h2
  simp [StatusUpdate, World.log, World.clock, h2]
  have hk2 : ObjectKeyFromObject
      { ObjectMeta := cur.ObjectMeta, Spec := cur.Spec,
        Status := { Phase := cur.Status.Phase, ComponentsStatus := cur.Status.ComponentsStatus,
                    Initialized := env.AllMastersReady (w.trace.length + 1) cur w.store } }
      = ObjectKeyFromObject obj := hk
  simp [hk2, hl]

theorem pendingAttempt_noFault (env : Env) (obj cur : OpenSearchCluster) (w : World)
    (hl : w.store.lookup (ObjectKeyFromObject obj) = some cur)
    (h0 : env.fault w.clock = none) (h1 : env.fault (w.clock + 1) = none) :
    (pendingAttempt env (obj, w)).1 = none := by
  rw [pendingAttempt_get_ok env (Get_ok env _ obj cur w h0 hl)]
  have hk : ObjectKeyFromObject cur = ObjectKeyFromObject obj := Store.lookup_key hl
  simp only [World.clock] at h1
  simp [StatusUpdate, World.log, World.clock, h1]
  have hk2 : ObjectKeyFromObject
      { ObjectMeta := cur.ObjectMeta, Spec := cur.Spec,
        Status := { Phase := PhaseRunning, ComponentsStatus := [],
                    Initialized := cur.Status.Initialized } }
      = ObjectKeyFromObject obj := hk
  simp [hk2, hl]

/-! ## The three retried writes -/

theorem finalizer_retry (env : Env) (key : NamespacedName)
    (change : OpenSearchCluster → String → OpenSearchCluster)
    (hkey : ∀ o m, ObjectKeyFromObject (change o m) = ObjectKeyFromObject o)
    (obj : OpenSearchCluster) (w : World) :
    ∃ atoms last,
      (RetryOnConflict DefaultRetry (finalizerAttempt env key change) (obj, w)).2.2.trace
        = w.trace ++ atoms.flatten ++ last ∧
      RetrySegment (FinalizerAtom change key w.store)
        (RetryOnConflict DefaultRetry (finalizerAttempt env key change) (obj, w)).1 atoms last ∧
      ((RetryOnConflict DefaultRetry (finalizerAttempt env key change) (obj, w)).1 ≠ none →
        (RetryOnConflict DefaultRetry (finalizerAttempt env key change) (obj, w)).2.2.store
          = w.store) ∧
      ((RetryOnConflict DefaultRetry (finalizerAttempt env key change) (obj, w)).1 = none →
        ∃ o, w.store.lookup key = some o ∧
          (RetryOnConflict DefaultRetry (finalizerAttempt env key change) (obj, w)).2.1
            = writeMeta o (change o myFinalizerName) ∧
          (RetryOnConflict DefaultRetry (finalizerAttempt env key change) (obj, w)).2.2.store
            = w.store.put (writeMeta o (change o myFinalizerName))) := by
  obtain ⟨atoms, last, s1, htr, hseg, hkeep, hst, _, _, _, heq⟩ :=
    RetryOnConflict_segment (FinalizerAtom change) (fun _ => key)
      (finalizerAttempt env key change) (finalizerAttempt_run env key change) (obj, w)
  refine ⟨atoms, last, htr, hseg, hkeep, ?_⟩
  intro hnone
  rw [heq] at hnone ⊢
  obtain ⟨o, hl, h1, h2⟩ := finalizerAttempt_ok env key change hkey s1 hnone
  rw [hst] at hl h2
  exact ⟨o, hl, h1, h2⟩

theorem pending_retry (env : Env) (obj : OpenSearchCluster) (w : World) :
    ∃ atoms last,
      (RetryOnConflict DefaultRetry (pendingAttempt env) (obj, w)).2.2.trace
        = w.trace ++ atoms.flatten ++ last ∧
      RetrySegment (PendingAtom (ObjectKeyFromObject obj) w.store)
        (RetryOnConflict DefaultRetry (pendingAttempt env) (obj, w)).1 atoms last ∧
      ((RetryOnConflict DefaultRetry (pendingAttempt env) (obj, w)).1 ≠ none →
        (RetryOnConflict DefaultRetry (pendingAttempt env) (obj, w)).2.2.store = w.store) ∧
      ((RetryOnConflict DefaultRetry (pendingAttempt env) (obj, w)).1 = none →
        ∃ o, w.store.lookup (ObjectKeyFromObject obj) = some o ∧
          last = [Event.get (ObjectKeyFromObject obj) (some o) none,
            Event.statusUpdate { o with Status :=
              { o.Status with Phase := PhaseRunning, ComponentsStatus := [] } } none] ∧
          (RetryOnConflict DefaultRetry (pendingAttempt env) (obj, w)).2.2.store
            = w.store.put (writeStatus o { o with Status :=
                { o.Status with Phase := PhaseRunning, ComponentsStatus := [] } })) := by
  obtain ⟨atoms, last, s1, htr, hseg, hkeep, hst, hκ, _, hl1, heq⟩ :=
    RetryOnConflict_segment PendingAtom ObjectKeyFromObject
      (pendingAttempt env) (pendingAttempt_run env) (obj, w)
  refine ⟨atoms, last, htr, hseg, hkeep, ?_⟩
  intro hnone
  rw [heq] at hnone ⊢
  obtain ⟨o, hl, h2⟩ := pendingAttempt_ok env s1.1 s1.2 hnone
  rw [hst, hκ] at hl
  have h2' : pendingAttempt env s1 = _ := h2
  rw [h2'] at hl1 ⊢
  rw [hst]
  refine ⟨o, hl, ?_, rfl⟩
  have := List.append_cancel_left hl1
  rw [← this, hκ]

theorem initialized_retry (env : Env) (obj : OpenSearchCluster) (w : World) :
    ∃ atoms last,
      (RetryOnConflict DefaultRetry (initializedAttempt env) (obj, w)).2.2.trace
        = w.trace ++ atoms.flatten ++ last ∧
      RetrySegment (InitializedAtom (ObjectKeyFromObject obj) w.store)
        (RetryOnConflict DefaultRetry (initializedAttempt env) (obj, w)).1 atoms last ∧
      ((RetryOnConflict DefaultRetry (initializedAttempt env) (obj, w)).1 ≠ none →
        (RetryOnConflict DefaultRetry (initializedAttempt env) (obj, w)).2.2.store = w.store) ∧
      ((RetryOnConflict DefaultRetry (initializedAttempt env) (obj, w)).1 = none →
        ∃ o b, w.store.lookup (ObjectKeyFromObject obj) = some o ∧
          b = env.AllMastersReady (w.clock + atoms.flatten.length + 1) o w.store ∧
          last = [Event.get (ObjectKeyFromObject obj) (some o) none,
            Event.allMastersReady o b,
            Event.statusUpdate { o with Status := { o.Status with Initialized := b } } none] ∧
          (RetryOnConflict DefaultRetry (initializedAttempt env) (obj, w)).2.1
            = writeStatus o { o with Status := { o.Status with Initialized := b } } ∧
          (RetryOnConflict DefaultRetry (initializedAttempt env) (obj, w)).2.2.store
            = w.store.put (writeStatus o
                { o with Status := { o.Status with Initialized := b } })) := by
  obtain ⟨atoms, last, s1, htr, hseg, hkeep, hst, hκ, htr1, hl1, heq⟩ :=
    RetryOnConflict_segment InitializedAtom ObjectKeyFromObject
      (initializedAttempt env) (initializedAttempt_run env) (obj, w)
  refine ⟨atoms, last, htr, hseg, hkeep, ?_⟩
  intro hnone
  rw [heq] at hnone ⊢
  obtain ⟨o, hl, h2⟩ := initializedAttempt_ok env s1.1 s1.2 hnone
  rw [hst, hκ] at hl
  have h2' : initializedAttempt env s1 = _ := h2
  rw [h2'] at hl1 ⊢
  have hclk : s1.2.clock + 1 = w.clock + atoms.flatten.length + 1 := by
    simp [World.clock, htr1]
  rw [hst, hclk]
  refine ⟨o, _, hl, rfl, ?_, rfl, rfl⟩
  have := List.append_cancel_left hl1
  rw [← this, hκ, hst, hclk]

/-- Every event of a retried write satisfies what every event of each of its runs does. -/
theorem RetrySegment.forall_mem {A : Option Err → List Event → Prop} {err : Option Err}
    {atoms : List (List Event)} {last : List Event} (p : Event → Prop)
    (hA : ∀ err a, A err a → ∀ e ∈ a, p e)
    (h : RetrySegment A err atoms last) : ∀ e ∈ atoms.flatten ++ last, p e := by
  obtain ⟨_, hall, hlast, _⟩ := h
  intro e he
  rcases List.mem_append.mp he with he | he
  · obtain ⟨a, ha, hea⟩ := List.mem_flatten.mp he
    obtain ⟨e1, _, hA1⟩ := hall a ha
    exact hA _ a hA1 e hea
  · exact hA _ last hlast e he

/-! ## The loops against the answers of the units -/

theorem unitEvents_length (env : Env) (l : List (Component × Method)) :
    ∀ (obj : OpenSearchCluster) (s : Store) (n : Nat),
      (unitEvents env l obj s n).length = l.length := by
  induction l with
  | nil => intro obj s n; rfl
  | cons b rest ih =>
    intro obj s n
    obtain ⟨c, m⟩ := b
    simp [unitEvents, ih]

/-- What a loop appends to the history is an initial stretch of the answers of its
units, each asked on the object and the store the one before it left. -/
theorem runComponentReconcilers_answers (env : Env) (l : List (Component × Method)) :
    ∀ (obj : OpenSearchCluster) (w : World) (seg : List Event),
      (runComponentReconcilers env l obj w).2.2.trace = w.trace ++ seg →
      seg = (unitEvents env l obj w.store w.clock).take seg.length := by
  induction l with
  | nil =>
    intro obj w seg h
    have h1 : w.trace ++ seg = w.trace ++ [] := by
      rw [← h]
      simp [runComponentReconcilers]
    rw [List.append_cancel_left h1]
    rfl
  | cons b rest ih =>
    intro obj w seg h
    obtain ⟨c, m⟩ := b
    rw [runComponentReconcilers_cons] at h
    split at h
    · have h1 : w.trace ++ seg = w.trace ++ [Event.component c m obj
          (env.reconcilers c m w.clock obj w.store).result
          (env.reconcilers c m w.clock obj w.store).err] := h.symm
      rw [List.append_cancel_left h1]
      simp [unitEvents]
    · obtain ⟨seg1, htr1, _⟩ := runComponentReconcilers_spec env rest
        (env.reconcilers c m w.clock obj w.store).obj
        { store := (env.reconcilers c m w.clock obj w.store).store,
          trace := w.trace ++ [Event.component c m obj
            (env.reconcilers c m w.clock obj w.store).result
            (env.reconcilers c m w.clock obj w.store).err] }
      have hs1 := ih _ _ seg1 htr1
      rw [htr1] at h
      have h1 : w.trace ++ seg = w.trace ++ (Event.component c m obj
          (env.reconcilers c m w.clock obj w.store).result
          (env.reconcilers c m w.clock obj w.store).err :: seg1) := by
        rw [← h]
        simp
      rw [List.append_cancel_left h1]
      have hclock : (World.mk (env.reconcilers c m w.clock obj w.store).store
          (w.trace ++ [Event.component c m obj
            (env.reconcilers c m w.clock obj w.store).result
            (env.reconcilers c m w.clock obj w.store).err])).clock = w.clock + 1 := by
        simp [World.clock]
      rw [hclock] at hs1
      simp only [unitEvents, List.length_cons, List.take_succ_cons, List.cons.injEq, true_and]
      exact hs1

/-! ## The pipelines -/

theorem componentCalls_nil_of_forall {seg : List Event}
    (h : ∀ e ∈ seg, Event.call? e = none) : componentCalls seg = [] := by
  simpa [componentCalls, List.filterMap_eq_nil_iff] using h

theorem FinalizerAtom.quiet_finalizer {change : OpenSearchCluster → String → OpenSearchCluster}
    {key : NamespacedName} {store : Store} (err : Option Err) (a : List Event)
    (h : FinalizerAtom change key store err a) : ∀ e ∈ a, Event.call? e = none := by
  rcases h with ⟨e, _, rfl⟩ | ⟨o, _, rfl⟩ <;> simp [Event.call?]

theorem PendingAtom.quiet_pending {key : NamespacedName} {store : Store} (err : Option Err)
    (a : List Event) (h : PendingAtom key store err a) : ∀ e ∈ a, Event.call? e = none := by
  rcases h with ⟨e, _, rfl⟩ | ⟨o, _, rfl⟩ <;> simp [Event.call?]

theorem InitializedAtom.quiet_initialized {key : NamespacedName} {store : Store} (err : Option Err)
    (a : List Event) (h : InitializedAtom key store err a) :
    ∀ e ∈ a, Event.call? e = none := by
  rcases h with ⟨e, _, rfl⟩ | ⟨o, b, _, rfl⟩ <;> simp [Event.call?]

/-- The calls a pipeline loop made, read off the history. -/
theorem runComponentReconcilers_calls (env : Env) (l : List (Component × Method))
    (obj : OpenSearchCluster) (w : World) :
    ∃ calls, componentCalls (runComponentReconcilers env l obj w).2.2.trace
        = componentCalls w.trace ++ calls ∧
      calls.map Call.bound = l.take calls.length ∧
      (((runComponentReconcilers env l obj w).1 = none ∧ calls.length = l.length ∧
          ∀ c ∈ calls, Call.halts c = false) ∨
       (∃ pre c, calls = pre ++ [c] ∧ (∀ x ∈ pre, Call.halts x = false) ∧
          Call.halts c = true ∧
          (runComponentReconcilers env l obj w).1 = some (c.result, c.err))) := by
  obtain ⟨seg, htr, _, hord, hres⟩ := runComponentReconcilers_spec env l obj w
  exact ⟨componentCalls seg, by rw [htr, componentCalls_append], hord, hres⟩

/-- What `reconcilePhaseRunning` does, in terms of the calls of pipeline units: it
returns with a store error before any call, or it runs the loop. -/
theorem reconcilePhaseRunning_calls (env : Env) (obj : OpenSearchCluster) (w : World) :
    ∃ calls, componentCalls (reconcilePhaseRunning env obj w).2.trace
        = componentCalls w.trace ++ calls ∧
      calls.map Call.bound = applyReconcilers.take calls.length ∧
      ((calls = [] ∧ ∃ e, (reconcilePhaseRunning env obj w).1 = ({}, some e)) ∨
       (∃ pre c, calls = pre ++ [c] ∧ (∀ x ∈ pre, Call.halts x = false) ∧
          Call.halts c = true ∧ (reconcilePhaseRunning env obj w).1 = (c.result, c.err)) ∨
       (calls.length = 8 ∧ (∀ c ∈ calls, Call.halts c = false) ∧
          (reconcilePhaseRunning env obj w).1
            = ({ Requeue := true, RequeueAfter := 30 * Second }, none))) ∧
      (NoFaults env → (∃ cur, w.store.lookup (ObjectKeyFromObject obj) = some cur) →
        calls ≠ []) := by
  unfold reconcilePhaseRunning
  simp only []
  have hloop : ∀ (obj1 : OpenSearchCluster) (w1 : World),
      componentCalls w1.trace = componentCalls w.trace →
      ∃ calls, componentCalls
          (match runComponentReconcilers env applyReconcilers obj1 w1 with
            | (some r, _, w2) => (r, w2)
            | (none, _, w2) =>
              (({ Requeue := true, RequeueAfter := 30 * Second }, none), w2)).2.trace
          = componentCalls w.trace ++ calls ∧
        calls.map Call.bound = applyReconcilers.take calls.length ∧
        ((calls = [] ∧ ∃ e,
            (match runComponentReconcilers env applyReconcilers obj1 w1 with
              | (some r, _, w2) => (r, w2)
              | (none, _, w2) =>
                (({ Requeue := true, RequeueAfter := 30 * Second }, none), w2)).1
              = ({}, some e)) ∨
         (∃ pre c, calls = pre ++ [c] ∧ (∀ x ∈ pre, Call.halts x = false) ∧
            Call.halts c = true ∧
            (match runComponentReconcilers env applyReconcilers obj1 w1 with
              | (some r, _, w2) => (r, w2)
              | (none, _, w2) =>
                (({ Requeue := true, RequeueAfter := 30 * Second }, none), w2)).1
              = (c.result, c.err)) ∨
         (calls.length = 8 ∧ (∀ c ∈ calls, Call.halts c = false) ∧
            (match runComponentReconcilers env applyReconcilers obj1 w1 with
              | (some r, _, w2) => (r, w2)
              | (none, _, w2) =>
                (({ Requeue := true, RequeueAfter := 30 * Second }, none), w2)).1
              = ({ Requeue := true, RequeueAfter := 30 * Second }, none))) ∧
        calls ≠ [] := by
    intro obj1 w1 hq
    obtain ⟨calls, htr, hord, hres⟩ := runComponentReconcilers_calls env applyReconcilers obj1 w1
    rcases hrun : runComponentReconcilers env applyReconcilers obj1 w1 with ⟨_ | r, obj2, w2⟩
    · rw [hrun] at htr hres
      rcases hres with ⟨_, hlen, hcl⟩ | ⟨pre, c, _, _, _, hret⟩
      · refine ⟨calls, by rw [← hq]; exact htr, hord, Or.inr (Or.inr ⟨hlen, hcl, rfl⟩), ?_⟩
        intro h0
        rw [h0] at hlen
        cases hlen
      · cases hret
    · rw [hrun] at htr hres
      rcases hres with ⟨hn, _, _⟩ | ⟨pre, c, hc, hpre, hh, hret⟩
      · cases hn
      · refine ⟨calls, by rw [← hq]; exact htr, hord,
          Or.inr (Or.inl ⟨pre, c, hc, hpre, hh, ?_⟩), ?_⟩
        · simp only [Option.some.injEq] at hret
          rw [hret]
        · rw [hc]
          simp
  by_cases hinit : obj.Status.Initialized = true
  · simp only [hinit, Bool.not_true, Bool.false_eq_true, if_false]
    obtain ⟨calls, h1, h2, h3, h4⟩ := hloop obj (w.log (Event.enter Func.reconcilePhaseRunning))
      (by simp [World.log, componentCalls_append, componentCalls, Event.call?])
    exact ⟨calls, h1, h2, h3, fun _ _ => h4⟩
  · have hinit' : obj.Status.Initialized = false := by simpa using hinit
    simp only [hinit', Bool.not_false, if_true]
    obtain ⟨atoms, last, htr, hseg, _, _⟩ :=
      initialized_retry env obj (w.log (Event.enter Func.reconcilePhaseRunning))
    have hquiet : componentCalls (atoms.flatten ++ last) = [] :=
      componentCalls_nil_of_forall
        (RetrySegment.forall_mem (fun e => Event.call? e = none) InitializedAtom.quiet_initialized hseg)
    rcases hr : RetryOnConflict DefaultRetry (initializedAttempt env)
        (obj, w.log (Event.enter Func.reconcilePhaseRunning)) with ⟨_ | e, obj1, w1⟩
    · rw [hr] at htr
      simp only at htr
      obtain ⟨calls, h1, h2, h3, h4⟩ := hloop obj1 w1 (by
        rw [htr, List.append_assoc, componentCalls_append, hquiet]
        simp [World.log, componentCalls_append, componentCalls, Event.call?])
      exact ⟨calls, h1, h2, h3, fun _ _ => h4⟩
    · rw [hr] at htr
      simp only at htr
      refine ⟨[], ?_, by simp, Or.inl ⟨rfl, e, rfl⟩, ?_⟩
      · simp only [List.append_nil]
        rw [htr, List.append_assoc, componentCalls_append, hquiet]
        simp [World.log, componentCalls_append, componentCalls, Event.call?]
      · intro hnf ⟨cur, hcur⟩
        exfalso
        have hfirst := initializedAttempt_noFault env obj cur
          (w.log (Event.enter Func.reconcilePhaseRunning)) hcur (hnf _) (hnf _)
        rw [RetryOnConflict_first _ _ hfirst] at hr
        rw [hr] at hfirst
        cases hfirst

/-! ## The entry point -/

/-- The object `Reconcile` hands to the phase `switch`: an unset phase is replaced by
`Running` and `ComponentsStatus` is emptied, in memory. -/
theorem phaseDispatch_running (env : Env) (obj : OpenSearchCluster) (w : World)
    (h : obj.Status.Phase = PhaseRunning ∨ obj.Status.Phase = "") :
    phaseDispatch env obj w =
      reconcilePhaseRunning env
        (if obj.Status.Phase = "" then
          { obj with Status :=
              { obj.Status with Phase := PhaseRunning, ComponentsStatus := [] } }
         else obj) w := by
  unfold phaseDispatch
  rcases h with h | h
  · have h1 : ¬ PhaseRunning = "" := by decide
    have h2 : ¬ PhaseRunning = PhasePending := by decide
    simp [h1, h2, h]
  · have h2 : ¬ PhaseRunning = PhasePending := by decide
    simp [h, h2]

theorem Reconcile_live (env : Env) (req : NamespacedName) (w : World) (o : OpenSearchCluster)
    (hf : Fetched env req w o) (hdel : IsZero o.ObjectMeta.DeletionTimestamp = true) :
    Reconcile env req w =
      if ContainsString o.ObjectMeta.Finalizers myFinalizerName then
        phaseDispatch env o (w.log (Event.get req (some o) none))
      else
        match RetryOnConflict DefaultRetry (finalizerAttempt env req AddFinalizer)
            (o, w.log (Event.get req (some o) none)) with
        | (some err, _, w2) => (({}, some err), w2)
        | (none, obj2, w2) => phaseDispatch env obj2 w2 := by
  unfold Reconcile
  rw [Get_ok env req {} o w hf.1 hf.2]
  by_cases hc : ContainsString o.ObjectMeta.Finalizers myFinalizerName = true
  · simp [hdel, hc]
  · simp [hdel, hc]

theorem Reconcile_deleting (env : Env) (req : NamespacedName) (w : World)
    (o : OpenSearchCluster) (hf : Fetched env req w o)
    (hdel : IsZero o.ObjectMeta.DeletionTimestamp = false) :
    Reconcile env req w =
      if ContainsString o.ObjectMeta.Finalizers myFinalizerName then
        match deleteExternalResources env o (w.log (Event.get req (some o) none)) with
        | ((result, some err), _, w2) => ((result, some err), w2)
        | ((_, none), obj2, w2) =>
          match RetryOnConflict DefaultRetry (finalizerAttempt env req RemoveFinalizer)
              (obj2, w2) with
          | (some err, _, w3) => (({}, some err), w3)
          | (none, _, w3) => (({}, none), w3)
      else (({}, none), w.log (Event.get req (some o) none)) := by
  unfold Reconcile
  rw [Get_ok env req {} o w hf.1 hf.2]
  by_cases hc : ContainsString o.ObjectMeta.Finalizers myFinalizerName = true
  · simp [hdel, hc]
  · simp [hdel, hc]

/-- A loop over units none of which halts calls every one of them, in order, and falls
through. -/
theorem runComponentReconcilers_clean (env : Env) (l : List (Component × Method))
    (hclean : ∀ b ∈ l, ∀ (n : Nat) (obj : OpenSearchCluster) (s : Store),
      (env.reconcilers b.1 b.2 n obj s).err = none ∧
      (env.reconcilers b.1 b.2 n obj s).result.Requeue = false) :
    ∀ (obj : OpenSearchCluster) (w : World),
      (runComponentReconcilers env l obj w).1 = none ∧
      ∃ calls, componentCalls (runComponentReconcilers env l obj w).2.2.trace
          = componentCalls w.trace ++ calls ∧ calls.map Call.bound = l := by
  induction l with
  | nil =>
    intro obj w
    exact ⟨rfl, [], by simp [runComponentReconcilers], rfl⟩
  | cons b rest ih =>
    intro obj w
    obtain ⟨c, m⟩ := b
    rw [runComponentReconcilers_cons]
    obtain ⟨he, hr⟩ := hclean (c, m) (List.mem_cons_self _ _) w.clock obj w.store
    simp only at he hr
    have hno : ¬ ((env.reconcilers c m w.clock obj w.store).err.isSome
        || (env.reconcilers c m w.clock obj w.store).result.Requeue) = true := by
      simp [he, hr]
    rw [if_neg hno]
    obtain ⟨hnone, calls, htr, hord⟩ := ih (fun b hb => hclean b (List.mem_cons_of_mem _ hb))
      (env.reconcilers c m w.clock obj w.store).obj
      { store := (env.reconcilers c m w.clock obj w.store).store,
        trace := w.trace ++ [Event.component c m obj
          (env.reconcilers c m w.clock obj w.store).result
          (env.reconcilers c m w.clock obj w.store).err] }
    refine ⟨hnone, ⟨c, m, (env.reconcilers c m w.clock obj w.store).result,
      (env.reconcilers c m w.clock obj w.store).err⟩ :: calls, ?_, ?_⟩
    · rw [htr]
      simp [componentCalls_append, componentCalls, Event.call?]
    · simp [Call.bound, hord]

/-- With no store fault and no halting unit, `reconcilePhaseRunning` calls all eight
units and asks for the periodic re-sync. -/
theorem reconcilePhaseRunning_steady (env : Env) (obj : OpenSearchCluster) (w : World)
    (hnf : NoFaults env) (cur : OpenSearchCluster)
    (hcur : w.store.lookup (ObjectKeyFromObject obj) = some cur)
    (hclean : ∀ (c : Component) (n : Nat) (obj : OpenSearchCluster) (s : Store),
      (env.reconcilers c Method.Reconcile n obj s).err = none ∧
      (env.reconcilers c Method.Reconcile n obj s).result.Requeue = false) :
    (reconcilePhaseRunning env obj w).1
        = ({ Requeue := true, RequeueAfter := 30 * Second }, none) ∧
      ∃ calls, componentCalls (reconcilePhaseRunning env obj w).2.trace
          = componentCalls w.trace ++ calls ∧ calls.map Call.bound = applyReconcilers := by
  have hl : ∀ b ∈ applyReconcilers, ∀ (n : Nat) (obj : OpenSearchCluster) (s : Store),
      (env.reconcilers b.1 b.2 n obj s).err = none ∧
      (env.reconcilers b.1 b.2 n obj s).result.Requeue = false := by
    intro b hb n obj s
    have hm : b.2 = Method.Reconcile := by
      simp [applyReconcilers] at hb
      rcases hb with rfl | rfl | rfl | rfl | rfl | rfl | rfl | rfl <;> rfl
    rw [hm]
    exact hclean b.1 n obj s
  have hloop : ∀ (obj1 : OpenSearchCluster) (w1 : World),
      componentCalls w1.trace = componentCalls w.trace →
      (match runComponentReconcilers env applyReconcilers obj1 w1 with
        | (some r, _, w2) => (r, w2)
        | (none, _, w2) =>
          (({ Requeue := true, RequeueAfter := 30 * Second }, none), w2)).1
        = ({ Requeue := true, RequeueAfter := 30 * Second }, none) ∧
      ∃ calls, componentCalls
          (match runComponentReconcilers env applyReconcilers obj1 w1 with
            | (some r, _, w2) => (r, w2)
            | (none, _, w2) =>
              (({ Requeue := true, RequeueAfter := 30 * Second }, none), w2)).2.trace
          = componentCalls w.trace ++ calls ∧ calls.map Call.bound = applyReconcilers := by
    intro obj1 w1 hq
    obtain ⟨hnone, calls, htr, hord⟩ := runComponentReconcilers_clean env applyReconcilers hl obj1 w1
    rcases hrun : runComponentReconcilers env applyReconcilers obj1 w1 with ⟨_ | r, obj2, w2⟩
    · rw [hrun] at htr
      exact ⟨rfl, calls, by rw [← hq]; exact htr, hord⟩
    · rw [hrun] at hnone
      cases hnone
  unfold reconcilePhaseRunning
  simp only []
  by_cases hinit : obj.Status.Initialized = true
  · simp only [hinit, Bool.not_true, Bool.false_eq_true, if_false]
    exact hloop obj _ (by simp [World.log, componentCalls_append, componentCalls, Event.call?])
  · have hinit' : obj.Status.Initialized = false := by simpa using hinit
    simp only [hinit', Bool.not_false, if_true]
    obtain ⟨atoms, last, htr, hseg, _, _⟩ :=
      initialized_retry env obj (w.log (Event.enter Func.reconcilePhaseRunning))
    have hquiet : componentCalls (atoms.flatten ++ last) = [] :=
      componentCalls_nil_of_forall
        (RetrySegment.forall_mem (fun e => Event.call? e = none) InitializedAtom.quiet_initialized hseg)
    have hfirst := initializedAttempt_noFault env obj cur
      (w.log (Event.enter Func.reconcilePhaseRunning)) hcur (hnf _) (hnf _)
    rcases hr : RetryOnConflict DefaultRetry (initializedAttempt env)
        (obj, w.log (Event.enter Func.reconcilePhaseRunning)) with ⟨_ | e, obj1, w1⟩
    · rw [hr] at htr
      simp only at htr
      exact hloop obj1 w1 (by
        rw [htr, List.append_assoc, componentCalls_append, hquiet]
        simp [World.log, componentCalls_append, componentCalls, Event.call?])
    · rw [RetryOnConflict_first _ _ hfirst] at hr
      rw [hr] at hfirst
      cases hfirst

/-- Claim C5. Teardown order and halting.  Whatever the five teardown units do,
`deleteExternalResources` calls `DeleteResources` on an initial stretch of TLS,
security configuration, configuration, cluster, dashboards, in that order (never on
scaler, upgrade or rolling restart): what it records is an initial stretch of the
answers `env.reconcilers` gives when the five are asked one after the other, the first
on the object and the store the function was given, each later one on what the unit
before it left.  Either the last call is the first that returned a non-nil error or
`Requeue = true` and its `(result, err)` is what the function returns, or all five
were called, none halted, and it returns `(empty result, nil)`. -/
theorem teardown_order_and_halting (env : Env) (obj : OpenSearchCluster) (w : World) :
    ∃ seg : List Event,
      (deleteExternalResources env obj w).2.2.trace
        = w.trace ++ Event.enter Func.deleteExternalResources :: seg ∧
      seg = (unitEvents env
        [(Component.tls, Method.DeleteResources),
         (Component.securityconfig, Method.DeleteResources),
         (Component.config, Method.DeleteResources),
         (Component.cluster, Method.DeleteResources),
         (Component.dashboards, Method.DeleteResources)] obj w.store (w.clock + 1)).take
          seg.length ∧
      (∀ e ∈ seg, (Event.call? e).isSome = true) ∧
      (componentCalls seg).map Call.bound =
        [(Component.tls, Method.DeleteResources),
         (Component.securityconfig, Method.DeleteResources),
         (Component.config, Method.DeleteResources),
         (Component.cluster, Method.DeleteResources),
         (Component.dashboards, Method.DeleteResources)].take (componentCalls seg).length ∧
      (∀ c ∈ componentCalls seg, c.method = Method.DeleteResources ∧
        c.component ≠ Component.scaler ∧ c.component ≠ Component.upgrade ∧
        c.component ≠ Component.restart) ∧
      ((∃ pre c, componentCalls seg = pre ++ [c] ∧
          (∀ x ∈ pre, x.err = none ∧ x.result.Requeue = false) ∧
          (c.err ≠ none ∨ c.result.Requeue = true) ∧
          (deleteExternalResources env obj w).1 = (c.result, c.err)) ∨
       ((componentCalls seg).length = 5 ∧
          (∀ c ∈ componentCalls seg, c.err = none ∧ c.result.Requeue = false) ∧
          (deleteExternalResources env obj w).1 = ({}, none))) := by
  have hclean : ∀ x : Call, Call.halts x = false → x.err = none ∧ x.result.Requeue = false := by
    intro x hx
    simpa [Call.halts] using hx
  have hhalt : ∀ x : Call, Call.halts x = true → x.err ≠ none ∨ x.result.Requeue = true := by
    intro x hx
    simpa [Call.halts, Option.isSome_iff_ne_none] using hx
  obtain ⟨seg, htr, hall, hord, hres⟩ := runComponentReconcilers_spec env teardownReconcilers obj
    (w.log (Event.enter Func.deleteExternalResources))
  have hans : seg = (unitEvents env
      [(Component.tls, Method.DeleteResources),
       (Component.securityconfig, Method.DeleteResources),
       (Component.config, Method.DeleteResources),
       (Component.cluster, Method.DeleteResources),
       (Component.dashboards, Method.DeleteResources)] obj w.store (w.clock + 1)).take
        seg.length := by
    have h := runComponentReconcilers_answers env teardownReconcilers obj
      (w.log (Event.enter Func.deleteExternalResources)) seg htr
    have hclock : (w.log (Event.enter Func.deleteExternalResources)).clock = w.clock + 1 := by
      simp [World.log, World.clock]
    rw [hclock] at h
    exact h
  have hmem : ∀ c ∈ componentCalls seg, c.method = Method.DeleteResources ∧
      c.component ≠ Component.scaler ∧ c.component ≠ Component.upgrade ∧
      c.component ≠ Component.restart := by
    intro c hc
    have h1 : Call.bound c ∈ (componentCalls seg).map Call.bound := List.mem_map_of_mem _ hc
    rw [hord] at h1
    have h2 := List.mem_of_mem_take h1
    simp only [teardownReconcilers, List.mem_cons, List.mem_singleton, Call.bound,
      Prod.mk.injEq, List.not_mem_nil, or_false] at h2
    rcases h2 with ⟨h, h'⟩ | ⟨h, h'⟩ | ⟨h, h'⟩ | ⟨h, h'⟩ | ⟨h, h'⟩ <;>
      simp [h, h']
  unfold deleteExternalResources
  rcases hrun : runComponentReconcilers env teardownReconcilers obj
      (w.log (Event.enter Func.deleteExternalResources)) with ⟨_ | r, obj1, w1⟩
  · rw [hrun] at htr hres
    simp only at htr hres ⊢
    refine ⟨seg, by rw [htr]; simp [World.log], hans, hall, hord, hmem, ?_⟩
    rcases hres with ⟨_, hlen, hcl⟩ | ⟨pre, c, _, _, _, hret⟩
    · exact Or.inr ⟨hlen, fun x hx => hclean x (hcl x hx), trivial⟩
    · cases hret
  · rw [hrun] at htr hres
    simp only at htr hres ⊢
    refine ⟨seg, by rw [htr]; simp [World.log], hans, hall, hord, hmem, ?_⟩
    rcases hres with ⟨hn, _, _⟩ | ⟨pre, c, hc, hpre, hh, hret⟩
    · cases hn
    · simp only [Option.some.injEq] at hret
      exact Or.inl ⟨pre, c, hc, fun x hx => hclean x (hpre x hx), hhalt c hh, hret⟩

/-- Claim C8. Not-found is swallowed.  When the initial fetch fails with a not-found error
(the key is not in the store), `Reconcile` returns `(empty result, nil)`; the store is
left as it was and the only interaction is that one `Get`: no write, no pipeline unit. -/
theorem not_found_swallowed (env : Env) (req : NamespacedName) (w : World) (e : Err)
    (hget : (Get env req {} w).1 = some e) (hnf : IsNotFound e = true) :
    (Reconcile env req w).1 = ({}, none) ∧
    (Reconcile env req w).2.store = w.store ∧
    (Reconcile env req w).2.trace = w.trace ++ [Event.get req none (some e)] := by
  rcases Get_cases env req {} w with ⟨e1, hg⟩ | ⟨o, _, _, hg⟩
  · rw [hg] at hget
    simp only [Option.some.injEq] at hget
    subst hget
    unfold Reconcile
    rw [hg]
    simp [hnf, World.log]
  · rw [hg] at hget
    cases hget

/-- Claim C9. Fetch errors are propagated verbatim.  When the initial fetch fails with an
error `e` that is not a not-found error, `Reconcile` returns `(empty result, e)` with
that same `e`; the store is left as it was and the only interaction is that one `Get`:
no write, no pipeline unit. -/
theorem fetch_error_propagated (env : Env) (req : NamespacedName) (w : World) (e : Err)
    (hget : (Get env req {} w).1 = some e) (hnf : IsNotFound e = false) :
    (Reconcile env req w).1 = ({}, some e) ∧
    (Reconcile env req w).2.store = w.store ∧
    (Reconcile env req w).2.trace = w.trace ++ [Event.get req none (some e)] := by
  rcases Get_cases env req {} w with ⟨e1, hg⟩ | ⟨o, _, _, hg⟩
  · rw [hg] at hget
    simp only [Option.some.injEq] at hget
    subst hget
    unfold Reconcile
    rw [hg]
    simp [hnf, World.log]
  · rw [hg] at hget
    cases hget

/-- Every event a pipeline loop appends records what the unit it names returned. -/
theorem runComponentReconcilers_genuine (env : Env) (l : List (Component × Method)) :
    ∀ (obj : OpenSearchCluster) (w : World) (seg : List Event),
      (runComponentReconcilers env l obj w).2.2.trace = w.trace ++ seg →
      ∀ e ∈ seg, ∃ c m handed n s,
        e = Event.component c m handed (env.reconcilers c m n handed s).result
          (env.reconcilers c m n handed s).err := by
  induction l with
  | nil =>
    intro obj w seg h e he
    have : seg = [] := by
      have h' : w.trace ++ [] = w.trace ++ seg := by simpa [runComponentReconcilers] using h
      exact (List.append_cancel_left h').symm
    rw [this] at he
    cases he
  | cons b rest ih =>
    intro obj w seg h e he
    obtain ⟨c, m⟩ := b
    rw [runComponentReconcilers_cons] at h
    by_cases hh : ((env.reconcilers c m w.clock obj w.store).err.isSome
        || (env.reconcilers c m w.clock obj w.store).result.Requeue) = true
    · rw [if_pos hh] at h
      have hs : seg = [Event.component c m obj (env.reconcilers c m w.clock obj w.store).result
          (env.reconcilers c m w.clock obj w.store).err] :=
        (List.append_cancel_left h).symm
      rw [hs] at he
      simp only [List.mem_singleton] at he
      exact ⟨c, m, obj, w.clock, w.store, he⟩
    · rw [if_neg hh] at h
      obtain ⟨seg', hseg', _⟩ := runComponentReconcilers_spec env rest
        (env.reconcilers c m w.clock obj w.store).obj
        { store := (env.reconcilers c m w.clock obj w.store).store,
          trace := w.trace ++ [Event.component c m obj
            (env.reconcilers c m w.clock obj w.store).result
            (env.reconcilers c m w.clock obj w.store).err] }
      have hs : seg = Event.component c m obj (env.reconcilers c m w.clock obj w.store).result
          (env.reconcilers c m w.clock obj w.store).err :: seg' := by
        rw [hseg'] at h
        simp only [List.append_assoc, List.singleton_append] at h
        exact (List.append_cancel_left h).symm
      rw [hs] at he
      rcases List.mem_cons.mp he with rfl | he
      · exact ⟨c, m, obj, w.clock, w.store, rfl⟩
      · exact ih _ _ seg' hseg' e he

/-! ## The deletion path -/

theorem runComponentReconcilers_store (env : Env) (hkeep : UnitsKeepStore env)
    (l : List (Component × Method)) :
    ∀ (obj : OpenSearchCluster) (w : World),
      (runComponentReconcilers env l obj w).2.2.store = w.store := by
  induction l with
  | nil => intro obj w; rfl
  | cons b rest ih =>
    intro obj w
    obtain ⟨c, m⟩ := b
    rw [runComponentReconcilers_cons]
    split
    · exact hkeep c m w.clock obj w.store
    · rw [ih]
      exact hkeep c m w.clock obj w.store

theorem LoopSpec.events {l : List (Component × Method)} {seg : List Event}
    {ret : Option (Result × Option Err)} (h : LoopSpec l seg ret) :
    ∀ e ∈ seg, ∃ c m handed r err, e = Event.component c m handed r err ∧ (c, m) ∈ l := by
  obtain ⟨hall, hord, _⟩ := h
  intro e he
  have hs := hall e he
  cases e with
  | component c m handed r err =>
    refine ⟨c, m, handed, r, err, rfl, ?_⟩
    have h1 : (⟨c, m, r, err⟩ : Call) ∈ componentCalls seg := by
      simp only [componentCalls, List.mem_filterMap]
      exact ⟨_, he, rfl⟩
    have h2 : Call.bound ⟨c, m, r, err⟩ ∈ (componentCalls seg).map Call.bound :=
      List.mem_map_of_mem _ h1
    rw [hord] at h2
    exact List.mem_of_mem_take h2
  | get _ _ _ => simp [Event.call?] at hs
  | update _ _ => simp [Event.call?] at hs
  | statusUpdate _ _ => simp [Event.call?] at hs
  | allMastersReady _ _ => simp [Event.call?] at hs
  | enter _ => simp [Event.call?] at hs

/-- What `deleteExternalResources` does: the loop over the five teardown units. -/
theorem deleteExternalResources_loop (env : Env) (obj : OpenSearchCluster) (w : World) :
    ∃ seg ret,
      (deleteExternalResources env obj w).2.2.trace
        = w.trace ++ Event.enter Func.deleteExternalResources :: seg ∧
      LoopSpec teardownReconcilers seg ret ∧
      (deleteExternalResources env obj w).1 = ret.getD ({}, none) ∧
      (UnitsKeepStore env → (deleteExternalResources env obj w).2.2.store = w.store) ∧
      (∀ e ∈ seg, ∃ c m handed n s,
        e = Event.component c m handed (env.reconcilers c m n handed s).result
          (env.reconcilers c m n handed s).err) := by
  obtain ⟨seg, htr, hspec⟩ := runComponentReconcilers_spec env teardownReconcilers obj
    (w.log (Event.enter Func.deleteExternalResources))
  have hgen := runComponentReconcilers_genuine env teardownReconcilers obj
    (w.log (Event.enter Func.deleteExternalResources)) seg htr
  have hst := fun hkeep => runComponentReconcilers_store env hkeep teardownReconcilers obj
    (w.log (Event.enter Func.deleteExternalResources))
  unfold deleteExternalResources
  rcases hrun : runComponentReconcilers env teardownReconcilers obj
      (w.log (Event.enter Func.deleteExternalResources)) with ⟨_ | r, obj1, w1⟩
  · rw [hrun] at htr hspec hst
    exact ⟨seg, none, by simpa [World.log] using htr, hspec, rfl, fun hk => hst hk, hgen⟩
  · rw [hrun] at htr hspec hst
    exact ⟨seg, some r, by simpa [World.log] using htr, hspec, rfl, fun hk => hst hk, hgen⟩

theorem Store.lookup_put_status (s : Store) (obj cur : OpenSearchCluster)
    (h : s.lookup (ObjectKeyFromObject obj) = some cur) (hs : obj.Status = cur.Status)
    (key : NamespacedName) :
    ((s.put obj).lookup key).map (fun x => x.Status) = (s.lookup key).map (fun x => x.Status) := by
  by_cases hk : key = ObjectKeyFromObject obj
  · rw [hk, Store.lookup_put_self s obj cur h, h]
    simp [hs]
  · rw [Store.lookup_put_other s obj key hk]

theorem FinalizerAtom.only_teardown {change : OpenSearchCluster → String → OpenSearchCluster}
    {key : NamespacedName} {store : Store} (err : Option Err) (a : List Event)
    (h : FinalizerAtom change key store err a) : ∀ e ∈ a, Event.teardownOnly e = true := by
  rcases h with ⟨e, _, rfl⟩ | ⟨o, _, rfl⟩ <;> simp [Event.teardownOnly]

/-- Claim C3. Teardown failure leaves the finalizer alone.  For an object that is fetched,
is being deleted and carries the finalizer marker: when the teardown pipeline, run on
the fetched object, ends with a non-nil error `e` (the unit it halts at returned `e`),
`Reconcile` returns exactly that unit's `(result, err)`; after the initial fetch the
history only grows by the entry into `deleteExternalResources` and the calls of the
units (no `Get` for update and no `Update`); and when the units leave the store
alone, the store is as it was, so the stored object still carries the marker. -/
theorem teardown_error_keeps_finalizer (env : Env) (req : NamespacedName) (w : World)
    (o : OpenSearchCluster) (hf : Fetched env req w o)
    (hdel : IsZero o.ObjectMeta.DeletionTimestamp = false)
    (hfin : ContainsString o.ObjectMeta.Finalizers myFinalizerName = true) (e : Err)
    (herr : (deleteExternalResources env o (w.log (Event.get req (some o) none))).1.2
      = some e) :
    ∃ (seg : List Event) (pre : List Call) (c : Call),
      (Reconcile env req w).2.trace
        = w.trace ++ Event.get req (some o) none
            :: Event.enter Func.deleteExternalResources :: seg ∧
      (∀ ev ∈ seg, (Event.call? ev).isSome = true) ∧
      componentCalls seg = pre ++ [c] ∧
      (∀ x ∈ pre, x.err = none ∧ x.result.Requeue = false) ∧
      c.err = some e ∧
      (Reconcile env req w).1 = (c.result, c.err) ∧
      (UnitsKeepStore env →
        (Reconcile env req w).2.store = w.store ∧
        (Reconcile env req w).2.store.lookup req = some o) := by
  obtain ⟨seg, ret, htr, hspec, hret, hst, _⟩ :=
    deleteExternalResources_loop env o (w.log (Event.get req (some o) none))
  rw [Reconcile_deleting env req w o hf hdel, if_pos hfin]
  rcases hd : deleteExternalResources env o (w.log (Event.get req (some o) none))
    with ⟨⟨result, _ | err⟩, obj2, w2⟩
  · rw [hd] at herr
    cases herr
  · rw [hd] at herr htr hret hst
    simp only [Option.some.injEq] at herr
    subst herr
    simp only at htr hret hst ⊢
    obtain ⟨hall, _, hres⟩ := hspec
    rcases hres with ⟨hn, _, _⟩ | ⟨pre, c, hc, hpre, _, hr⟩
    · rw [hn] at hret
      cases hret
    · rw [hr] at hret
      simp only [Option.getD_some, Prod.mk.injEq] at hret
      refine ⟨seg, pre, c, by rw [htr]; simp [World.log], hall, hc, ?_, hret.2.symm, ?_, ?_⟩
      · intro x hx
        simpa [Call.halts] using hpre x hx
      · rw [hret.1, hret.2]
      · intro hkeep
        have h1 : w2.store = w.store := hst hkeep
        exact ⟨h1, by rw [h1]; exact hf.2⟩

/-- Claim C10. No phase or apply work on an object that is being deleted.  For an object
that is fetched and has its deletion timestamp set, finalizer marker present or not:
everything `Reconcile` appends to the history is a fetch, an `Update`, the entry into
`deleteExternalResources` or a call of `DeleteResources` (no apply-mode unit, no phase
handler, no readiness predicate, no `Status().Update`); a return without error is the
empty result; when the units leave the store alone, the status stored under every key
is unchanged; when moreover no store operation fails and no teardown unit returns an
error, the return is `(empty result, nil)`; and when the marker is absent, the only
interaction is the initial fetch (no teardown unit, no write) and the return is
`(empty result, nil)`. -/
theorem deleting_object_no_apply_work (env : Env) (req : NamespacedName) (w : World)
    (o : OpenSearchCluster) (hf : Fetched env req w o)
    (hdel : IsZero o.ObjectMeta.DeletionTimestamp = false) :
    (∃ seg : List Event, (Reconcile env req w).2.trace = w.trace ++ seg ∧
      ∀ ev ∈ seg, Event.teardownOnly ev = true) ∧
    ((Reconcile env req w).1.2 = none → (Reconcile env req w).1.1 = {}) ∧
    (UnitsKeepStore env → ∀ key : NamespacedName,
      ((Reconcile env req w).2.store.lookup key).map (fun x => x.Status)
        = (w.store.lookup key).map (fun x => x.Status)) ∧
    (UnitsKeepStore env → NoFaults env →
      (∀ (c : Component) (n : Nat) (obj : OpenSearchCluster) (s : Store),
        (env.reconcilers c Method.DeleteResources n obj s).err = none) →
      (Reconcile env req w).1 = ({}, none)) ∧
    (ContainsString o.ObjectMeta.Finalizers myFinalizerName = false →
      Reconcile env req w = (({}, none), w.log (Event.get req (some o) none))) := by
  have hkey : ObjectKeyFromObject o = req := Store.lookup_key hf.2
  rw [Reconcile_deleting env req w o hf hdel]
  by_cases hfin : ContainsString o.ObjectMeta.Finalizers myFinalizerName = true
  swap
  · rw [if_neg hfin]
    refine ⟨⟨[Event.get req (some o) none], rfl, by simp [Event.teardownOnly]⟩,
      fun _ => rfl, fun _ _ => rfl, fun _ _ _ => rfl, fun _ => rfl⟩
  rw [if_pos hfin]
  obtain ⟨seg, ret, htr, hspec, hret, hst, hgen⟩ :=
    deleteExternalResources_loop env o (w.log (Event.get req (some o) none))
  have hsegev : ∀ ev ∈ seg, Event.teardownOnly ev = true := by
    intro ev hev
    obtain ⟨c, m, handed, r, err, rfl, hmem⟩ := hspec.events ev hev
    have hm : m = Method.DeleteResources := by
      simp only [teardownReconcilers, List.mem_cons, Prod.mk.injEq, List.mem_singleton,
        List.not_mem_nil, or_false] at hmem
      rcases hmem with ⟨_, h⟩ | ⟨_, h⟩ | ⟨_, h⟩ | ⟨_, h⟩ | ⟨_, h⟩ <;> exact h
    subst hm
    rfl
  rcases hd : deleteExternalResources env o (w.log (Event.get req (some o) none))
    with ⟨⟨result, _ | err⟩, obj2, w2⟩
  swap
  · -- the teardown pipeline ended with an error
    rw [hd] at htr hst
    simp only at htr hst ⊢
    refine ⟨⟨Event.get req (some o) none :: Event.enter Func.deleteExternalResources :: seg,
        by rw [htr]; simp [World.log], ?_⟩, ?_, ?_, ?_, ?_⟩
    · intro ev hev
      rcases List.mem_cons.mp hev with rfl | hev
      · rfl
      · rcases List.mem_cons.mp hev with rfl | hev
        · rfl
        · exact hsegev ev hev
    · intro h
      cases h
    · intro hkeep key
      rw [hst hkeep]
      rfl
    · intro _ _ hunits
      exfalso
      rw [hd] at hret
      obtain ⟨hall, hord, hres⟩ := hspec
      rcases hres with ⟨hn, _, _⟩ | ⟨pre, c, hc, hpre, hh, hr⟩
      · rw [hn] at hret
        cases hret
      · rw [hr] at hret
        simp only [Option.getD_some, Prod.mk.injEq] at hret
        have hmem : c ∈ componentCalls seg := by rw [hc]; simp
        simp only [componentCalls, List.mem_filterMap] at hmem
        obtain ⟨ev, hev, hcall⟩ := hmem
        obtain ⟨c', m', handed, n, s, rfl⟩ := hgen ev hev
        obtain ⟨_, _, _, _, _, hev', hin⟩ := LoopSpec.events ⟨hall, hord, Or.inr ⟨pre, c, hc, hpre, hh, hr⟩⟩ _ hev
        simp only [Event.component.injEq] at hev'
        have hm : m' = Method.DeleteResources := by
          rw [hev'.2.1]
          simp only [teardownReconcilers, List.mem_cons, Prod.mk.injEq, List.mem_singleton,
            List.not_mem_nil, or_false] at hin
          rcases hin with ⟨_, h⟩ | ⟨_, h⟩ | ⟨_, h⟩ | ⟨_, h⟩ | ⟨_, h⟩ <;> exact h
        subst hm
        simp only [Event.call?, Option.some.injEq] at hcall
        have : c.err = none := by
          rw [← hcall]
          exact hunits c' n handed s
        rw [this] at hret
        cases hret.2
    · intro h
      rw [h] at hfin
      cases hfin
  · -- the teardown pipeline ended without error: the finalizer is removed
    rw [hd] at htr hst
    simp only at htr hst ⊢
    obtain ⟨atoms, last, htr3, hseg3, hkeep3, hok3⟩ :=
      finalizer_retry env req RemoveFinalizer RemoveFinalizer_key obj2 w2
    have hev3 := RetrySegment.forall_mem (fun e => Event.teardownOnly e = true)
      FinalizerAtom.only_teardown hseg3
    have htrace : ∀ w3 : World, w3.trace = w2.trace ++ atoms.flatten ++ last →
        ∃ seg' : List Event, w3.trace = w.trace ++ seg' ∧
          ∀ ev ∈ seg', Event.teardownOnly ev = true := by
      intro w3 h3
      refine ⟨Event.get req (some o) none :: Event.enter Func.deleteExternalResources :: seg
        ++ (atoms.flatten ++ last), by rw [h3, htr]; simp [World.log], ?_⟩
      intro ev hev
      rcases List.mem_append.mp hev with hev | hev
      · rcases List.mem_cons.mp hev with rfl | hev
        · rfl
        · rcases List.mem_cons.mp hev with rfl | hev
          · rfl
          · exact hsegev ev hev
      · exact hev3 ev hev
    have hstatus : UnitsKeepStore env → ∀ (w3 : World),
        (w3.store = w2.store ∨ ∃ o', w2.store.lookup req = some o' ∧
          w3.store = w2.store.put (writeMeta o' (RemoveFinalizer o' myFinalizerName))) →
        ∀ key : NamespacedName,
          (w3.store.lookup key).map (fun x => x.Status)
            = (w.store.lookup key).map (fun x => x.Status) := by
      intro hkeep w3 h3 key
      have h2 : w2.store = w.store := hst hkeep
      rcases h3 with h3 | ⟨o', hl', h3⟩
      · rw [h3, h2]
      · rw [h3]
        have hk' : ObjectKeyFromObject (writeMeta o' (RemoveFinalizer o' myFinalizerName)) = req :=
          (RemoveFinalizer_key o' myFinalizerName).trans (Store.lookup_key hl')
        rw [Store.lookup_put_status w2.store (writeMeta o' (RemoveFinalizer o' myFinalizerName)) o'
          (by rw [hk']; exact hl') rfl key, h2]
    rcases hr : RetryOnConflict DefaultRetry (finalizerAttempt env req RemoveFinalizer)
        (obj2, w2) with ⟨_ | err, obj3, w3⟩
    · rw [hr] at htr3 hok3
      simp only at htr3 hok3
      obtain ⟨o', hl', _, hst3⟩ := hok3 trivial
      exact ⟨htrace w3 htr3, (fun _ => rfl),
        (fun hkeep => hstatus hkeep w3 (Or.inr ⟨o', hl', hst3⟩)), (fun _ _ _ => rfl),
        (fun h => by rw [h] at hfin; cases hfin)⟩
    · rw [hr] at htr3 hkeep3
      simp only at htr3 hkeep3
      refine ⟨htrace w3 htr3, (fun h => by cases h),
        (fun hkeep => hstatus hkeep w3 (Or.inl (hkeep3 (by simp)))), ?_,
        (fun h => by rw [h] at hfin; cases hfin)⟩
      intro hkeep hnf _
      exfalso
      have h2 : w2.store = w.store := hst hkeep
      have hfirst := finalizerAttempt_noFault env req RemoveFinalizer RemoveFinalizer_key
        RemoveFinalizer_version obj2 o w2 (by rw [h2]; exact hf.2) (hnf _) (hnf _)
      have h1 : (finalizerAttempt env req RemoveFinalizer (obj2, w2)).1 = none := by
        rw [hfirst]
      rw [RetryOnConflict_first _ _ h1, hfirst] at hr
      cases hr

/-! ## What every call preserves -/

theorem phaseDispatch_cases (env : Env) (obj : OpenSearchCluster) (w : World) :
    (∃ obj1, phaseDispatch env obj w = reconcilePhasePending env obj1 w) ∨
    (∃ obj1, phaseDispatch env obj w = reconcilePhaseRunning env obj1 w) ∨
    phaseDispatch env obj w
      = (({ Requeue := true, RequeueAfter := 30 * Second }, none), w) := by
  unfold phaseDispatch
  simp only []
  generalize (if obj.Status.Phase = "" then _ else obj) = obj1
  by_cases h1 : obj1.Status.Phase = PhasePending
  · exact Or.inl ⟨obj1, by rw [if_pos h1]⟩
  · by_cases h2 : obj1.Status.Phase = PhaseRunning
    · exact Or.inr (Or.inl ⟨obj1, by rw [if_neg h1, if_pos h2]⟩)
    · exact Or.inr (Or.inr (by rw [if_neg h1, if_neg h2]))

theorem SegmentClosed.seg_flatten {P : List Event → Prop} (hP : SegmentClosed P)
    {atoms : List (List Event)} (h : ∀ a ∈ atoms, P a) : P atoms.flatten := by
  induction atoms with
  | nil => exact hP.nil
  | cons a t ih =>
    rw [List.flatten_cons]
    exact hP.append _ _ (h a (List.mem_cons_self _ _))
      (ih (fun b hb => h b (List.mem_cons_of_mem _ hb)))

theorem SegmentClosed.seg_of_forall {P : List Event → Prop} (hP : SegmentClosed P) :
    ∀ seg : List Event, (∀ e ∈ seg, P [e]) → P seg := by
  intro seg
  induction seg with
  | nil => intro _; exact hP.nil
  | cons a t ih =>
    intro h
    exact hP.append [a] t (h a (List.mem_cons_self _ _))
      (ih (fun e he => h e (List.mem_cons_of_mem _ he)))

theorem SegmentClosed.seg_retry {P : List Event → Prop} (hP : SegmentClosed P)
    {A : Option Err → List Event → Prop} {err : Option Err}
    {atoms : List (List Event)} {last : List Event}
    (hA : ∀ err a, A err a → P a) (h : RetrySegment A err atoms last) :
    P (atoms.flatten ++ last) := by
  obtain ⟨_, hall, hlast, _⟩ := h
  refine hP.append _ _ (hP.seg_flatten ?_) (hA _ _ hlast)
  intro a ha
  obtain ⟨e, _, hAa⟩ := hall a ha
  exact hA _ _ hAa

theorem SegmentClosed.seg_loop {P : List Event → Prop} (hP : SegmentClosed P) (env : Env)
    (l : List (Component × Method)) :
    ∀ (obj : OpenSearchCluster) (w : World),
      ∃ seg, (runComponentReconcilers env l obj w).2.2.trace = w.trace ++ seg ∧ P seg := by
  induction l with
  | nil => intro obj w; exact ⟨[], by simp [runComponentReconcilers], hP.nil⟩
  | cons b rest ih =>
    intro obj w
    obtain ⟨c, m⟩ := b
    rw [runComponentReconcilers_cons]
    split
    · exact ⟨_, rfl, hP.component _ _ _ _ _⟩
    · obtain ⟨seg, htr, hseg⟩ := ih (env.reconcilers c m w.clock obj w.store).obj
        { store := (env.reconcilers c m w.clock obj w.store).store,
          trace := w.trace ++ [Event.component c m obj
            (env.reconcilers c m w.clock obj w.store).result
            (env.reconcilers c m w.clock obj w.store).err] }
      exact ⟨[Event.component c m obj (env.reconcilers c m w.clock obj w.store).result
            (env.reconcilers c m w.clock obj w.store).err] ++ seg,
        by rw [htr]; simp, hP.append _ _ (hP.component _ _ _ _ _) hseg⟩

theorem SegmentClosed.seg_pending {P : List Event → Prop} (hP : SegmentClosed P)
    (env : Env) (obj : OpenSearchCluster) (w : World) :
    ∃ seg, (reconcilePhasePending env obj w).2.trace = w.trace ++ seg ∧ P seg := by
  unfold OpenSearchController.reconcilePhasePending
  obtain ⟨atoms, last, htr, hseg, _, _⟩ :=
    pending_retry env obj (w.log (Event.enter Func.reconcilePhasePending))
  have hPs := hP.seg_retry (fun err a => hP.pending _ _ err a) hseg
  have hall : P ([Event.enter Func.reconcilePhasePending] ++ (atoms.flatten ++ last)) :=
    hP.append _ _ (hP.enter _) hPs
  rcases hr : RetryOnConflict DefaultRetry (pendingAttempt env)
      (obj, w.log (Event.enter Func.reconcilePhasePending)) with ⟨_ | e, obj2, w2⟩
  · rw [hr] at htr
    exact ⟨_, by rw [show w2.trace = _ from htr]; simp [World.log], hall⟩
  · rw [hr] at htr
    exact ⟨_, by rw [show w2.trace = _ from htr]; simp [World.log], hall⟩

theorem SegmentClosed.seg_running {P : List Event → Prop} (hP : SegmentClosed P)
    (env : Env) (obj : OpenSearchCluster) (w : World) :
    ∃ seg, (reconcilePhaseRunning env obj w).2.trace = w.trace ++ seg ∧ P seg := by
  unfold OpenSearchController.reconcilePhaseRunning
  simp only []
  have hloop : ∀ (obj2 : OpenSearchCluster) (w2 : World) (seg0 : List Event),
      w2.trace = w.trace ++ seg0 → P seg0 →
      ∃ seg, (match runComponentReconcilers env applyReconcilers obj2 w2 with
          | (some r, _, w3) => (r, w3)
          | (none, _, w3) =>
            (({ Requeue := true, RequeueAfter := 30 * Second }, none), w3)).2.trace
          = w.trace ++ seg ∧ P seg := by
    intro obj2 w2 seg0 h0 hP0
    obtain ⟨seg, htr, hseg⟩ := hP.seg_loop env applyReconcilers obj2 w2
    rcases hrun : runComponentReconcilers env applyReconcilers obj2 w2
      with ⟨_ | r, obj3, w3⟩
    · rw [hrun] at htr
      exact ⟨seg0 ++ seg, by rw [show w3.trace = _ from htr, h0]; simp,
        hP.append _ _ hP0 hseg⟩
    · rw [hrun] at htr
      exact ⟨seg0 ++ seg, by rw [show w3.trace = _ from htr, h0]; simp,
        hP.append _ _ hP0 hseg⟩
  by_cases hinit : obj.Status.Initialized = true
  · simp only [hinit, Bool.not_true, Bool.false_eq_true, if_false]
    exact hloop obj _ [Event.enter Func.reconcilePhaseRunning] rfl (hP.enter _)
  · have hinit' : obj.Status.Initialized = false := by simpa using hinit
    simp only [hinit', Bool.not_false, if_true]
    obtain ⟨atoms, last, htr, hseg, _, _⟩ :=
      initialized_retry env obj (w.log (Event.enter Func.reconcilePhaseRunning))
    have hPs := hP.seg_retry (fun err a => hP.initialized _ _ err a) hseg
    have hall : P ([Event.enter Func.reconcilePhaseRunning] ++ (atoms.flatten ++ last)) :=
      hP.append _ _ (hP.enter _) hPs
    rcases hr : RetryOnConflict DefaultRetry (initializedAttempt env)
        (obj, w.log (Event.enter Func.reconcilePhaseRunning)) with ⟨_ | e, obj2, w2⟩
    · rw [hr] at htr
      exact hloop obj2 w2 _ (by rw [show w2.trace = _ from htr]; simp [World.log]) hall
    · rw [hr] at htr
      exact ⟨_, by rw [show w2.trace = _ from htr]; simp [World.log], hall⟩

theorem SegmentClosed.seg_dispatch {P : List Event → Prop} (hP : SegmentClosed P)
    (env : Env) (obj : OpenSearchCluster) (w : World) :
    ∃ seg, (phaseDispatch env obj w).2.trace = w.trace ++ seg ∧ P seg := by
  rcases phaseDispatch_cases env obj w with ⟨obj1, h⟩ | ⟨obj1, h⟩ | h
  · rw [h]; exact hP.seg_pending env obj1 w
  · rw [h]; exact hP.seg_running env obj1 w
  · rw [h]; exact ⟨[], by simp, hP.nil⟩

/-- Whatever holds of every piece the engine appends holds of what one `Reconcile`
appends. -/
theorem SegmentClosed.seg_reconcile {P : List Event → Prop} (hP : SegmentClosed P)
    (env : Env) (req : NamespacedName) (w : World) :
    ∃ seg, (Reconcile env req w).2.trace = w.trace ++ seg ∧ P seg := by
  rcases Get_cases env req {} w with ⟨e, hg⟩ | ⟨o, hf0, hl0, hg⟩
  · unfold Reconcile
    rw [hg]
    simp only []
    split <;> exact ⟨_, rfl, hP.get _ _ _⟩
  · have hf : Fetched env req w o := ⟨hf0, hl0⟩
    have hget : P [Event.get req (some o) none] := hP.get _ _ _
    by_cases hdel : IsZero o.ObjectMeta.DeletionTimestamp = true
    · rw [Reconcile_live env req w o hf hdel]
      by_cases hc : ContainsString o.ObjectMeta.Finalizers myFinalizerName = true
      · rw [if_pos hc]
        obtain ⟨seg, htr2, hseg2⟩ :=
          hP.seg_dispatch env o (w.log (Event.get req (some o) none))
        exact ⟨[Event.get req (some o) none] ++ seg, by rw [htr2]; simp [World.log],
          hP.append _ _ hget hseg2⟩
      · rw [if_neg hc]
        obtain ⟨atoms, last, htr, hseg, _, _⟩ := finalizer_retry env req AddFinalizer
          AddFinalizer_key o (w.log (Event.get req (some o) none))
        have hPs := hP.seg_retry (fun err a => hP.addFinalizer _ _ err a) hseg
        have hall := hP.append _ _ hget hPs
        rcases hr : RetryOnConflict DefaultRetry (finalizerAttempt env req AddFinalizer)
            (o, w.log (Event.get req (some o) none)) with ⟨_ | e, obj2, w2⟩
        · rw [hr] at htr
          obtain ⟨seg, htr2, hseg2⟩ := hP.seg_dispatch env obj2 w2
          exact ⟨_ ++ seg, by rw [htr2, show w2.trace = _ from htr]; simp [World.log],
            hP.append _ _ hall hseg2⟩
        · rw [hr] at htr
          exact ⟨_, by rw [show w2.trace = _ from htr]; simp [World.log], hall⟩
    · have hdel' : IsZero o.ObjectMeta.DeletionTimestamp = false := by simpa using hdel
      rw [Reconcile_deleting env req w o hf hdel']
      by_cases hc : ContainsString o.ObjectMeta.Finalizers myFinalizerName = true
      · rw [if_pos hc]
        obtain ⟨seg, _, htr, hspec, _, _, _⟩ :=
          deleteExternalResources_loop env o (w.log (Event.get req (some o) none))
        have hseg : P seg := by
          refine hP.seg_of_forall seg ?_
          intro e he
          obtain ⟨c, m, handed, r, err, rfl, _⟩ := hspec.events e he
          exact hP.component _ _ _ _ _
        have h0 : P ([Event.get req (some o) none] ++
            ([Event.enter Func.deleteExternalResources] ++ seg)) :=
          hP.append _ _ hget (hP.append _ _ (hP.enter _) hseg)
        rcases hd : deleteExternalResources env o (w.log (Event.get req (some o) none))
          with ⟨⟨result, _ | err⟩, obj2, w2⟩
        · rw [hd] at htr
          simp only []
          obtain ⟨atoms, last, htr3, hseg3, _, _⟩ := finalizer_retry env req RemoveFinalizer
            RemoveFinalizer_key obj2 w2
          have hPs := hP.seg_retry (fun err a => hP.removeFinalizer _ _ err a) hseg3
          rcases hr : RetryOnConflict DefaultRetry (finalizerAttempt env req RemoveFinalizer)
              (obj2, w2) with ⟨_ | e, obj3, w3⟩
          · rw [hr] at htr3
            exact ⟨_ ++ (atoms.flatten ++ last),
              by rw [show w3.trace = _ from htr3, show w2.trace = _ from htr]; simp [World.log],
              hP.append _ _ h0 hPs⟩
          · rw [hr] at htr3
            exact ⟨_ ++ (atoms.flatten ++ last),
              by rw [show w3.trace = _ from htr3, show w2.trace = _ from htr]; simp [World.log],
              hP.append _ _ h0 hPs⟩
        · rw [hd] at htr
          exact ⟨_, by rw [show w2.trace = _ from htr]; simp [World.log], h0⟩
      · rw [if_neg hc]
        exact ⟨_, rfl, hget⟩

theorem StoreRel.rel_pending {R : Store → Store → Prop} (hR : StoreRel R)
    (env : Env) (obj : OpenSearchCluster) (w : World) :
    R w.store (reconcilePhasePending env obj w).2.store := by
  unfold OpenSearchController.reconcilePhasePending
  obtain ⟨atoms, last, _, _, hkeep, hok⟩ :=
    pending_retry env obj (w.log (Event.enter Func.reconcilePhasePending))
  rcases hr : RetryOnConflict DefaultRetry (pendingAttempt env)
      (obj, w.log (Event.enter Func.reconcilePhasePending)) with ⟨_ | e, obj2, w2⟩
  · rw [hr] at hok
    obtain ⟨o, hl, _, hst⟩ := hok rfl
    show R w.store w2.store
    rw [show w2.store = _ from hst]
    exact hR.pending _ _ o hl
  · rw [hr] at hkeep
    show R w.store w2.store
    rw [show w2.store = _ from hkeep (by simp)]
    exact hR.refl _

theorem StoreRel.rel_running {R : Store → Store → Prop} (hR : StoreRel R)
    (env : Env) (hunits : UnitsKeepStore env) (obj : OpenSearchCluster) (w : World) :
    R w.store (reconcilePhaseRunning env obj w).2.store := by
  unfold OpenSearchController.reconcilePhaseRunning
  simp only []
  have hloop : ∀ (obj2 : OpenSearchCluster) (w2 : World), R w.store w2.store →
      R w.store (match runComponentReconcilers env applyReconcilers obj2 w2 with
          | (some r, _, w3) => (r, w3)
          | (none, _, w3) =>
            (({ Requeue := true, RequeueAfter := 30 * Second }, none), w3)).2.store := by
    intro obj2 w2 h2
    have hst := runComponentReconcilers_store env hunits applyReconcilers obj2 w2
    rcases hrun : runComponentReconcilers env applyReconcilers obj2 w2
      with ⟨_ | r, obj3, w3⟩
    · rw [hrun] at hst
      show R w.store w3.store
      rw [show w3.store = _ from hst]
      exact h2
    · rw [hrun] at hst
      show R w.store w3.store
      rw [show w3.store = _ from hst]
      exact h2
  by_cases hinit : obj.Status.Initialized = true
  · simp only [hinit, Bool.not_true, Bool.false_eq_true, if_false]
    exact hloop obj _ (hR.refl _)
  · have hinit' : obj.Status.Initialized = false := by simpa using hinit
    simp only [hinit', Bool.not_false, if_true]
    obtain ⟨atoms, last, _, _, hkeep, hok⟩ :=
      initialized_retry env obj (w.log (Event.enter Func.reconcilePhaseRunning))
    rcases hr : RetryOnConflict DefaultRetry (initializedAttempt env)
        (obj, w.log (Event.enter Func.reconcilePhaseRunning)) with ⟨_ | e, obj2, w2⟩
    · rw [hr] at hok
      obtain ⟨o, b, hl, _, _, _, hst⟩ := hok rfl
      refine hloop obj2 w2 ?_
      rw [show w2.store = _ from hst]
      exact hR.initialized _ _ o b hl
    · rw [hr] at hkeep
      show R w.store w2.store
      rw [show w2.store = _ from hkeep (by simp)]
      exact hR.refl _

theorem StoreRel.rel_dispatch {R : Store → Store → Prop} (hR : StoreRel R)
    (env : Env) (hunits : UnitsKeepStore env) (obj : OpenSearchCluster) (w : World) :
    R w.store (phaseDispatch env obj w).2.store := by
  rcases phaseDispatch_cases env obj w with ⟨obj1, h⟩ | ⟨obj1, h⟩ | h
  · rw [h]; exact hR.rel_pending env obj1 w
  · rw [h]; exact hR.rel_running env hunits obj1 w
  · rw [h]; exact hR.refl _

/-- Whatever relation every accepted write of the engine respects holds between the
store before and after one `Reconcile`, when the units leave the store alone. -/
theorem StoreRel.rel_reconcile {R : Store → Store → Prop} (hR : StoreRel R)
    (env : Env) (hunits : UnitsKeepStore env) (req : NamespacedName) (w : World) :
    R w.store (Reconcile env req w).2.store := by
  rcases Get_cases env req {} w with ⟨e, hg⟩ | ⟨o, hf0, hl0, hg⟩
  · unfold Reconcile
    rw [hg]
    simp only []
    split <;> exact hR.refl _
  · have hf : Fetched env req w o := ⟨hf0, hl0⟩
    by_cases hdel : IsZero o.ObjectMeta.DeletionTimestamp = true
    · rw [Reconcile_live env req w o hf hdel]
      by_cases hc : ContainsString o.ObjectMeta.Finalizers myFinalizerName = true
      · rw [if_pos hc]
        exact hR.rel_dispatch env hunits o (w.log (Event.get req (some o) none))
      · rw [if_neg hc]
        obtain ⟨atoms, last, _, _, hkeep, hok⟩ := finalizer_retry env req AddFinalizer
          AddFinalizer_key o (w.log (Event.get req (some o) none))
        rcases hr : RetryOnConflict DefaultRetry (finalizerAttempt env req AddFinalizer)
            (o, w.log (Event.get req (some o) none)) with ⟨_ | e, obj2, w2⟩
        · rw [hr] at hok
          obtain ⟨o', hl', _, hst⟩ := hok rfl
          have h1 : R w.store w2.store := by
            rw [show w2.store = _ from hst]
            exact hR.addFinalizer _ _ o' hl'
          exact hR.trans _ _ _ h1 (hR.rel_dispatch env hunits obj2 w2)
        · rw [hr] at hkeep
          show R w.store w2.store
          rw [show w2.store = _ from hkeep (by simp)]
          exact hR.refl _
    · have hdel' : IsZero o.ObjectMeta.DeletionTimestamp = false := by simpa using hdel
      rw [Reconcile_deleting env req w o hf hdel']
      by_cases hc : ContainsString o.ObjectMeta.Finalizers myFinalizerName = true
      · rw [if_pos hc]
        obtain ⟨seg, _, _, _, _, hst, _⟩ :=
          deleteExternalResources_loop env o (w.log (Event.get req (some o) none))
        rcases hd : deleteExternalResources env o (w.log (Event.get req (some o) none))
          with ⟨⟨result, _ | err⟩, obj2, w2⟩
        · rw [hd] at hst
          have h2 : w2.store = w.store := hst hunits
          simp only []
          obtain ⟨atoms, last, _, _, hkeep, hok⟩ := finalizer_retry env req RemoveFinalizer
            RemoveFinalizer_key obj2 w2
          rcases hr : RetryOnConflict DefaultRetry (finalizerAttempt env req RemoveFinalizer)
              (obj2, w2) with ⟨_ | e, obj3, w3⟩
          · rw [hr] at hok
            obtain ⟨o', hl', _, hst3⟩ := hok rfl
            show R w.store w3.store
            rw [show w3.store = _ from hst3, h2]
            rw [h2] at hl'
            exact hR.removeFinalizer _ _ o' hl'
          · rw [hr] at hkeep
            show R w.store w3.store
            rw [show w3.store = _ from hkeep (by simp), h2]
            exact hR.refl _
        · rw [hd] at hst
          show R w.store w2.store
          rw [show w2.store = _ from hst hunits]
          exact hR.refl _
      · rw [if_neg hc]
        exact hR.refl _

theorem StoreRel.rel_reconcileAll {R : Store → Store → Prop} (hR : StoreRel R)
    (env : Env) (hunits : UnitsKeepStore env) (reqs : List NamespacedName) :
    ∀ w : World, R w.store (ReconcileAll env reqs w).store := by
  induction reqs with
  | nil => intro w; exact hR.refl _
  | cons req rest ih =>
    intro w
    exact hR.trans _ _ _ (hR.rel_reconcile env hunits req w) (ih _)

theorem SegmentClosed.seg_reconcileAll {P : List Event → Prop} (hP : SegmentClosed P)
    (env : Env) (reqs : List NamespacedName) :
    ∀ w : World, ∃ seg, (ReconcileAll env reqs w).trace = w.trace ++ seg ∧ P seg := by
  induction reqs with
  | nil => intro w; exact ⟨[], by simp [ReconcileAll], hP.nil⟩
  | cons req rest ih =>
    intro w
    obtain ⟨s1, h1, hP1⟩ := hP.seg_reconcile env req w
    obtain ⟨s2, h2, hP2⟩ := ih (Reconcile env req w).2
    exact ⟨s1 ++ s2, by rw [ReconcileAll, h2, h1, List.append_assoc], hP.append _ _ hP1 hP2⟩

/-! ## The phase -/

theorem Store.lookup_put_phase (s : Store) (obj cur : OpenSearchCluster)
    (h : s.lookup (ObjectKeyFromObject obj) = some cur) (key : NamespacedName) :
    ((s.put obj).lookup key).map (fun x => x.Status.Phase)
        = (s.lookup key).map (fun x => x.Status.Phase) ∨
      ((s.put obj).lookup key).map (fun x => x.Status.Phase) = some obj.Status.Phase := by
  by_cases hk : key = ObjectKeyFromObject obj
  · rw [hk, Store.lookup_put_self s obj cur h]
    exact Or.inr rfl
  · rw [Store.lookup_put_other s obj key hk]
    exact Or.inl rfl

/-- The stored phase of every object is, after a write of the engine, what it was or
`Running`. -/
theorem phaseStep_storeRel :
    StoreRel (fun s s1 => ∀ key : NamespacedName,
      (s1.lookup key).map (fun x => x.Status.Phase)
          = (s.lookup key).map (fun x => x.Status.Phase) ∨
        (s1.lookup key).map (fun x => x.Status.Phase) = some PhaseRunning) where
  refl := fun _ _ => Or.inl rfl
  trans := by
    intro a b c hab hbc key
    rcases hbc key with h | h
    · rcases hab key with h1 | h1
      · exact Or.inl (h.trans h1)
      · exact Or.inr (h.trans h1)
    · exact Or.inr h
  addFinalizer := by
    intro s key o hl k
    have hk : ObjectKeyFromObject (writeMeta o (AddFinalizer o myFinalizerName)) = key :=
      (AddFinalizer_key o myFinalizerName).trans (Store.lookup_key hl)
    rcases Store.lookup_put_phase s (writeMeta o (AddFinalizer o myFinalizerName)) o
      (by rw [hk]; exact hl) k with h | h
    · exact Or.inl h
    · by_cases hkk : k = key
      · refine Or.inl ?_
        rw [h, hkk, hl]
        rfl
      · rw [Store.lookup_put_other s _ k (by rw [hk]; exact hkk)]
        exact Or.inl rfl
  removeFinalizer := by
    intro s key o hl k
    have hk : ObjectKeyFromObject (writeMeta o (RemoveFinalizer o myFinalizerName)) = key :=
      (RemoveFinalizer_key o myFinalizerName).trans (Store.lookup_key hl)
    rcases Store.lookup_put_phase s (writeMeta o (RemoveFinalizer o myFinalizerName)) o
      (by rw [hk]; exact hl) k with h | h
    · exact Or.inl h
    · by_cases hkk : k = key
      · refine Or.inl ?_
        rw [h, hkk, hl]
        rfl
      · rw [Store.lookup_put_other s _ k (by rw [hk]; exact hkk)]
        exact Or.inl rfl
  pending := by
    intro s key o hl k
    have hk : ObjectKeyFromObject (writeStatus o { o with Status :=
        { o.Status with Phase := PhaseRunning, ComponentsStatus := [] } }) = key :=
      (Store.lookup_key hl : ObjectKeyFromObject o = key)
    rcases Store.lookup_put_phase s _ o (by rw [hk]; exact hl) k with h | h
    · exact Or.inl h
    · exact Or.inr h
  initialized := by
    intro s key o b hl k
    have hk : ObjectKeyFromObject (writeStatus o { o with Status :=
        { o.Status with Initialized := b } }) = key :=
      (Store.lookup_key hl : ObjectKeyFromObject o = key)
    rcases Store.lookup_put_phase s _ o (by rw [hk]; exact hl) k with h | h
    · exact Or.inl h
    · by_cases hkk : k = key
      · refine Or.inl ?_
        rw [h, hkk, hl]
        rfl
      · rw [Store.lookup_put_other s _ k (by rw [hk]; exact hkk)]
        exact Or.inl rfl

theorem PhaseWritesFollowFetch.of_no_status {seg : List Event}
    (h : ∀ e ∈ seg, ∀ obj err, e ≠ Event.statusUpdate obj err) :
    PhaseWritesFollowFetch seg := by
  intro pre post obj err heq
  exact absurd rfl (h (Event.statusUpdate obj err) (by rw [heq]; simp) obj err)

theorem PhaseWritesFollowFetch.append {s t : List Event}
    (hs : PhaseWritesFollowFetch s) (ht : PhaseWritesFollowFetch t) :
    PhaseWritesFollowFetch (s ++ t) := by
  intro pre post obj err heq
  rcases List.append_eq_append_iff.mp heq with ⟨a, hpre, htt⟩ | ⟨c, hss, hct⟩
  · obtain ⟨pre1, key, o, hp, hph⟩ := ht a post obj err htt
    refine ⟨s ++ pre1, key, o, ?_, hph⟩
    rcases hp with hp | ⟨b, hp⟩
    · exact Or.inl (by rw [hpre, hp, List.append_assoc])
    · exact Or.inr ⟨b, by rw [hpre, hp, List.append_assoc]⟩
  · cases c with
    | nil =>
      obtain ⟨pre1, key, o, hp, hph⟩ := ht [] post obj err (by simpa using hct.symm)
      rcases hp with hp | ⟨b, hp⟩
      · simp at hp
      · simp at hp
    | cons x c1 =>
      simp only [List.cons_append, List.cons.injEq] at hct
      obtain ⟨rfl, _⟩ := hct
      exact hs pre c1 obj err hss

/-- Every status write of the engine follows the fetch of the object it submits, with
the phase as fetched or `Running`. -/
theorem phaseWrites_segmentClosed : SegmentClosed PhaseWritesFollowFetch where
  nil := PhaseWritesFollowFetch.of_no_status (by simp)
  append := fun _ _ hs ht => PhaseWritesFollowFetch.append hs ht
  get := fun _ _ _ => PhaseWritesFollowFetch.of_no_status (by simp)
  enter := fun _ => PhaseWritesFollowFetch.of_no_status (by simp)
  component := fun _ _ _ _ _ => PhaseWritesFollowFetch.of_no_status (by simp)
  addFinalizer := by
    intro key store err a h
    rcases h with ⟨e, _, rfl⟩ | ⟨o, _, rfl⟩ <;>
      exact PhaseWritesFollowFetch.of_no_status (by simp)
  removeFinalizer := by
    intro key store err a h
    rcases h with ⟨e, _, rfl⟩ | ⟨o, _, rfl⟩ <;>
      exact PhaseWritesFollowFetch.of_no_status (by simp)
  pending := by
    intro key store err a h
    rcases h with ⟨e, _, rfl⟩ | ⟨o, _, rfl⟩
    · exact PhaseWritesFollowFetch.of_no_status (by simp)
    · intro pre post obj err1 heq
      match pre, heq with
      | [], heq => simp at heq
      | [x], heq =>
        simp only [List.cons_append, List.nil_append, List.cons.injEq,
          Event.statusUpdate.injEq] at heq
        obtain ⟨hx, ⟨hobj, _⟩, _⟩ := heq
        exact ⟨[], key, o, Or.inl (by rw [← hx]; rfl), Or.inr (by rw [← hobj])⟩
      | x :: y :: rest, heq =>
        simp only [List.cons_append, List.cons.injEq] at heq
        obtain ⟨_, _, h3⟩ := heq
        cases rest <;> simp at h3
  initialized := by
    intro key store err a h
    rcases h with ⟨e, _, rfl⟩ | ⟨o, b, _, rfl⟩
    · exact PhaseWritesFollowFetch.of_no_status (by simp)
    · intro pre post obj err1 heq
      match pre, heq with
      | [], heq => simp at heq
      | [x], heq => simp at heq
      | [x, y], heq =>
        simp only [List.cons_append, List.nil_append, List.cons.injEq,
          Event.statusUpdate.injEq] at heq
        obtain ⟨hx, hy, ⟨hobj, _⟩, _⟩ := heq
        exact ⟨[], key, o, Or.inr ⟨b, by rw [← hx, ← hy]; rfl⟩, Or.inl (by rw [← hobj])⟩
      | x :: y :: z :: rest, heq =>
        simp only [List.cons_append, List.cons.injEq] at heq
        obtain ⟨_, _, _, h4⟩ := heq
        cases rest <;> simp at h4

/-- Claim C7. Phase monotonicity.  Over every sequence of `Reconcile` calls, whatever the
units return, whatever the readiness predicate answers and whatever the outcome of
every store operation: an object whose stored phase is `Running` has the stored phase
`Running`, hence not `Pending`, afterwards (the units leaving the store alone); and
every `Status().Update` the engine issues comes right after the fetch of the object
it submits and carries the phase as fetched, or `Running`. -/
theorem phase_never_back_to_pending (env : Env) (reqs : List NamespacedName) (w : World) :
    (UnitsKeepStore env → ∀ (key : NamespacedName) (o : OpenSearchCluster),
      w.store.lookup key = some o → o.Status.Phase = PhaseRunning →
      ∃ o1, (ReconcileAll env reqs w).store.lookup key = some o1 ∧
        o1.Status.Phase = PhaseRunning ∧ o1.Status.Phase ≠ PhasePending) ∧
    (∃ seg : List Event, (ReconcileAll env reqs w).trace = w.trace ++ seg ∧
      PhaseWritesFollowFetch seg) := by
  refine ⟨?_, phaseWrites_segmentClosed.seg_reconcileAll env reqs w⟩
  intro hunits key o hl hph
  have h := phaseStep_storeRel.rel_reconcileAll env hunits reqs w key
  rw [hl] at h
  simp only [Option.map_some', hph, or_self] at h
  cases h1 : (ReconcileAll env reqs w).store.lookup key with
  | none => rw [h1] at h; cases h
  | some o1 =>
    rw [h1] at h
    simp only [Option.map_some', Option.some.injEq] at h
    refine ⟨o1, rfl, h, ?_⟩
    rw [h]
    decide

/-! ## The claims at concrete inputs -/

theorem teardown_error_keeps_finalizer_witness :
    ∃ (seg : List Event) (pre : List Call) (c : Call),
      componentCalls seg = pre ++ [c] ∧ c.err = some errOther ∧
      (Reconcile securityTeardownFailsEnv exampleKey { store := [deletingCluster] }).1
        = (c.result, c.err) ∧
      (UnitsKeepStore securityTeardownFailsEnv →
        (Reconcile securityTeardownFailsEnv exampleKey
          { store := [deletingCluster] }).2.store.lookup exampleKey = some deletingCluster) :=
  let ⟨seg, pre, c, _, _, h3, _, h5, h6, h7⟩ :=
    teardown_error_keeps_finalizer securityTeardownFailsEnv exampleKey
      { store := [deletingCluster] } deletingCluster ⟨rfl, rfl⟩ rfl rfl errOther rfl
  ⟨seg, pre, c, h3, h5, h6, fun hk => (h7 hk).2⟩

theorem not_found_swallowed_witness :
    (Reconcile quietEnv exampleKey {}).1 = ({}, none) ∧
    (Reconcile quietEnv exampleKey {}).2.store = [] :=
  let h := not_found_swallowed quietEnv exampleKey {} errNotFound rfl rfl
  ⟨h.1, h.2.1⟩

theorem fetch_error_propagated_witness :
    (Reconcile firstFetchFailsEnv exampleKey { store := [runningCluster] }).1
      = ({}, some errOther) ∧
    (Reconcile firstFetchFailsEnv exampleKey { store := [runningCluster] }).2.store
      = [runningCluster] :=
  let h := fetch_error_propagated firstFetchFailsEnv exampleKey { store := [runningCluster] }
    errOther rfl rfl
  ⟨h.1, h.2.1⟩

theorem deleting_object_no_apply_work_witness :
    (∃ seg : List Event,
      (Reconcile quietEnv exampleKey { store := [deletingCluster] }).2.trace = [] ++ seg ∧
      ∀ ev ∈ seg, Event.teardownOnly ev = true) ∧
    (Reconcile quietEnv exampleKey { store := [deletingCluster] }).1 = ({}, none) :=
  let h := deleting_object_no_apply_work quietEnv exampleKey { store := [deletingCluster] }
    deletingCluster ⟨rfl, rfl⟩ rfl
  ⟨h.1, h.2.2.2.1 (fun _ _ _ _ _ => rfl) (fun _ => rfl) (fun _ _ _ _ => rfl)⟩

theorem phase_never_back_to_pending_witness :
    ∃ o1, (ReconcileAll quietEnv [exampleKey, exampleKey]
        { store := [runningCluster] }).store.lookup exampleKey = some o1 ∧
      o1.Status.Phase = PhaseRunning ∧ o1.Status.Phase ≠ PhasePending :=
  (phase_never_back_to_pending quietEnv [exampleKey, exampleKey]
    { store := [runningCluster] }).1 (fun _ _ _ _ _ => rfl) exampleKey runningCluster rfl rfl

/-- Claim C2, at the input of scenario B: the object is being deleted and carries the
finalizer marker, and the TLS teardown unit returns `(Requeue = true, nil)`.  The
teardown pipeline stops there and returns that tuple, but `Reconcile` drops it: it
goes on to remove the marker with an `Update` and returns `(empty result, nil)`. -/
theorem teardown_requeue_releases_finalizer :
    (deleteExternalResources tlsTeardownRequeueEnv deletingCluster
      { store := [deletingCluster] }).1 = ({ Requeue := true }, none) ∧
    (Reconcile tlsTeardownRequeueEnv exampleKey { store := [deletingCluster] }).1
      = ({}, none) ∧
    componentCalls
        (Reconcile tlsTeardownRequeueEnv exampleKey { store := [deletingCluster] }).2.trace
      = [{ component := Component.tls, method := Method.DeleteResources,
           result := { Requeue := true }, err := none }] ∧
    ((Reconcile tlsTeardownRequeueEnv exampleKey
        { store := [deletingCluster] }).2.store.lookup exampleKey).map
        (fun o => o.ObjectMeta.Finalizers) = some [] ∧
    (Reconcile tlsTeardownRequeueEnv exampleKey { store := [deletingCluster] }).2.trace.getLast?
      = some (Event.update (RemoveFinalizer deletingCluster myFinalizerName) none) := by
  decide

/-- Claim C6, at the input of scenario A (a newly created object: no finalizer, no
deletion timestamp, no phase) with every store operation accepted and every unit
returning without error: after one `Reconcile` the stored object carries the
finalizer marker and the result has `Requeue = true`, but its stored phase is still
unset; the phase `Running` was set on the in-memory object only, which the re-fetch
of `reconcilePhaseRunning` then replaced, so even the objects handed to the units
carry no phase.  For an object without phase that is already initialized, no status is
written at all: phase and `ComponentsStatus` stay as stored. -/
theorem first_observation_not_persisted :
    ((Reconcile quietEnv exampleKey { store := [newCluster] }).2.store.lookup exampleKey).map
        (fun o => (o.ObjectMeta.Finalizers, o.Status.Phase, o.Status.Initialized))
      = some (["Opster"], "", true) ∧
    (Reconcile quietEnv exampleKey { store := [newCluster] }).1
      = ({ Requeue := true, RequeueAfter := 30 * Second }, none) ∧
    (handedObjects (Reconcile quietEnv exampleKey { store := [newCluster] }).2.trace).map
        (fun o => o.Status.Phase) = ["", "", "", "", "", "", "", ""] ∧
    (Reconcile quietEnv exampleKey { store := [phaselessCluster] }).2.store
      = [phaselessCluster] := by
  decide

/-! ## The finalizer step -/

theorem Reconcile_ensure (env : Env) (req : NamespacedName) (w : World) (o : OpenSearchCluster)
    (hf : Fetched env req w o) (hdel : IsZero o.ObjectMeta.DeletionTimestamp = true) :
    Reconcile env req w =
      match ensureFinalizer env req o (w.log (Event.get req (some o) none)) with
      | (some err, _, w2) => (({}, some err), w2)
      | (none, obj2, w2) => phaseDispatch env obj2 w2 := by
  rw [Reconcile_live env req w o hf hdel]
  unfold ensureFinalizer
  by_cases hc : ContainsString o.ObjectMeta.Finalizers myFinalizerName = true
  · simp [hc]
  · simp [hc]

theorem RetryOnConflict_abort {σ : Type} (fn : σ → Option Err × σ) (s : σ) (e : Err)
    (h : (fn s).1 = some e) (hnc : IsConflict e = false) :
    RetryOnConflict DefaultRetry fn s = fn s := by
  rcases hfn : fn s with ⟨_ | e1, s1⟩
  · rw [hfn] at h
    cases h
  · rw [hfn] at h
    simp only [Option.some.injEq] at h
    subst h
    simp [RetryOnConflict, DefaultRetry, OnError, hfn, hnc]

/-- What the finalizer step leaves behind: nothing changed when the marker was there,
the error of the last attempt and the store as it was when the add failed, and the
stored object with the marker added when it succeeded; it calls no unit. -/
theorem ensureFinalizer_spec (env : Env) (req : NamespacedName) (o : OpenSearchCluster)
    (w : World) (hl : w.store.lookup req = some o) :
    componentCalls (ensureFinalizer env req o w).2.2.trace = componentCalls w.trace ∧
    (∀ e, (ensureFinalizer env req o w).1 = some e →
      (ensureFinalizer env req o w).2.2.store = w.store) ∧
    ((ensureFinalizer env req o w).1 = none →
      (ContainsString o.ObjectMeta.Finalizers myFinalizerName = true ∧
        (ensureFinalizer env req o w).2 = (o, w)) ∨
      (ContainsString o.ObjectMeta.Finalizers myFinalizerName = false ∧
        (ensureFinalizer env req o w).2.1 = writeMeta o (AddFinalizer o myFinalizerName) ∧
        (ensureFinalizer env req o w).2.2.store
          = w.store.put (writeMeta o (AddFinalizer o myFinalizerName)))) := by
  unfold ensureFinalizer
  by_cases hc : ContainsString o.ObjectMeta.Finalizers myFinalizerName = true
  · simp [hc]
  · have hc' : ContainsString o.ObjectMeta.Finalizers myFinalizerName = false := by
      simpa using hc
    simp only [hc', Bool.not_false, if_true]
    obtain ⟨atoms, last, htr, hseg, hkeep, hok⟩ :=
      finalizer_retry env req AddFinalizer AddFinalizer_key o w
    have hquiet : componentCalls (atoms.flatten ++ last) = [] :=
      componentCalls_nil_of_forall
        (RetrySegment.forall_mem (fun e => Event.call? e = none)
          FinalizerAtom.quiet_finalizer hseg)
    refine ⟨?_, ?_, ?_⟩
    · rw [htr, List.append_assoc, componentCalls_append, hquiet, List.append_nil]
    · intro e he
      exact hkeep (by rw [he]; simp)
    · intro hnone
      obtain ⟨o', hl', h1, h2⟩ := hok hnone
      rw [hl] at hl'
      have ho : o = o' := Option.some.inj hl'
      subst ho
      exact Or.inr ⟨trivial, h1, h2⟩

theorem World.ext_fields (w : World) (s : Store) (t : List Event)
    (hs : w.store = s) (ht : w.trace = t) : w = { store := s, trace := t } := by
  cases w
  simp only at hs ht
  rw [hs, ht]

theorem FinalizerAtom.of_none {change : OpenSearchCluster → String → OpenSearchCluster}
    {key : NamespacedName} {store : Store} {a : List Event} {o : OpenSearchCluster}
    (hl : store.lookup key = some o) (h : FinalizerAtom change key store none a) :
    a = [Event.get key (some o) none, Event.update (change o myFinalizerName) none] := by
  rcases h with ⟨e, he, _⟩ | ⟨o', hl', rfl⟩
  · cases he
  · rw [hl] at hl'
    cases hl'
    rfl

theorem FinalizerAtom.of_some {change : OpenSearchCluster → String → OpenSearchCluster}
    {key : NamespacedName} {store : Store} {a : List Event} {o : OpenSearchCluster} {e : Err}
    (hl : store.lookup key = some o) (h : FinalizerAtom change key store (some e) a) :
    a = [Event.get key none (some e)] ∨
    a = [Event.get key (some o) none, Event.update (change o myFinalizerName) (some e)] := by
  rcases h with ⟨e1, he, rfl⟩ | ⟨o', hl', rfl⟩
  · cases he
    exact Or.inl rfl
  · rw [hl] at hl'
    cases hl'
    exact Or.inr rfl

/-- The outcome of the finalizer step on an object that lacks the marker: the retried
attempts, and what `Reconcile` does after the last one. -/
theorem finalizer_add_outcome (env : Env) (req : NamespacedName) (w : World)
    (o : OpenSearchCluster) (hf : Fetched env req w o)
    (hdel : IsZero o.ObjectMeta.DeletionTimestamp = true)
    (hfin : ContainsString o.ObjectMeta.Finalizers myFinalizerName = false) :
    ∃ (atoms : List (List Event)) (last : List Event) (r : Option Err),
      RetrySegment (FinalizerAtom AddFinalizer req w.store) r atoms last ∧
      (r = none →
        last = [Event.get req (some o) none,
          Event.update (AddFinalizer o myFinalizerName) none] ∧
        Reconcile env req w =
          phaseDispatch env (writeMeta o (AddFinalizer o myFinalizerName))
            { store := w.store.put (writeMeta o (AddFinalizer o myFinalizerName)),
              trace := w.trace ++ Event.get req (some o) none :: (atoms.flatten ++ last) }) ∧
      (∀ e, r = some e →
        Reconcile env req w =
          (({}, some e),
            { store := w.store,
              trace := w.trace ++ Event.get req (some o) none :: (atoms.flatten ++ last) })) := by
  have hlive := Reconcile_live env req w o hf hdel
  have hc : ¬ ContainsString o.ObjectMeta.Finalizers myFinalizerName = true := by
    rw [hfin]; simp
  rw [if_neg hc] at hlive
  have hl1 : (w.log (Event.get req (some o) none)).store.lookup req = some o := hf.2
  obtain ⟨atoms, last, htr, hseg, hkeep, hok⟩ :=
    finalizer_retry env req AddFinalizer AddFinalizer_key o
      (w.log (Event.get req (some o) none))
  refine ⟨atoms, last, _, hseg, ?_, ?_⟩
  · intro hnone
    have hlast := FinalizerAtom.of_none hl1 (hnone ▸ hseg.2.2.1)
    obtain ⟨o', hl', hobj, hst⟩ := hok hnone
    rw [hl1] at hl'
    have ho : o = o' := Option.some.inj hl'
    subst ho
    refine ⟨hlast, ?_⟩
    rw [hlive]
    rcases hr : RetryOnConflict DefaultRetry (finalizerAttempt env req AddFinalizer)
        (o, w.log (Event.get req (some o) none)) with ⟨_ | e, obj2, w2⟩
    · rw [hr] at htr hobj hst
      simp only at htr hobj hst
      have hw : w2 = World.mk (w.store.put (writeMeta o (AddFinalizer o myFinalizerName)))
          (w.trace ++ Event.get req (some o) none :: (atoms.flatten ++ last)) :=
        World.ext_fields w2 _ _ hst (by rw [htr]; simp [World.log])
      rw [hobj, hw]
    · rw [hr] at hnone
      cases hnone
  · intro e he
    rw [hlive]
    rcases hr : RetryOnConflict DefaultRetry (finalizerAttempt env req AddFinalizer)
        (o, w.log (Event.get req (some o) none)) with ⟨_ | e1, obj2, w2⟩
    · rw [hr] at he
      cases he
    · rw [hr] at he htr hkeep
      simp only [Option.some.injEq] at he
      subst he
      simp only at htr hkeep
      have hw : w2 = World.mk w.store
          (w.trace ++ Event.get req (some o) none :: (atoms.flatten ++ last)) :=
        World.ext_fields w2 _ _ (hkeep (by simp)) (by rw [htr]; simp [World.log])
      rw [hw]

/-- Claim C11. Finalizer before any other work.  For an object that is fetched, is not
being deleted and lacks the finalizer marker, `Reconcile` first runs the retried
read-modify-write that adds the marker: at most four attempts that failed with a
conflict, then a last one.  When that one succeeds it is a re-fetch followed by the
`Update` of the fetched object with the marker added, and only then does `Reconcile`
enter the phase dispatch, on a store that holds the marker; when it fails, `Reconcile`
returns `(empty result, that error)` and the store is as it was.  When the first
attempt fails with an error that is not a conflict (at its re-fetch or at its
`Update`), that attempt is the only one: after the initial fetch the history grows by
that one re-fetch, and the one `Update` if the re-fetch succeeded, and by nothing else
(no pipeline unit, no `Status().Update`), and `Reconcile` returns `(empty result,
that error)`. -/
theorem finalizer_added_first (env : Env) (req : NamespacedName) (w : World)
    (o : OpenSearchCluster) (hf : Fetched env req w o)
    (hdel : IsZero o.ObjectMeta.DeletionTimestamp = true)
    (hfin : ContainsString o.ObjectMeta.Finalizers myFinalizerName = false) :
    (∃ (atoms : List (List Event)) (last : List Event) (r : Option Err),
      RetrySegment (FinalizerAtom AddFinalizer req w.store) r atoms last ∧
      (r = none →
        last = [Event.get req (some o) none,
          Event.update (AddFinalizer o myFinalizerName) none] ∧
        Reconcile env req w =
          phaseDispatch env (writeMeta o (AddFinalizer o myFinalizerName))
            { store := w.store.put (writeMeta o (AddFinalizer o myFinalizerName)),
              trace := w.trace ++ Event.get req (some o) none :: (atoms.flatten ++ last) }) ∧
      (∀ e, r = some e →
        Reconcile env req w =
          (({}, some e),
            { store := w.store,
              trace := w.trace ++ Event.get req (some o) none :: (atoms.flatten ++ last) }))) ∧
    (∀ e, (finalizerAttempt env req AddFinalizer
        (o, w.log (Event.get req (some o) none))).1 = some e → IsConflict e = false →
      ∃ a : List Event,
        (a = [Event.get req none (some e)] ∨
         a = [Event.get req (some o) none,
              Event.update (AddFinalizer o myFinalizerName) (some e)]) ∧
        Reconcile env req w =
          (({}, some e),
            { store := w.store, trace := w.trace ++ Event.get req (some o) none :: a })) := by
  have hlive := Reconcile_live env req w o hf hdel
  have hc : ¬ ContainsString o.ObjectMeta.Finalizers myFinalizerName = true := by
    rw [hfin]; simp
  rw [if_neg hc] at hlive
  have hl1 : (w.log (Event.get req (some o) none)).store.lookup req = some o := hf.2
  refine ⟨finalizer_add_outcome env req w o hf hdel hfin, ?_⟩
  · intro e hfail hnc
    obtain ⟨a, htr, hatom, hkeep⟩ := finalizerAttempt_run env req AddFinalizer
      (o, w.log (Event.get req (some o) none))
    rw [hfail] at hatom hkeep
    refine ⟨a, FinalizerAtom.of_some hl1 hatom, ?_⟩
    rw [hlive, RetryOnConflict_abort _ _ e hfail hnc]
    rcases hr : finalizerAttempt env req AddFinalizer (o, w.log (Event.get req (some o) none))
      with ⟨_ | e1, obj2, w2⟩
    · rw [hr] at hfail
      cases hfail
    · rw [hr] at hfail htr hkeep
      simp only [Option.some.injEq] at hfail
      subst hfail
      simp only at htr hkeep
      have hw : w2 = World.mk w.store (w.trace ++ Event.get req (some o) none :: a) :=
        World.ext_fields w2 _ _ (hkeep (by simp)).1 (by rw [htr]; simp [World.log])
      rw [hw]

theorem Store.lookup_put_congr {α : Type} (f : OpenSearchCluster → α) (s : Store)
    (obj cur : OpenSearchCluster) (h : s.lookup (ObjectKeyFromObject obj) = some cur)
    (hf : f obj = f cur) (key : NamespacedName) :
    ((s.put obj).lookup key).map f = (s.lookup key).map f := by
  by_cases hk : key = ObjectKeyFromObject obj
  · rw [hk, Store.lookup_put_self s obj cur h, h]
    simp [hf]
  · rw [Store.lookup_put_other s obj key hk]

theorem writeStatus_key (cur obj : OpenSearchCluster) :
    ObjectKeyFromObject (writeStatus cur obj) = ObjectKeyFromObject cur := rfl

theorem writeMeta_key (cur obj : OpenSearchCluster) :
    ObjectKeyFromObject (writeMeta cur obj) = ObjectKeyFromObject obj := rfl

theorem StatusRel.status_pending {R : Store → Store → Prop} (hR : StatusRel R)
    (env : Env) (obj : OpenSearchCluster) (w : World) :
    R w.store (reconcilePhasePending env obj w).2.store := by
  unfold OpenSearchController.reconcilePhasePending
  obtain ⟨atoms, last, _, _, hkeep, hok⟩ :=
    pending_retry env obj (w.log (Event.enter Func.reconcilePhasePending))
  rcases hr : RetryOnConflict DefaultRetry (pendingAttempt env)
      (obj, w.log (Event.enter Func.reconcilePhasePending)) with ⟨_ | e, obj2, w2⟩
  · rw [hr] at hok
    obtain ⟨o, hl, _, hst⟩ := hok rfl
    show R w.store w2.store
    rw [show w2.store = _ from hst]
    exact hR.pending _ _ o hl
  · rw [hr] at hkeep
    show R w.store w2.store
    rw [show w2.store = _ from hkeep (by simp)]
    exact hR.refl _

theorem StatusRel.status_running {R : Store → Store → Prop} (hR : StatusRel R)
    (env : Env) (hunits : UnitsKeepStore env) (obj : OpenSearchCluster) (w : World) :
    R w.store (reconcilePhaseRunning env obj w).2.store := by
  unfold OpenSearchController.reconcilePhaseRunning
  simp only []
  have hloop : ∀ (obj2 : OpenSearchCluster) (w2 : World), R w.store w2.store →
      R w.store (match runComponentReconcilers env applyReconcilers obj2 w2 with
          | (some r, _, w3) => (r, w3)
          | (none, _, w3) =>
            (({ Requeue := true, RequeueAfter := 30 * Second }, none), w3)).2.store := by
    intro obj2 w2 h2
    have hst := runComponentReconcilers_store env hunits applyReconcilers obj2 w2
    rcases hrun : runComponentReconcilers env applyReconcilers obj2 w2
      with ⟨_ | r, obj3, w3⟩
    · rw [hrun] at hst
      show R w.store w3.store
      rw [show w3.store = _ from hst]
      exact h2
    · rw [hrun] at hst
      show R w.store w3.store
      rw [show w3.store = _ from hst]
      exact h2
  by_cases hinit : obj.Status.Initialized = true
  · simp only [hinit, Bool.not_true, Bool.false_eq_true, if_false]
    exact hloop obj _ (hR.refl _)
  · have hinit' : obj.Status.Initialized = false := by simpa using hinit
    simp only [hinit', Bool.not_false, if_true]
    obtain ⟨atoms, last, _, _, hkeep, hok⟩ :=
      initialized_retry env obj (w.log (Event.enter Func.reconcilePhaseRunning))
    rcases hr : RetryOnConflict DefaultRetry (initializedAttempt env)
        (obj, w.log (Event.enter Func.reconcilePhaseRunning)) with ⟨_ | e, obj2, w2⟩
    · rw [hr] at hok
      obtain ⟨o, b, hl, _, _, _, hst⟩ := hok rfl
      refine hloop obj2 w2 ?_
      rw [show w2.store = _ from hst]
      exact hR.initialized _ _ o b hl
    · rw [hr] at hkeep
      show R w.store w2.store
      rw [show w2.store = _ from hkeep (by simp)]
      exact hR.refl _

/-- Whatever relation the two status writes respect holds between the store before and
after the phase dispatch, when the units leave the store alone. -/
theorem StatusRel.status_dispatch {R : Store → Store → Prop} (hR : StatusRel R)
    (env : Env) (hunits : UnitsKeepStore env) (obj : OpenSearchCluster) (w : World) :
    R w.store (phaseDispatch env obj w).2.store := by
  rcases phaseDispatch_cases env obj w with ⟨obj1, h⟩ | ⟨obj1, h⟩ | h
  · rw [h]; exact hR.status_pending env obj1 w
  · rw [h]; exact hR.status_running env hunits obj1 w
  · rw [h]; exact hR.refl _

/-- The phase handlers leave the metadata of every stored object alone, the version
token apart. -/
theorem finalizers_statusRel :
    StatusRel (fun s s1 => ∀ key : NamespacedName,
      (s1.lookup key).map (fun x => x.ObjectMeta.Finalizers)
        = (s.lookup key).map (fun x => x.ObjectMeta.Finalizers)) where
  refl := fun _ _ => rfl
  trans := fun _ _ _ hab hbc key => (hbc key).trans (hab key)
  pending := by
    intro s key o hl k
    refine Store.lookup_put_congr (fun x => x.ObjectMeta.Finalizers) s _ o ?_ ?_ k
    · rw [writeStatus_key, Store.lookup_key hl]
      exact hl
    · rfl
  initialized := by
    intro s key o b hl k
    refine Store.lookup_put_congr (fun x => x.ObjectMeta.Finalizers) s _ o ?_ ?_ k
    · rw [writeStatus_key, Store.lookup_key hl]
      exact hl
    · rfl

theorem AddFinalizer_contains (o : OpenSearchCluster) (m : String) :
    ContainsString (AddFinalizer o m).ObjectMeta.Finalizers m = true := by
  unfold AddFinalizer ContainsString
  split
  · assumption
  · simp

/-- Claim C12. Conflict retry converges.  For an object that is fetched, is not being
deleted and lacks the finalizer marker: when the first `Update` of the finalizer-add
fails with a version conflict and the second succeeds, the engine makes exactly two
attempts, each a re-fetch followed by the `Update` of the fetched object with the
marker added; the store then holds the object with the marker and `Reconcile` goes on
to the phase dispatch from there (and when the units leave the store alone the marker
is still stored when `Reconcile` returns).  Whatever the store answers, the attempts
number at most `retry.DefaultRetry.Steps`, which is five, and when the last of them
failed with a conflict they were five and that conflict error is returned. -/
theorem conflict_retry_converges (env : Env) (req : NamespacedName) (w : World)
    (o : OpenSearchCluster) (hf : Fetched env req w o)
    (hdel : IsZero o.ObjectMeta.DeletionTimestamp = true)
    (hfin : ContainsString o.ObjectMeta.Finalizers myFinalizerName = false) :
    (∀ e1 : Err, env.fault (w.clock + 1) = none → env.fault (w.clock + 2) = some e1 →
      IsConflict e1 = true → env.fault (w.clock + 3) = none →
      env.fault (w.clock + 4) = none →
      Reconcile env req w =
        phaseDispatch env (writeMeta o (AddFinalizer o myFinalizerName))
          { store := w.store.put (writeMeta o (AddFinalizer o myFinalizerName)),
            trace := w.trace ++
              [Event.get req (some o) none,
               Event.get req (some o) none,
               Event.update (AddFinalizer o myFinalizerName) (some e1),
               Event.get req (some o) none,
               Event.update (AddFinalizer o myFinalizerName) none] } ∧
      (w.store.put (writeMeta o (AddFinalizer o myFinalizerName))).lookup req
        = some (writeMeta o (AddFinalizer o myFinalizerName)) ∧
      ContainsString (writeMeta o (AddFinalizer o myFinalizerName)).ObjectMeta.Finalizers
        myFinalizerName = true ∧
      (UnitsKeepStore env →
        ((Reconcile env req w).2.store.lookup req).map (fun x => x.ObjectMeta.Finalizers)
          = some (AddFinalizer o myFinalizerName).ObjectMeta.Finalizers)) ∧
    (∃ (atoms : List (List Event)) (last : List Event) (r : Option Err),
      RetrySegment (FinalizerAtom AddFinalizer req w.store) r atoms last ∧
      atoms.length + 1 ≤ DefaultRetry.Steps ∧
      (r = none →
        Reconcile env req w =
          phaseDispatch env (writeMeta o (AddFinalizer o myFinalizerName))
            { store := w.store.put (writeMeta o (AddFinalizer o myFinalizerName)),
              trace := w.trace ++ Event.get req (some o) none :: (atoms.flatten ++ last) }) ∧
      (∀ e, r = some e →
        Reconcile env req w =
          (({}, some e),
            { store := w.store,
              trace := w.trace ++ Event.get req (some o) none :: (atoms.flatten ++ last) })) ∧
      (∀ e, r = some e → IsConflict e = true → atoms.length + 1 = DefaultRetry.Steps)) := by
  have hkey : ObjectKeyFromObject o = req := Store.lookup_key hf.2
  have hk2 : ObjectKeyFromObject (writeMeta o (AddFinalizer o myFinalizerName)) = req :=
    (AddFinalizer_key o myFinalizerName).trans hkey
  have hput : (w.store.put (writeMeta o (AddFinalizer o myFinalizerName))).lookup req
      = some (writeMeta o (AddFinalizer o myFinalizerName)) := by
    have := Store.lookup_put_self w.store (writeMeta o (AddFinalizer o myFinalizerName)) o
      (by rw [hk2]; exact hf.2)
    rw [hk2] at this
    exact this
  constructor
  · intro e1 h1 h2 hconf h3 h4
    have hlive := Reconcile_live env req w o hf hdel
    have hc : ¬ ContainsString o.ObjectMeta.Finalizers myFinalizerName = true := by
      rw [hfin]; simp
    rw [if_neg hc] at hlive
    -- the first attempt: the re-fetch succeeds, the `Update` meets the conflict
    have hclk1 : (w.log (Event.get req (some o) none)).clock = w.clock + 1 := by
      simp [World.log, World.clock]
    have hatt1 : finalizerAttempt env req AddFinalizer (o, w.log (Event.get req (some o) none))
        = (some e1, AddFinalizer o myFinalizerName,
            World.mk w.store (w.trace ++ [Event.get req (some o) none,
              Event.get req (some o) none,
              Event.update (AddFinalizer o myFinalizerName) (some e1)])) := by
      rw [finalizerAttempt_get_ok env req AddFinalizer
        (Get_ok env req o o (w.log (Event.get req (some o) none)) (by rw [hclk1]; exact h1) hf.2)]
      have hf2 : env.fault (w.trace.length + 1 + 1) = some e1 := h2
      simp [Update, World.log, World.clock, hf2]
    have hatt2 := finalizerAttempt_noFault env req AddFinalizer AddFinalizer_key
      AddFinalizer_version (AddFinalizer o myFinalizerName) o
      (World.mk w.store (w.trace ++ [Event.get req (some o) none,
              Event.get req (some o) none,
              Event.update (AddFinalizer o myFinalizerName) (some e1)]))
      hf.2 (by simpa [World.clock] using h3) (by simpa [World.clock] using h4)
    have hretry : RetryOnConflict DefaultRetry (finalizerAttempt env req AddFinalizer)
        (o, w.log (Event.get req (some o) none))
        = (none, writeMeta o (AddFinalizer o myFinalizerName),
            World.mk (w.store.put (writeMeta o (AddFinalizer o myFinalizerName)))
              (w.trace ++ [Event.get req (some o) none,
               Event.get req (some o) none,
               Event.update (AddFinalizer o myFinalizerName) (some e1),
               Event.get req (some o) none,
               Event.update (AddFinalizer o myFinalizerName) none])) := by
      simp only [RetryOnConflict, DefaultRetry, OnError, hatt1, hconf, if_true, hatt2]
      simp
    have hrec : Reconcile env req w =
        phaseDispatch env (writeMeta o (AddFinalizer o myFinalizerName))
          (World.mk (w.store.put (writeMeta o (AddFinalizer o myFinalizerName)))
            (w.trace ++ [Event.get req (some o) none,
               Event.get req (some o) none,
               Event.update (AddFinalizer o myFinalizerName) (some e1),
               Event.get req (some o) none,
               Event.update (AddFinalizer o myFinalizerName) none])) := by
      rw [hlive, hretry]
    refine ⟨hrec, hput, AddFinalizer_contains o myFinalizerName, ?_⟩
    intro hunits
    rw [hrec]
    have := finalizers_statusRel.status_dispatch env hunits
      (writeMeta o (AddFinalizer o myFinalizerName))
      (World.mk (w.store.put (writeMeta o (AddFinalizer o myFinalizerName)))
            (w.trace ++ [Event.get req (some o) none,
               Event.get req (some o) none,
               Event.update (AddFinalizer o myFinalizerName) (some e1),
               Event.get req (some o) none,
               Event.update (AddFinalizer o myFinalizerName) none])) req
    rw [this]
    simp only []
    rw [hput]
    rfl
  · obtain ⟨atoms, last, r, hseg, hok, herr⟩ := finalizer_add_outcome env req w o hf hdel hfin
    refine ⟨atoms, last, r, hseg, ?_, fun h => (hok h).2, herr, ?_⟩
    · have := hseg.1
      simp only [DefaultRetry]
      omega
    · intro e he hconf
      have h4 : ¬ atoms.length < 4 := by
        intro hlt
        have := hseg.2.2.2 hlt e he
        rw [hconf] at this
        cases this
      have := hseg.1
      simp only [DefaultRetry]
      omega

/-! ## The phase handlers -/

theorem phaseDispatch_pending (env : Env) (obj : OpenSearchCluster) (w : World)
    (h : obj.Status.Phase = PhasePending) :
    phaseDispatch env obj w = reconcilePhasePending env obj w := by
  unfold phaseDispatch
  have h1 : ¬ PhasePending = "" := by decide
  simp [h, h1]

theorem phaseDispatch_default (env : Env) (obj : OpenSearchCluster) (w : World)
    (h0 : obj.Status.Phase ≠ "") (h1 : obj.Status.Phase ≠ PhasePending)
    (h2 : obj.Status.Phase ≠ PhaseRunning) :
    phaseDispatch env obj w
      = (({ Requeue := true, RequeueAfter := 30 * Second }, none), w) := by
  unfold phaseDispatch
  simp [h0, h1, h2]

theorem ensureFinalizer_noFault (env : Env) (hnf : NoFaults env) (req : NamespacedName)
    (o : OpenSearchCluster) (w : World) (hl : w.store.lookup req = some o) :
    ensureFinalizer env req o w =
      if ContainsString o.ObjectMeta.Finalizers myFinalizerName then (none, o, w)
      else (none, writeMeta o (AddFinalizer o myFinalizerName),
        World.mk (w.store.put (writeMeta o (AddFinalizer o myFinalizerName)))
          (w.trace ++ [Event.get req (some o) none,
            Event.update (AddFinalizer o myFinalizerName) none])) := by
  unfold ensureFinalizer
  by_cases hc : ContainsString o.ObjectMeta.Finalizers myFinalizerName = true
  · simp [hc]
  · have hc' : ContainsString o.ObjectMeta.Finalizers myFinalizerName = false := by
      simpa using hc
    have hfirst := finalizerAttempt_noFault env req AddFinalizer AddFinalizer_key
      AddFinalizer_version o o w hl (hnf _) (hnf _)
    have h1 : (finalizerAttempt env req AddFinalizer (o, w)).1 = none := by rw [hfirst]
    simp only [hc', Bool.not_false, if_true, Bool.false_eq_true, if_false]
    rw [RetryOnConflict_first _ _ h1, hfirst]

/-- The state in which the phase dispatch starts: the in-memory object is the stored
one, under the requested key, with the status the object had when it was fetched. -/
theorem ensureFinalizer_coherent (env : Env) (req : NamespacedName) (o : OpenSearchCluster)
    (w : World) (hl : w.store.lookup req = some o) (obj2 : OpenSearchCluster) (w2 : World)
    (h : ensureFinalizer env req o w = (none, obj2, w2)) :
    w2.store.lookup req = some obj2 ∧ ObjectKeyFromObject obj2 = req ∧
    obj2.Status = o.Status ∧ obj2.Spec = o.Spec ∧
    componentCalls w2.trace = componentCalls w.trace ∧
    (∀ key, (w2.store.lookup key).map (fun x => x.Status)
      = (w.store.lookup key).map (fun x => x.Status)) := by
  have hkey : ObjectKeyFromObject o = req := Store.lookup_key hl
  obtain ⟨hq, _, hok⟩ := ensureFinalizer_spec env req o w hl
  rw [h] at hq hok
  rcases hok rfl with ⟨_, heq⟩ | ⟨_, hobj, hst⟩
  · simp only [Prod.mk.injEq] at heq
    obtain ⟨rfl, rfl⟩ := heq
    exact ⟨hl, hkey, rfl, rfl, hq, fun _ => rfl⟩
  · simp only at hobj hst
    have hk2 : ObjectKeyFromObject obj2 = req := by
      rw [hobj]
      exact (AddFinalizer_key o myFinalizerName).trans hkey
    refine ⟨?_, hk2, by rw [hobj]; rfl, ?_, hq, ?_⟩
    · rw [hst, ← hobj, ← hk2]
      exact Store.lookup_put_self w.store obj2 o (by rw [hk2]; exact hl)
    · rw [hobj]
      unfold AddFinalizer
      split <;> rfl
    · intro key
      rw [hst, ← hobj]
      exact Store.lookup_put_congr _ w.store obj2 o (by rw [hk2]; exact hl)
        (by rw [hobj]; rfl) key

theorem reconcilePhasePending_quiet (env : Env) (obj : OpenSearchCluster) (w : World) :
    componentCalls (reconcilePhasePending env obj w).2.trace = componentCalls w.trace := by
  unfold reconcilePhasePending
  obtain ⟨atoms, last, htr, hseg, _, _⟩ :=
    pending_retry env obj (w.log (Event.enter Func.reconcilePhasePending))
  have hquiet : componentCalls (atoms.flatten ++ last) = [] :=
    componentCalls_nil_of_forall
      (RetrySegment.forall_mem (fun e => Event.call? e = none) PendingAtom.quiet_pending hseg)
  have hh : componentCalls (RetryOnConflict DefaultRetry (pendingAttempt env)
      (obj, w.log (Event.enter Func.reconcilePhasePending))).2.2.trace
      = componentCalls w.trace := by
    rw [htr, List.append_assoc, componentCalls_append, hquiet]
    simp [World.log, componentCalls_append, componentCalls, Event.call?]
  rcases hr : RetryOnConflict DefaultRetry (pendingAttempt env)
      (obj, w.log (Event.enter Func.reconcilePhasePending)) with ⟨_ | e, obj2, w2⟩
  · rw [hr] at hh
    exact hh
  · rw [hr] at hh
    exact hh

/-- Claim C13. The `Pending` handler.  For an object that is fetched, is not being
deleted and whose stored phase is `Pending`: `Reconcile` calls no pipeline unit,
whatever the store answers.  When no store operation fails, it enters
`reconcilePhasePending`, re-fetches the object (`cur`: the fetched object, with the
finalizer marker if that had to be added), submits it through `Status().Update` with
the phase `Running` and an empty `ComponentsStatus`, which the store then holds, and
returns `(Requeue = true, RequeueAfter = 0, nil)`.  When the first attempt of the
handler fails with an error `e` that is not a conflict (at the re-fetch or at the
status write), `Reconcile` returns `(empty result, e)` and the handler has written
nothing; so it does whenever the retried read-modify-write ends with an error `e`. -/
theorem pending_handler (env : Env) (req : NamespacedName) (w : World)
    (o : OpenSearchCluster) (hf : Fetched env req w o)
    (hdel : IsZero o.ObjectMeta.DeletionTimestamp = true)
    (hphase : o.Status.Phase = PhasePending) :
    componentCalls (Reconcile env req w).2.trace = componentCalls w.trace ∧
    (NoFaults env →
      (Reconcile env req w).1 = ({ Requeue := true, RequeueAfter := 0 }, none) ∧
      ∃ (cur : OpenSearchCluster) (pre : List Event),
        (cur = o ∨ cur = writeMeta o (AddFinalizer o myFinalizerName)) ∧
        (Reconcile env req w).2.trace = w.trace ++ pre ++
          [Event.enter Func.reconcilePhasePending,
           Event.get req (some cur) none,
           Event.statusUpdate { cur with Status :=
             { cur.Status with Phase := PhaseRunning, ComponentsStatus := [] } } none] ∧
        (∀ ev ∈ pre, Event.teardownOnly ev = true) ∧
        ∃ o1, (Reconcile env req w).2.store.lookup req = some o1 ∧
          o1.Status.Phase = PhaseRunning ∧ o1.Status.ComponentsStatus = [] ∧
          o1.Status.Initialized = o.Status.Initialized ∧ o1.Spec = o.Spec) ∧
    (∀ (obj2 : OpenSearchCluster) (w2 : World) (e : Err),
      ensureFinalizer env req o (w.log (Event.get req (some o) none)) = (none, obj2, w2) →
      (pendingAttempt env (obj2, w2.log (Event.enter Func.reconcilePhasePending))).1 = some e →
      IsConflict e = false →
      (Reconcile env req w).1 = ({}, some e) ∧ (Reconcile env req w).2.store = w2.store) ∧
    (∀ (obj2 : OpenSearchCluster) (w2 : World) (e : Err),
      ensureFinalizer env req o (w.log (Event.get req (some o) none)) = (none, obj2, w2) →
      (RetryOnConflict DefaultRetry (pendingAttempt env)
        (obj2, w2.log (Event.enter Func.reconcilePhasePending))).1 = some e →
      (Reconcile env req w).1 = ({}, some e) ∧ (Reconcile env req w).2.store = w2.store) := by
  have hkey : ObjectKeyFromObject o = req := Store.lookup_key hf.2
  have hens := Reconcile_ensure env req w o hf hdel
  have hl1 : (w.log (Event.get req (some o) none)).store.lookup req = some o := hf.2
  refine ⟨?_, ?_, ?_, ?_⟩
  · rw [hens]
    obtain ⟨hq, _, _⟩ := ensureFinalizer_spec env req o (w.log (Event.get req (some o) none)) hl1
    rcases he : ensureFinalizer env req o (w.log (Event.get req (some o) none))
      with ⟨_ | e, obj2, w2⟩
    · obtain ⟨_, _, hst, _⟩ := ensureFinalizer_coherent env req o _ hl1 obj2 w2 he
      rw [he] at hq
      simp only []
      rw [phaseDispatch_pending env obj2 w2 (by rw [hst]; exact hphase),
        reconcilePhasePending_quiet, hq]
      simp [World.log, componentCalls_append, componentCalls, Event.call?]
    · rw [he] at hq
      simp only []
      rw [hq]
      simp [World.log, componentCalls_append, componentCalls, Event.call?]
  · intro hnf
    have hstep := ensureFinalizer_noFault env hnf req o (w.log (Event.get req (some o) none)) hl1
    -- the handler on a coherent state, every operation accepted
    have hhandler : ∀ (cur : OpenSearchCluster) (w2 : World),
        w2.store.lookup req = some cur → ObjectKeyFromObject cur = req →
        reconcilePhasePending env cur w2 =
          (({ Requeue := true, RequeueAfter := 0 }, none),
            World.mk (w2.store.put (writeStatus cur { cur with Status :=
                { cur.Status with Phase := PhaseRunning, ComponentsStatus := [] } }))
              (w2.trace ++ [Event.enter Func.reconcilePhasePending,
                Event.get req (some cur) none,
                Event.statusUpdate { cur with Status :=
                  { cur.Status with Phase := PhaseRunning, ComponentsStatus := [] } }
                  none])) := by
      intro cur w2 hcur hk
      have hcur' : (w2.log (Event.enter Func.reconcilePhasePending)).store.lookup
          (ObjectKeyFromObject cur) = some cur := by rw [hk]; exact hcur
      have hfirst := pendingAttempt_noFault env cur cur
        (w2.log (Event.enter Func.reconcilePhasePending)) hcur' (hnf _) (hnf _)
      obtain ⟨o', hl', heq⟩ := pendingAttempt_ok env cur
        (w2.log (Event.enter Func.reconcilePhasePending)) hfirst
      rw [hcur'] at hl'
      have ho : cur = o' := Option.some.inj hl'
      subst ho
      unfold reconcilePhasePending
      rw [RetryOnConflict_first _ _ hfirst, heq, hk]
      simp [World.log]
    have hstored : ∀ (cur : OpenSearchCluster) (s : Store),
        s.lookup req = some cur → ObjectKeyFromObject cur = req →
        (s.put (writeStatus cur { cur with Status :=
          { cur.Status with Phase := PhaseRunning, ComponentsStatus := [] } })).lookup req
        = some (writeStatus cur { cur with Status :=
          { cur.Status with Phase := PhaseRunning, ComponentsStatus := [] } }) := by
      intro cur s hcur hk
      have := Store.lookup_put_self s (writeStatus cur { cur with Status :=
          { cur.Status with Phase := PhaseRunning, ComponentsStatus := [] } }) cur
        (by rw [writeStatus_key, hk]; exact hcur)
      rw [writeStatus_key, hk] at this
      exact this
    rw [hens, hstep]
    by_cases hc : ContainsString o.ObjectMeta.Finalizers myFinalizerName = true
    · simp only [hc, if_true]
      rw [phaseDispatch_pending env o _ hphase, hhandler o _ hl1 hkey]
      refine ⟨rfl, o, [Event.get req (some o) none], Or.inl rfl, by simp [World.log],
        by simp [Event.teardownOnly], _, hstored o _ hl1 hkey, rfl, rfl, rfl, rfl⟩
    · simp only [hc, Bool.false_eq_true, if_false, World.log]
      have hk2 : ObjectKeyFromObject (writeMeta o (AddFinalizer o myFinalizerName)) = req :=
        (AddFinalizer_key o myFinalizerName).trans hkey
      have hl2 : (w.store.put (writeMeta o (AddFinalizer o myFinalizerName))).lookup req
          = some (writeMeta o (AddFinalizer o myFinalizerName)) := by
        have := Store.lookup_put_self w.store (writeMeta o (AddFinalizer o myFinalizerName)) o
          (by rw [hk2]; exact hf.2)
        rw [hk2] at this
        exact this
      have hh := hhandler _ (World.mk (w.store.put (writeMeta o (AddFinalizer o myFinalizerName)))
        (w.trace ++ [Event.get req (some o) none] ++ [Event.get req (some o) none,
          Event.update (AddFinalizer o myFinalizerName) none])) hl2 hk2
      rw [phaseDispatch_pending env (writeMeta o (AddFinalizer o myFinalizerName)) _ hphase, hh]
      refine ⟨rfl, writeMeta o (AddFinalizer o myFinalizerName),
        [Event.get req (some o) none, Event.get req (some o) none,
          Event.update (AddFinalizer o myFinalizerName) none], Or.inr rfl,
        by simp [World.log], by simp [Event.teardownOnly], _,
        hstored _ _ hl2 hk2, rfl, rfl, rfl, ?_⟩
      show (AddFinalizer o myFinalizerName).Spec = o.Spec
      unfold AddFinalizer
      split <;> rfl
  · intro obj2 w2 e hstep hfail hnc
    obtain ⟨_, _, hst, _⟩ := ensureFinalizer_coherent env req o _ hl1 obj2 w2 hstep
    rw [hens, hstep]
    simp only []
    rw [phaseDispatch_pending env obj2 w2 (by rw [hst]; exact hphase)]
    unfold reconcilePhasePending
    rw [RetryOnConflict_abort _ _ e hfail hnc]
    obtain ⟨seg, _, _, hkeep⟩ := pendingAttempt_run env
      (obj2, w2.log (Event.enter Func.reconcilePhasePending))
    rcases hr : pendingAttempt env (obj2, w2.log (Event.enter Func.reconcilePhasePending))
      with ⟨_ | e1, obj3, w3⟩
    · rw [hr] at hfail
      cases hfail
    · rw [hr] at hfail hkeep
      simp only [Option.some.injEq] at hfail
      subst hfail
      exact ⟨rfl, (hkeep (by simp)).1⟩
  · intro obj2 w2 e hstep hfail
    obtain ⟨_, _, hst, _⟩ := ensureFinalizer_coherent env req o _ hl1 obj2 w2 hstep
    rw [hens, hstep]
    simp only []
    rw [phaseDispatch_pending env obj2 w2 (by rw [hst]; exact hphase)]
    unfold reconcilePhasePending
    obtain ⟨_, _, _, _, herr, _⟩ :=
      pending_retry env obj2 (w2.log (Event.enter Func.reconcilePhasePending))
    rcases hr : RetryOnConflict DefaultRetry (pendingAttempt env)
        (obj2, w2.log (Event.enter Func.reconcilePhasePending)) with ⟨_ | e1, obj3, w3⟩
    · rw [hr] at hfail
      cases hfail
    · rw [hr] at hfail herr
      simp only [Option.some.injEq] at hfail
      subst hfail
      exact ⟨rfl, herr (by simp)⟩

theorem FinalizerAtom.fetch_or_update {change : OpenSearchCluster → String → OpenSearchCluster}
    {key : NamespacedName} {store : Store} (err : Option Err) (a : List Event)
    (h : FinalizerAtom change key store err a) : ∀ e ∈ a, Event.fetchOrUpdate e = true := by
  rcases h with ⟨e, _, rfl⟩ | ⟨o, _, rfl⟩ <;> simp [Event.fetchOrUpdate]

/-- The finalizer step appends fetches and `Update`s only, and leaves every stored
status as it was. -/
theorem ensureFinalizer_events (env : Env) (req : NamespacedName) (o : OpenSearchCluster)
    (w : World) (hl : w.store.lookup req = some o) :
    (∃ seg, (ensureFinalizer env req o w).2.2.trace = w.trace ++ seg ∧
      ∀ ev ∈ seg, Event.fetchOrUpdate ev = true) ∧
    (∀ key, ((ensureFinalizer env req o w).2.2.store.lookup key).map (fun x => x.Status)
      = (w.store.lookup key).map (fun x => x.Status)) := by
  have hkey : ObjectKeyFromObject o = req := Store.lookup_key hl
  unfold ensureFinalizer
  by_cases hc : ContainsString o.ObjectMeta.Finalizers myFinalizerName = true
  · simp only [hc, Bool.not_true, Bool.false_eq_true, if_false]
    exact ⟨⟨[], by simp, by simp⟩, fun _ => trivial⟩
  · have hc' : ContainsString o.ObjectMeta.Finalizers myFinalizerName = false := by
      simpa using hc
    simp only [hc', Bool.not_false, if_true]
    obtain ⟨atoms, last, htr, hseg, herr, hok⟩ :=
      finalizer_retry env req AddFinalizer AddFinalizer_key o w
    refine ⟨⟨atoms.flatten ++ last, by rw [htr, List.append_assoc],
      RetrySegment.forall_mem (fun e => Event.fetchOrUpdate e = true)
        FinalizerAtom.fetch_or_update hseg⟩, ?_⟩
    intro key
    rcases hr : (RetryOnConflict DefaultRetry (finalizerAttempt env req AddFinalizer) (o, w)).1
      with _ | e
    · obtain ⟨o', hl', _, hst⟩ := hok hr
      rw [hl] at hl'
      have ho : o = o' := Option.some.inj hl'
      subst ho
      rw [hst]
      refine Store.lookup_put_congr (fun x => x.Status) w.store
        (writeMeta o (AddFinalizer o myFinalizerName)) o ?_ rfl key
      rw [show ObjectKeyFromObject (writeMeta o (AddFinalizer o myFinalizerName)) = req
        from (AddFinalizer_key o myFinalizerName).trans hkey]
      exact hl
    · rw [herr (by rw [hr]; simp)]

/-- Claim C14 (amended). The default action.  For an object that is fetched, is not
being deleted and whose stored phase is neither unset, `Pending` nor `Running`:
`Reconcile` returns `(Requeue = true, RequeueAfter = 30 s, nil)` when the object carries
the finalizer marker (nothing but the initial fetch happens) or when the marker had to
be added and the read-modify-write that adds it succeeded; when that read-modify-write
fails, `Reconcile` returns `(empty result, its error)`.  In every case the call appends
fetches and `Update`s only (no pipeline unit, no `Status().Update`), and every stored
status, so the phase too, is left as it was. -/
theorem default_phase_resync (env : Env) (req : NamespacedName) (w : World)
    (o : OpenSearchCluster) (hf : Fetched env req w o)
    (hdel : IsZero o.ObjectMeta.DeletionTimestamp = true)
    (h0 : o.Status.Phase ≠ "") (h1 : o.Status.Phase ≠ PhasePending)
    (h2 : o.Status.Phase ≠ PhaseRunning) :
    (ContainsString o.ObjectMeta.Finalizers myFinalizerName = true →
      Reconcile env req w = (({ Requeue := true, RequeueAfter := 30 * Second }, none),
        w.log (Event.get req (some o) none))) ∧
    (∀ obj2 w2,
      ensureFinalizer env req o (w.log (Event.get req (some o) none)) = (none, obj2, w2) →
      Reconcile env req w = (({ Requeue := true, RequeueAfter := 30 * Second }, none), w2)) ∧
    (∀ e obj2 w2,
      ensureFinalizer env req o (w.log (Event.get req (some o) none)) = (some e, obj2, w2) →
      Reconcile env req w = (({}, some e), w2)) ∧
    (∃ seg, (Reconcile env req w).2.trace = w.trace ++ seg ∧
      ∀ ev ∈ seg, Event.fetchOrUpdate ev = true) ∧
    (∀ key, ((Reconcile env req w).2.store.lookup key).map (fun x => x.Status)
      = (w.store.lookup key).map (fun x => x.Status)) := by
  have hens := Reconcile_ensure env req w o hf hdel
  have hl1 : (w.log (Event.get req (some o) none)).store.lookup req = some o := hf.2
  have hstepOk : ∀ obj2 w2,
      ensureFinalizer env req o (w.log (Event.get req (some o) none)) = (none, obj2, w2) →
      Reconcile env req w
        = (({ Requeue := true, RequeueAfter := 30 * Second }, none), w2) := by
    intro obj2 w2 hstep
    obtain ⟨_, _, hst, _⟩ := ensureFinalizer_coherent env req o _ hl1 obj2 w2 hstep
    rw [hens, hstep]
    simp only []
    exact phaseDispatch_default env obj2 w2 (by rw [hst]; exact h0) (by rw [hst]; exact h1)
      (by rw [hst]; exact h2)
  have hstepErr : ∀ e obj2 w2,
      ensureFinalizer env req o (w.log (Event.get req (some o) none)) = (some e, obj2, w2) →
      Reconcile env req w = (({}, some e), w2) := by
    intro e obj2 w2 hstep
    rw [hens, hstep]
  have hworld : (Reconcile env req w).2
      = (ensureFinalizer env req o (w.log (Event.get req (some o) none))).2.2 := by
    rcases hr : ensureFinalizer env req o (w.log (Event.get req (some o) none))
      with ⟨_ | e, obj2, w2⟩
    · rw [hstepOk obj2 w2 hr]
    · rw [hstepErr e obj2 w2 hr]
  obtain ⟨⟨seg, htr, hev⟩, hstat⟩ :=
    ensureFinalizer_events env req o (w.log (Event.get req (some o) none)) hl1
  refine ⟨?_, hstepOk, hstepErr, ?_, ?_⟩
  · intro hc
    apply hstepOk o
    unfold ensureFinalizer
    simp [hc]
  · refine ⟨Event.get req (some o) none :: seg, ?_, ?_⟩
    · rw [hworld, htr]
      simp [World.log]
    · intro ev hev'
      rcases List.mem_cons.mp hev' with rfl | hm
      · rfl
      · exact hev ev hm
  · intro key
    rw [hworld]
    exact hstat key

theorem applyPipeline_first (env : Env) (obj : OpenSearchCluster) (w : World) :
    ∃ c rest, componentCalls (applyPipeline env obj w).2.trace
        = componentCalls w.trace ++ c :: rest ∧
      Call.bound c = (Component.tls, Method.Reconcile) := by
  obtain ⟨calls, htr, hb, hcase⟩ := runComponentReconcilers_calls env applyReconcilers obj w
  have htr' : componentCalls (applyPipeline env obj w).2.trace
      = componentCalls w.trace ++ calls := by
    unfold applyPipeline
    rcases hr : runComponentReconcilers env applyReconcilers obj w with ⟨_ | r, o2, w2⟩
    · rw [hr] at htr
      exact htr
    · rw [hr] at htr
      exact htr
  have hne : calls ≠ [] := by
    rcases hcase with ⟨_, hlen, _⟩ | ⟨pre, c, rfl, _⟩
    · intro h
      rw [h] at hlen
      simp [applyReconcilers] at hlen
    · simp
  rcases calls with _ | ⟨c, rest⟩
  · exact absurd rfl hne
  · refine ⟨c, rest, htr', ?_⟩
    simp [applyReconcilers] at hb
    exact hb.1

theorem reconcilePhaseRunning_uninitialized (env : Env) (obj : OpenSearchCluster) (w : World)
    (hinit : obj.Status.Initialized = false) :
    reconcilePhaseRunning env obj w =
      match RetryOnConflict DefaultRetry (initializedAttempt env)
          (obj, w.log (Event.enter Func.reconcilePhaseRunning)) with
      | (some e, _, w1) => (({}, some e), w1)
      | (none, obj1, w1) => applyPipeline env obj1 w1 := by
  unfold reconcilePhaseRunning applyPipeline
  simp only [hinit, Bool.not_false, if_true]

/-- The `Running` handler on an object whose flag is false, once the finalizer step is
done: a successful read-modify-write of the flag is followed by the pipeline, a failed
one ends the call. -/
theorem initialized_step_then_pipeline (env : Env) (req : NamespacedName) (w : World)
    (o : OpenSearchCluster) (hf : Fetched env req w o)
    (hdel : IsZero o.ObjectMeta.DeletionTimestamp = true)
    (hphase : o.Status.Phase = PhaseRunning) (hinit : o.Status.Initialized = false)
    (obj2 : OpenSearchCluster) (w2 : World)
    (hstep : ensureFinalizer env req o (w.log (Event.get req (some o) none))
      = (none, obj2, w2)) :
    ((RetryOnConflict DefaultRetry (initializedAttempt env)
        (obj2, w2.log (Event.enter Func.reconcilePhaseRunning))).1 = none →
      ∃ (atoms : List (List Event)) (b : Bool) (w3 : World),
        w3.trace = w2.trace ++ [Event.enter Func.reconcilePhaseRunning] ++ atoms.flatten ++
          [Event.get req (some obj2) none, Event.allMastersReady obj2 b,
           Event.statusUpdate
             { obj2 with Status := { obj2.Status with Initialized := b } } none] ∧
        (∀ a ∈ atoms, ∃ e, IsConflict e = true ∧ InitializedAtom req w2.store (some e) a) ∧
        b = env.AllMastersReady (w2.clock + 1 + atoms.flatten.length + 1) obj2 w2.store ∧
        (∃ o1, w3.store.lookup req = some o1 ∧ o1.Status.Initialized = b ∧
          o1.Status.Phase = PhaseRunning) ∧
        Reconcile env req w = applyPipeline env
          (writeStatus obj2 { obj2 with Status := { obj2.Status with Initialized := b } }) w3 ∧
        ∃ c rest, componentCalls (Reconcile env req w).2.trace
            = componentCalls w.trace ++ c :: rest ∧
          Call.bound c = (Component.tls, Method.Reconcile)) ∧
    (∀ e, (RetryOnConflict DefaultRetry (initializedAttempt env)
        (obj2, w2.log (Event.enter Func.reconcilePhaseRunning))).1 = some e →
      (Reconcile env req w).1 = ({}, some e) ∧
      componentCalls (Reconcile env req w).2.trace = componentCalls w.trace ∧
      (Reconcile env req w).2.store = w2.store) := by
  have hens := Reconcile_ensure env req w o hf hdel
  have hl1 : (w.log (Event.get req (some o) none)).store.lookup req = some o := hf.2
  obtain ⟨hl2, hk2, hst, _, hq2, _⟩ := ensureFinalizer_coherent env req o _ hl1 obj2 w2 hstep
  have hq2' : componentCalls w2.trace = componentCalls w.trace := by
    rw [hq2]
    simp [World.log, componentCalls_append, componentCalls, Event.call?]
  have hrec : Reconcile env req w =
      match RetryOnConflict DefaultRetry (initializedAttempt env)
          (obj2, w2.log (Event.enter Func.reconcilePhaseRunning)) with
      | (some e, _, w1) => (({}, some e), w1)
      | (none, obj1, w1) => applyPipeline env obj1 w1 := by
    rw [hens, hstep]
    simp only []
    have hp : obj2.Status.Phase = PhaseRunning := by rw [hst]; exact hphase
    have hne : ¬ obj2.Status.Phase = "" := by rw [hp]; decide
    rw [phaseDispatch_running env obj2 w2 (Or.inl hp)]
    simp only [hne, if_false]
    exact reconcilePhaseRunning_uninitialized env obj2 w2 (by rw [hst]; exact hinit)
  obtain ⟨atoms, last, htr, hseg, herr, hok⟩ :=
    initialized_retry env obj2 (w2.log (Event.enter Func.reconcilePhaseRunning))
  rw [hk2] at hseg hok
  have hquiet : componentCalls (atoms.flatten ++ last) = [] :=
    componentCalls_nil_of_forall
      (RetrySegment.forall_mem (fun e => Event.call? e = none)
        InitializedAtom.quiet_initialized hseg)
  refine ⟨?_, ?_⟩
  · intro hnone
    obtain ⟨o', b, hl', hb, hlast, hobj, hstore⟩ := hok hnone
    have ho : obj2 = o' := by
      have : (w2.log (Event.enter Func.reconcilePhaseRunning)).store.lookup req = some obj2 := hl2
      rw [this] at hl'
      exact Option.some.inj hl'
    subst ho
    rcases hr : RetryOnConflict DefaultRetry (initializedAttempt env)
        (obj2, w2.log (Event.enter Func.reconcilePhaseRunning)) with ⟨r, obj3, w3⟩
    rw [hr] at hnone htr hobj hstore hrec
    simp only at hnone htr hobj hstore
    subst hnone
    simp only [] at hrec
    have hw3 : componentCalls w3.trace = componentCalls w.trace := by
      rw [htr, List.append_assoc, componentCalls_append, hquiet, ← hq2']
      simp [World.log, componentCalls_append, componentCalls, Event.call?]
    refine ⟨atoms, b, w3, ?_, hseg.2.1, ?_, ?_, ?_, ?_⟩
    · rw [htr, hlast]
      simp [World.log]
    · rw [hb]
      simp [World.log, World.clock, Nat.add_assoc]
    · refine ⟨writeStatus obj2 { obj2 with Status := { obj2.Status with Initialized := b } },
        ?_, rfl, ?_⟩
      · rw [hstore]
        have := Store.lookup_put_self w2.store
          (writeStatus obj2 { obj2 with Status := { obj2.Status with Initialized := b } }) obj2
          (by rw [writeStatus_key, hk2]; exact hl2)
        rw [writeStatus_key, hk2] at this
        exact this
      · show obj2.Status.Phase = PhaseRunning
        rw [hst]; exact hphase
    · rw [hrec, hobj]
    · rw [hrec]
      obtain ⟨c, rest, hc, hbound⟩ := applyPipeline_first env obj3 w3
      exact ⟨c, rest, by rw [hc, hw3], hbound⟩
  · intro e he
    have hstore := herr (by rw [he]; simp)
    rcases hr : RetryOnConflict DefaultRetry (initializedAttempt env)
        (obj2, w2.log (Event.enter Func.reconcilePhaseRunning)) with ⟨r, obj3, w3⟩
    rw [hr] at he htr hstore hrec
    simp only at he htr hstore
    subst he
    simp only [] at hrec
    rw [hrec]
    refine ⟨rfl, ?_, hstore⟩
    show componentCalls w3.trace = componentCalls w.trace
    rw [htr, List.append_assoc, componentCalls_append, hquiet, ← hq2']
    simp [World.log, componentCalls_append, componentCalls, Event.call?]

theorem readinessAnswers_nil_of_forall {seg : List Event}
    (h : ∀ e ∈ seg, Event.fetchOrUpdate e = true) : readinessAnswers seg = [] := by
  unfold readinessAnswers
  rw [List.filterMap_eq_nil_iff]
  intro e he
  have := h e he
  cases e <;> simp_all [Event.fetchOrUpdate, Event.readiness?]

/-- Claim C15 (amended). For an object that is fetched, is not being deleted, whose
stored phase is `Running` and whose `Status.Initialized` is false.  When the finalizer
step fails, `Reconcile` returns `(empty result, its error)`: the readiness predicate
is not asked and no pipeline unit runs.  When the finalizer step is done (the marker
was there, or was added): if the read-modify-write of the flag succeeds, the engine
has invoked the readiness predicate on the re-fetched object, has persisted the value
`b` the predicate returned through `Status().Update`, and then runs the pipeline,
starting with the TLS unit, whatever `b` is; if the read-modify-write fails,
`Reconcile` returns `(empty result, its error)`, no pipeline unit runs and the handler
has written nothing. -/
theorem initialized_then_pipeline (env : Env) (req : NamespacedName) (w : World)
    (o : OpenSearchCluster) (hf : Fetched env req w o)
    (hdel : IsZero o.ObjectMeta.DeletionTimestamp = true)
    (hphase : o.Status.Phase = PhaseRunning) (hinit : o.Status.Initialized = false) :
    (∀ e obj2 w2,
      ensureFinalizer env req o (w.log (Event.get req (some o) none)) = (some e, obj2, w2) →
      Reconcile env req w = (({}, some e), w2) ∧
      readinessAnswers w2.trace = readinessAnswers w.trace ∧
      componentCalls w2.trace = componentCalls w.trace) ∧
    (∀ obj2 w2,
      ensureFinalizer env req o (w.log (Event.get req (some o) none)) = (none, obj2, w2) →
      ((RetryOnConflict DefaultRetry (initializedAttempt env)
          (obj2, w2.log (Event.enter Func.reconcilePhaseRunning))).1 = none →
        ∃ (atoms : List (List Event)) (b : Bool) (w3 : World),
          w3.trace = w2.trace ++ [Event.enter Func.reconcilePhaseRunning] ++ atoms.flatten ++
            [Event.get req (some obj2) none, Event.allMastersReady obj2 b,
             Event.statusUpdate
               { obj2 with Status := { obj2.Status with Initialized := b } } none] ∧
          (∀ a ∈ atoms, ∃ e, IsConflict e = true ∧ InitializedAtom req w2.store (some e) a) ∧
          b = env.AllMastersReady (w2.clock + 1 + atoms.flatten.length + 1) obj2 w2.store ∧
          (∃ o1, w3.store.lookup req = some o1 ∧ o1.Status.Initialized = b ∧
            o1.Status.Phase = PhaseRunning) ∧
          Reconcile env req w = applyPipeline env
            (writeStatus obj2 { obj2 with Status := { obj2.Status with Initialized := b } })
            w3 ∧
          ∃ c rest, componentCalls (Reconcile env req w).2.trace
              = componentCalls w.trace ++ c :: rest ∧
            Call.bound c = (Component.tls, Method.Reconcile)) ∧
      (∀ e, (RetryOnConflict DefaultRetry (initializedAttempt env)
          (obj2, w2.log (Event.enter Func.reconcilePhaseRunning))).1 = some e →
        (Reconcile env req w).1 = ({}, some e) ∧
        componentCalls (Reconcile env req w).2.trace = componentCalls w.trace ∧
        (Reconcile env req w).2.store = w2.store)) := by
  refine ⟨?_, fun obj2 w2 hstep =>
    initialized_step_then_pipeline env req w o hf hdel hphase hinit obj2 w2 hstep⟩
  intro e obj2 w2 hstep
  have hl1 : (w.log (Event.get req (some o) none)).store.lookup req = some o := hf.2
  obtain ⟨hq, _, _⟩ := ensureFinalizer_spec env req o (w.log (Event.get req (some o) none)) hl1
  obtain ⟨⟨seg, htr, hev⟩, _⟩ :=
    ensureFinalizer_events env req o (w.log (Event.get req (some o) none)) hl1
  rw [hstep] at hq htr
  refine ⟨by rw [Reconcile_ensure env req w o hf hdel, hstep], ?_, ?_⟩
  · have hw2 : w2.trace = w.trace ++ (Event.get req (some o) none :: seg) := by
      rw [show w2.trace = _ from htr]
      simp [World.log]
    have hall : ∀ ev ∈ Event.get req (some o) none :: seg, Event.fetchOrUpdate ev = true := by
      intro ev hm
      rcases List.mem_cons.mp hm with rfl | hm
      · rfl
      · exact hev ev hm
    rw [hw2]
    unfold readinessAnswers
    rw [List.filterMap_append]
    have := readinessAnswers_nil_of_forall hall
    unfold readinessAnswers at this
    rw [this, List.append_nil]
  · rw [show componentCalls w2.trace = _ from hq]
    simp [World.log, componentCalls_append, componentCalls, Event.call?]

/-! ## Writes go through a fresh fetch -/

theorem WritesFollowFetch.of_no_write {seg : List Event}
    (h : ∀ e ∈ seg, Event.written? e = none) : WritesFollowFetch seg := by
  intro pre post ev obj heq hw
  rw [h ev (by rw [heq]; simp)] at hw
  cases hw

theorem WritesFollowFetch.append_writes {s t : List Event}
    (hs : WritesFollowFetch s) (ht : WritesFollowFetch t) : WritesFollowFetch (s ++ t) := by
  intro pre post ev obj heq hw
  rcases List.append_eq_append_iff.mp heq with ⟨a, hpre, htt⟩ | ⟨c, hss, hct⟩
  · obtain ⟨pre1, o, hv, hp⟩ := ht a post ev obj htt hw
    refine ⟨s ++ pre1, o, hv, ?_⟩
    rcases hp with hp | ⟨b, hp⟩
    · exact Or.inl (by rw [hpre, hp, List.append_assoc])
    · exact Or.inr ⟨b, by rw [hpre, hp, List.append_assoc]⟩
  · cases c with
    | nil =>
      obtain ⟨pre1, o, _, hp⟩ := ht [] post ev obj (by simpa using hct.symm) hw
      rcases hp with hp | ⟨b, hp⟩
      · simp at hp
      · simp at hp
    | cons x c1 =>
      simp only [List.cons_append, List.cons.injEq] at hct
      obtain ⟨hx, _⟩ := hct
      subst hx
      exact hs pre c1 _ obj hss hw

theorem WritesFollowFetch.of_pair (key : NamespacedName) (o obj : OpenSearchCluster)
    (ev : Event) (hw : Event.written? ev = some obj)
    (hk : ObjectKeyFromObject obj = key)
    (hv : obj.ObjectMeta.ResourceVersion = o.ObjectMeta.ResourceVersion) :
    WritesFollowFetch [Event.get key (some o) none, ev] := by
  intro pre post ev1 obj1 heq hw1
  match pre, heq with
  | [], heq =>
    simp only [List.nil_append, List.cons.injEq] at heq
    rw [← heq.1] at hw1
    cases hw1
  | [x], heq =>
    simp only [List.cons_append, List.nil_append, List.cons.injEq] at heq
    obtain ⟨hx, hev, _⟩ := heq
    rw [← hev, hw] at hw1
    have ho : obj = obj1 := Option.some.inj hw1
    subst ho
    exact ⟨[], o, hv, Or.inl (by rw [← hx, hk]; rfl)⟩
  | x :: y :: rest, heq =>
    simp only [List.cons_append, List.cons.injEq] at heq
    obtain ⟨_, _, h3⟩ := heq
    cases rest <;> simp at h3

theorem WritesFollowFetch.of_triple (key : NamespacedName) (o obj : OpenSearchCluster)
    (b : Bool) (ev : Event) (hw : Event.written? ev = some obj)
    (hk : ObjectKeyFromObject obj = key)
    (hv : obj.ObjectMeta.ResourceVersion = o.ObjectMeta.ResourceVersion) :
    WritesFollowFetch [Event.get key (some o) none, Event.allMastersReady o b, ev] := by
  intro pre post ev1 obj1 heq hw1
  match pre, heq with
  | [], heq =>
    simp only [List.nil_append, List.cons.injEq] at heq
    rw [← heq.1] at hw1
    cases hw1
  | [x], heq =>
    simp only [List.cons_append, List.nil_append, List.cons.injEq] at heq
    rw [← heq.2.1] at hw1
    cases hw1
  | [x, y], heq =>
    simp only [List.cons_append, List.nil_append, List.cons.injEq] at heq
    obtain ⟨hx, hy, hev, _⟩ := heq
    rw [← hev, hw] at hw1
    have ho : obj = obj1 := Option.some.inj hw1
    subst ho
    exact ⟨[], o, hv, Or.inr ⟨b, by rw [← hx, ← hy, hk]; rfl⟩⟩
  | x :: y :: z :: rest, heq =>
    simp only [List.cons_append, List.cons.injEq] at heq
    obtain ⟨_, _, _, h4⟩ := heq
    cases rest <;> simp at h4

theorem writesFollowFetch_segmentClosed : SegmentClosed WritesFollowFetch where
  nil := WritesFollowFetch.of_no_write (by simp)
  append := fun _ _ hs ht => WritesFollowFetch.append_writes hs ht
  get := fun _ _ _ => WritesFollowFetch.of_no_write (by simp [Event.written?])
  enter := fun _ => WritesFollowFetch.of_no_write (by simp [Event.written?])
  component := fun _ _ _ _ _ => WritesFollowFetch.of_no_write (by simp [Event.written?])
  addFinalizer := by
    intro key store err a h
    rcases h with ⟨e, _, rfl⟩ | ⟨o, hl, rfl⟩
    · exact WritesFollowFetch.of_no_write (by simp [Event.written?])
    · exact WritesFollowFetch.of_pair key o _ _ rfl
        ((AddFinalizer_key o myFinalizerName).trans (Store.lookup_key hl))
        (AddFinalizer_version o myFinalizerName)
  removeFinalizer := by
    intro key store err a h
    rcases h with ⟨e, _, rfl⟩ | ⟨o, hl, rfl⟩
    · exact WritesFollowFetch.of_no_write (by simp [Event.written?])
    · exact WritesFollowFetch.of_pair key o _ _ rfl
        ((RemoveFinalizer_key o myFinalizerName).trans (Store.lookup_key hl))
        (RemoveFinalizer_version o myFinalizerName)
  pending := by
    intro key store err a h
    rcases h with ⟨e, _, rfl⟩ | ⟨o, hl, rfl⟩
    · exact WritesFollowFetch.of_no_write (by simp [Event.written?])
    · exact WritesFollowFetch.of_pair key o _ _ rfl
        (Store.lookup_key hl : ObjectKeyFromObject o = key) rfl
  initialized := by
    intro key store err a h
    rcases h with ⟨e, _, rfl⟩ | ⟨o, b, hl, rfl⟩
    · exact WritesFollowFetch.of_no_write (by simp [Event.written?])
    · exact WritesFollowFetch.of_triple key o _ b _ rfl
        (Store.lookup_key hl : ObjectKeyFromObject o = key) rfl

/-- Claim C17. Over every sequence of `Reconcile` calls, whatever the units return,
whatever the readiness predicate answers and whatever the outcome of every store
operation: every write the engine issues (`Update` or `Status().Update`) comes right
after the successful `Get`, of the same retry attempt, of the object it submits (same
key, same version token; only the answer of the readiness predicate may stand in
between), and a failed `Get` is never directly followed by a write. -/
theorem writes_follow_fresh_fetch (env : Env) (reqs : List NamespacedName) (w : World) :
    ∃ seg, (ReconcileAll env reqs w).trace = w.trace ++ seg ∧
      (∀ (pre post : List Event) (ev : Event) (obj : OpenSearchCluster),
        seg = pre ++ ev :: post → Event.written? ev = some obj →
        ∃ (pre1 : List Event) (o : OpenSearchCluster),
          obj.ObjectMeta.ResourceVersion = o.ObjectMeta.ResourceVersion ∧
          (pre = pre1 ++ [Event.get (ObjectKeyFromObject obj) (some o) none] ∨
            ∃ b, pre = pre1 ++ [Event.get (ObjectKeyFromObject obj) (some o) none,
              Event.allMastersReady o b])) ∧
      (∀ (pre post : List Event) (key : NamespacedName) (fetched : Option OpenSearchCluster)
          (e : Err) (ev : Event),
        seg = pre ++ Event.get key fetched (some e) :: ev :: post →
        Event.written? ev = none) := by
  obtain ⟨seg, htr, hP⟩ := writesFollowFetch_segmentClosed.seg_reconcileAll env reqs w
  refine ⟨seg, htr, hP, ?_⟩
  intro pre post key fetched e ev heq
  rcases hw : Event.written? ev with _ | obj
  · rfl
  · exfalso
    obtain ⟨pre1, o, _, hp⟩ := hP (pre ++ [Event.get key fetched (some e)]) post ev obj
      (by rw [heq]; simp) hw
    rcases hp with hp | ⟨b, hp⟩
    · have := List.append_inj_right' hp rfl
      simp at this
    · have hp' : pre ++ [Event.get key fetched (some e)]
          = (pre1 ++ [Event.get (ObjectKeyFromObject obj) (some o) none])
            ++ [Event.allMastersReady o b] := by rw [hp]; simp
      have := List.append_inj_right' hp' rfl
      simp at this

/-! ## What the engine leaves alone -/

theorem AddFinalizer_foreign (o : OpenSearchCluster) :
    foreignFields (writeMeta o (AddFinalizer o myFinalizerName)) = foreignFields o := by
  unfold foreignFields writeMeta AddFinalizer
  split
  · rfl
  · simp [List.filter_append]

theorem RemoveFinalizer_foreign (o : OpenSearchCluster) :
    foreignFields (writeMeta o (RemoveFinalizer o myFinalizerName)) = foreignFields o := by
  unfold foreignFields writeMeta RemoveFinalizer
  simp [List.filter_filter]

theorem foreignFields_storeRel :
    StoreRel (fun s s1 => ∀ key : NamespacedName,
      (s1.lookup key).map foreignFields = (s.lookup key).map foreignFields) where
  refl := fun _ _ => rfl
  trans := fun _ _ _ hab hbc key => (hbc key).trans (hab key)
  addFinalizer := by
    intro s key o hl k
    refine Store.lookup_put_congr foreignFields s _ o ?_ (AddFinalizer_foreign o) k
    rw [show ObjectKeyFromObject (writeMeta o (AddFinalizer o myFinalizerName)) = key
      from (AddFinalizer_key o myFinalizerName).trans (Store.lookup_key hl)]
    exact hl
  removeFinalizer := by
    intro s key o hl k
    refine Store.lookup_put_congr foreignFields s _ o ?_ (RemoveFinalizer_foreign o) k
    rw [show ObjectKeyFromObject (writeMeta o (RemoveFinalizer o myFinalizerName)) = key
      from (RemoveFinalizer_key o myFinalizerName).trans (Store.lookup_key hl)]
    exact hl
  pending := by
    intro s key o hl k
    refine Store.lookup_put_congr foreignFields s _ o ?_ ?_ k
    · rw [writeStatus_key, Store.lookup_key hl]
      exact hl
    · rfl
  initialized := by
    intro s key o b hl k
    refine Store.lookup_put_congr foreignFields s _ o ?_ ?_ k
    · rw [writeStatus_key, Store.lookup_key hl]
      exact hl
    · rfl

/-- Claim C18. The engine mutates only the status and its own finalizer marker.  For
every `Reconcile` call whose pipeline units leave the store alone, whatever they
return and whatever the outcome of every store operation: every stored object is
still stored afterwards with the same spec, the same deletion timestamp, the same
finalizer markers other than `"Opster"` and the same name, and no object appears.
What can differ is the status, the membership of `"Opster"` in the finalizer set, and
the version token, which the store advances on every accepted write. -/
theorem engine_mutates_only_status_and_marker (env : Env) (hunits : UnitsKeepStore env)
    (req : NamespacedName) (w : World) :
    (∀ key o, w.store.lookup key = some o →
      ∃ o1, (Reconcile env req w).2.store.lookup key = some o1 ∧
        o1.Spec = o.Spec ∧
        o1.ObjectMeta.DeletionTimestamp = o.ObjectMeta.DeletionTimestamp ∧
        o1.ObjectMeta.Finalizers.filter (fun f => !decide (f = myFinalizerName))
          = o.ObjectMeta.Finalizers.filter (fun f => !decide (f = myFinalizerName)) ∧
        (∀ f, f ≠ myFinalizerName →
          (f ∈ o1.ObjectMeta.Finalizers ↔ f ∈ o.ObjectMeta.Finalizers)) ∧
        o1.ObjectMeta.Namespace = o.ObjectMeta.Namespace ∧
        o1.ObjectMeta.Name = o.ObjectMeta.Name) ∧
    (∀ key, w.store.lookup key = none →
      (Reconcile env req w).2.store.lookup key = none) := by
  have hrel := foreignFields_storeRel.rel_reconcile env hunits req w
  simp only at hrel
  refine ⟨?_, ?_⟩
  · intro key o hl
    have h := hrel key
    rw [hl] at h
    rcases hl1 : (Reconcile env req w).2.store.lookup key with _ | o1
    · rw [hl1] at h
      cases h
    · rw [hl1] at h
      simp only [Option.map_some', Option.some.injEq, foreignFields, Prod.mk.injEq] at h
      obtain ⟨hs, hd, hfl, hns, hn⟩ := h
      refine ⟨o1, rfl, hs, hd, hfl, ?_, hns, hn⟩
      intro f hf
      have hmem : ∀ l : List String,
          f ∈ l ↔ f ∈ l.filter (fun f => !decide (f = myFinalizerName)) := by
        intro l
        simp [List.mem_filter, hf]
      rw [hmem o1.ObjectMeta.Finalizers, hmem o.ObjectMeta.Finalizers, hfl]
  · intro key hl
    have h := hrel key
    rw [hl] at h
    rcases hl1 : (Reconcile env req w).2.store.lookup key with _ | o1
    · rfl
    · rw [hl1] at h
      cases h

/-! ## Steps of the engine on a coherent state -/

theorem StepClosed.step_flatten {J : Store → List Event → Store → Prop} (hJ : StepClosed J)
    (s : Store) {atoms : List (List Event)} (h : ∀ a ∈ atoms, J s a s) :
    J s atoms.flatten s := by
  induction atoms with
  | nil => exact hJ.refl s
  | cons a t ih =>
    rw [List.flatten_cons]
    exact hJ.trans _ _ _ _ _ (h a (List.mem_cons_self _ _))
      (ih (fun b hb => h b (List.mem_cons_of_mem _ hb)))

theorem StepClosed.step_events {J : Store → List Event → Store → Prop} (hJ : StepClosed J)
    (s : Store) : ∀ seg : List Event, (∀ e ∈ seg, J s [e] s) → J s seg s := by
  intro seg
  induction seg with
  | nil => intro _; exact hJ.refl s
  | cons a t ih =>
    intro h
    exact hJ.trans _ _ _ [a] t (h a (List.mem_cons_self _ _))
      (ih (fun e he => h e (List.mem_cons_of_mem _ he)))

/-- A read-modify-write under the retry policy, from the steps of its attempts. -/
theorem StepClosed.step_retry {J : Store → List Event → Store → Prop} (hJ : StepClosed J)
    {A : Option Err → List Event → Prop} {err : Option Err}
    {atoms : List (List Event)} {last : List Event} (s s1 : Store)
    (hfail : ∀ e a, A (some e) a → J s a s) (hlast : A err last → J s last s1)
    (h : RetrySegment A err atoms last) : J s (atoms.flatten ++ last) s1 := by
  obtain ⟨_, hall, hl, _⟩ := h
  refine hJ.trans _ _ _ _ _ (hJ.step_flatten s ?_) (hlast hl)
  intro a ha
  obtain ⟨e, _, hAa⟩ := hall a ha
  exact hfail e a hAa

theorem StepClosed.step_finalizer {J : Store → List Event → Store → Prop} (hJ : StepClosed J)
    (env : Env) (key : NamespacedName)
    (change : OpenSearchCluster → String → OpenSearchCluster)
    (hkey : ∀ o m, ObjectKeyFromObject (change o m) = ObjectKeyFromObject o)
    (hfield : ∀ (s : Store) (key : NamespacedName) (o : OpenSearchCluster)
      (err : Option Err), s.lookup key = some o →
      J s [Event.get key (some o) none, Event.update (change o myFinalizerName) err]
        (s.after err (writeMeta o (change o myFinalizerName))))
    (obj : OpenSearchCluster) (w : World) :
    ∃ seg, (RetryOnConflict DefaultRetry (finalizerAttempt env key change) (obj, w)).2.2.trace
        = w.trace ++ seg ∧
      J w.store seg
        (RetryOnConflict DefaultRetry (finalizerAttempt env key change) (obj, w)).2.2.store := by
  obtain ⟨atoms, last, htr, hseg, herr, hok⟩ := finalizer_retry env key change hkey obj w
  refine ⟨atoms.flatten ++ last, by rw [htr, List.append_assoc], ?_⟩
  refine hJ.step_retry w.store _ ?_ ?_ hseg
  · intro e a ha
    rcases ha with ⟨e1, _, rfl⟩ | ⟨o, hl, rfl⟩
    · exact hJ.get _ _ _ _
    · exact hfield w.store key o (some e) hl
  · intro ha
    rcases ha with ⟨e1, he1, rfl⟩ | ⟨o, hl, rfl⟩
    · rw [herr (by rw [he1]; simp)]
      exact hJ.get _ _ _ _
    · have h := hfield w.store key o
        (RetryOnConflict DefaultRetry (finalizerAttempt env key change) (obj, w)).1 hl
      rcases hr : (RetryOnConflict DefaultRetry (finalizerAttempt env key change) (obj, w)).1
        with _ | e
      · obtain ⟨o', hl', _, hst⟩ := hok hr
        rw [hl] at hl'
        have ho : o = o' := Option.some.inj hl'
        subst ho
        rw [hr] at h
        rw [hst]
        exact h
      · rw [hr] at h
        rw [herr (by rw [hr]; simp)]
        exact h

theorem StepClosed.step_loop {J : Store → List Event → Store → Prop} (hJ : StepClosed J)
    (env : Env) (hunits : UnitsKeepStore env) (l : List (Component × Method))
    (obj : OpenSearchCluster) (w : World) :
    ∃ seg, (runComponentReconcilers env l obj w).2.2.trace = w.trace ++ seg ∧
      J w.store seg (runComponentReconcilers env l obj w).2.2.store := by
  obtain ⟨seg, htr, hspec⟩ := runComponentReconcilers_spec env l obj w
  refine ⟨seg, htr, ?_⟩
  rw [runComponentReconcilers_store env hunits l obj w]
  refine hJ.step_events w.store seg ?_
  intro e he
  obtain ⟨c, m, handed, r, err, rfl, _⟩ := LoopSpec.events hspec e he
  exact hJ.component _ _ _ _ _ _

theorem StepClosed.step_pending {J : Store → List Event → Store → Prop} (hJ : StepClosed J)
    (env : Env) (obj : OpenSearchCluster) (w : World) :
    ∃ seg, (reconcilePhasePending env obj w).2.trace = w.trace ++ seg ∧
      J w.store seg (reconcilePhasePending env obj w).2.store := by
  obtain ⟨atoms, last, htr, hseg, herr, hok⟩ :=
    pending_retry env obj (w.log (Event.enter Func.reconcilePhasePending))
  have hJ1 : J w.store (atoms.flatten ++ last)
      (RetryOnConflict DefaultRetry (pendingAttempt env)
        (obj, w.log (Event.enter Func.reconcilePhasePending))).2.2.store := by
    refine hJ.step_retry w.store _ ?_ ?_ hseg
    · intro e a ha
      rcases ha with ⟨e1, _, rfl⟩ | ⟨o, hl, rfl⟩
      · exact hJ.get _ _ _ _
      · exact hJ.pending w.store _ o (some e) hl
    · intro ha
      rcases ha with ⟨e1, he1, rfl⟩ | ⟨o, hl, rfl⟩
      · rw [herr (by rw [he1]; simp)]
        exact hJ.get _ _ _ _
      · have h := hJ.pending w.store _ o
          (RetryOnConflict DefaultRetry (pendingAttempt env)
            (obj, w.log (Event.enter Func.reconcilePhasePending))).1 hl
        rcases hr : (RetryOnConflict DefaultRetry (pendingAttempt env)
            (obj, w.log (Event.enter Func.reconcilePhasePending))).1 with _ | e
        · obtain ⟨o', hl', _, hst⟩ := hok hr
          have hl0 : w.store.lookup (ObjectKeyFromObject obj) = some o := hl
          rw [show (w.log (Event.enter Func.reconcilePhasePending)).store = w.store from rfl,
            hl0] at hl'
          have ho : o = o' := Option.some.inj hl'
          subst ho
          rw [hr] at h
          rw [hst]
          exact h
        · rw [hr] at h
          rw [herr (by rw [hr]; simp)]
          exact h
  have hall := hJ.trans _ _ _ _ _ (hJ.enter w.store Func.reconcilePhasePending) hJ1
  unfold reconcilePhasePending
  rcases hr : RetryOnConflict DefaultRetry (pendingAttempt env)
      (obj, w.log (Event.enter Func.reconcilePhasePending)) with ⟨_ | e, obj2, w2⟩
  · rw [hr] at htr hall
    exact ⟨_, by rw [show w2.trace = _ from htr]; simp [World.log], hall⟩
  · rw [hr] at htr hall
    exact ⟨_, by rw [show w2.trace = _ from htr]; simp [World.log], hall⟩

theorem StepClosed.step_running {J : Store → List Event → Store → Prop} (hJ : StepClosed J)
    (env : Env) (hunits : UnitsKeepStore env) (obj cur : OpenSearchCluster) (w : World)
    (hcur : w.store.lookup (ObjectKeyFromObject obj) = some cur)
    (hflag : obj.Status.Initialized = cur.Status.Initialized) :
    ∃ seg, (reconcilePhaseRunning env obj w).2.trace = w.trace ++ seg ∧
      J w.store seg (reconcilePhaseRunning env obj w).2.store := by
  unfold OpenSearchController.reconcilePhaseRunning
  simp only []
  have hloop : ∀ (obj2 : OpenSearchCluster) (w2 : World) (seg0 : List Event),
      w2.trace = w.trace ++ seg0 → J w.store seg0 w2.store →
      ∃ seg, (match runComponentReconcilers env applyReconcilers obj2 w2 with
          | (some r, _, w3) => (r, w3)
          | (none, _, w3) =>
            (({ Requeue := true, RequeueAfter := 30 * Second }, none), w3)).2.trace
          = w.trace ++ seg ∧
        J w.store seg (match runComponentReconcilers env applyReconcilers obj2 w2 with
          | (some r, _, w3) => (r, w3)
          | (none, _, w3) =>
            (({ Requeue := true, RequeueAfter := 30 * Second }, none), w3)).2.store := by
    intro obj2 w2 seg0 h0 hJ0
    obtain ⟨seg, htr, hseg⟩ := hJ.step_loop env hunits applyReconcilers obj2 w2
    rcases hrun : runComponentReconcilers env applyReconcilers obj2 w2
      with ⟨_ | r, obj3, w3⟩
    · rw [hrun] at htr hseg
      exact ⟨seg0 ++ seg, by rw [show w3.trace = _ from htr, h0]; simp,
        hJ.trans _ _ _ _ _ hJ0 hseg⟩
    · rw [hrun] at htr hseg
      exact ⟨seg0 ++ seg, by rw [show w3.trace = _ from htr, h0]; simp,
        hJ.trans _ _ _ _ _ hJ0 hseg⟩
  by_cases hinit : obj.Status.Initialized = true
  · simp only [hinit, Bool.not_true, Bool.false_eq_true, if_false]
    exact hloop obj _ [Event.enter Func.reconcilePhaseRunning] rfl (hJ.enter _ _)
  · have hinit' : obj.Status.Initialized = false := by simpa using hinit
    have hcur0 : cur.Status.Initialized = false := by rw [← hflag]; exact hinit'
    simp only [hinit', Bool.not_false, if_true]
    obtain ⟨atoms, last, htr, hseg, herr, hok⟩ :=
      initialized_retry env obj (w.log (Event.enter Func.reconcilePhaseRunning))
    have hsame : ∀ o, (w.log (Event.enter Func.reconcilePhaseRunning)).store.lookup
        (ObjectKeyFromObject obj) = some o → o = cur := by
      intro o hl
      have hl0 : w.store.lookup (ObjectKeyFromObject obj) = some o := hl
      rw [hcur] at hl0
      exact (Option.some.inj hl0).symm
    have hJ1 : J w.store (atoms.flatten ++ last)
        (RetryOnConflict DefaultRetry (initializedAttempt env)
          (obj, w.log (Event.enter Func.reconcilePhaseRunning))).2.2.store := by
      refine hJ.step_retry w.store _ ?_ ?_ hseg
      · intro e a ha
        rcases ha with ⟨e1, _, rfl⟩ | ⟨o, b, hl, rfl⟩
        · exact hJ.get _ _ _ _
        · have ho := hsame o hl
          subst ho
          exact hJ.initialized w.store _ o b (some e) hl hcur0
      · intro ha
        rcases ha with ⟨e1, he1, rfl⟩ | ⟨o, b, hl, rfl⟩
        · rw [herr (by rw [he1]; simp)]
          exact hJ.get _ _ _ _
        · have ho := hsame o hl
          subst ho
          have h := hJ.initialized w.store _ o b
            (RetryOnConflict DefaultRetry (initializedAttempt env)
              (obj, w.log (Event.enter Func.reconcilePhaseRunning))).1 hl hcur0
          rcases hr : (RetryOnConflict DefaultRetry (initializedAttempt env)
              (obj, w.log (Event.enter Func.reconcilePhaseRunning))).1 with _ | e
          · obtain ⟨o', b', hl', _, hlast, _, hst⟩ := hok hr
            have ho := hsame o' hl'
            subst ho
            simp only [List.cons.injEq, Event.allMastersReady.injEq, true_and,
              Event.statusUpdate.injEq] at hlast
            have hb : b = b' := hlast.1
            subst hb
            rw [hr] at h
            rw [hst]
            exact h
          · rw [hr] at h
            rw [herr (by rw [hr]; simp)]
            exact h
    have hall := hJ.trans _ _ _ _ _ (hJ.enter w.store Func.reconcilePhaseRunning) hJ1
    rcases hr : RetryOnConflict DefaultRetry (initializedAttempt env)
        (obj, w.log (Event.enter Func.reconcilePhaseRunning)) with ⟨_ | e, obj2, w2⟩
    · rw [hr] at htr hall
      exact hloop obj2 w2 _ (by rw [show w2.trace = _ from htr]; simp [World.log]) hall
    · rw [hr] at htr hall
      exact ⟨_, by rw [show w2.trace = _ from htr]; simp [World.log], hall⟩

theorem StepClosed.step_dispatch {J : Store → List Event → Store → Prop} (hJ : StepClosed J)
    (env : Env) (hunits : UnitsKeepStore env) (obj cur : OpenSearchCluster) (w : World)
    (hcur : w.store.lookup (ObjectKeyFromObject obj) = some cur)
    (hflag : obj.Status.Initialized = cur.Status.Initialized) :
    ∃ seg, (phaseDispatch env obj w).2.trace = w.trace ++ seg ∧
      J w.store seg (phaseDispatch env obj w).2.store := by
  unfold phaseDispatch
  simp only []
  have hobj1 : ∀ obj1 : OpenSearchCluster,
      obj1 = (if obj.Status.Phase = "" then
        { obj with Status :=
            { obj.Status with Phase := PhaseRunning, ComponentsStatus := [] } }
        else obj) →
      ObjectKeyFromObject obj1 = ObjectKeyFromObject obj ∧
      obj1.Status.Initialized = obj.Status.Initialized := by
    intro obj1 h
    rw [h]
    split <;> exact ⟨rfl, rfl⟩
  generalize hgen : (if obj.Status.Phase = "" then _ else obj) = obj1
  obtain ⟨hk1, hi1⟩ := hobj1 obj1 hgen.symm
  by_cases h1 : obj1.Status.Phase = PhasePending
  · rw [if_pos h1]
    exact hJ.step_pending env obj1 w
  · by_cases h2 : obj1.Status.Phase = PhaseRunning
    · rw [if_neg h1, if_pos h2]
      exact hJ.step_running env hunits obj1 cur w (by rw [hk1]; exact hcur)
        (by rw [hi1]; exact hflag)
    · rw [if_neg h1, if_neg h2]
      exact ⟨[], by simp, hJ.refl _⟩

theorem StepClosed.step_reconcile {J : Store → List Event → Store → Prop} (hJ : StepClosed J)
    (env : Env) (hunits : UnitsKeepStore env) (req : NamespacedName) (w : World) :
    ∃ seg, (Reconcile env req w).2.trace = w.trace ++ seg ∧
      J w.store seg (Reconcile env req w).2.store := by
  rcases Get_cases env req {} w with ⟨e, hg⟩ | ⟨o, hf0, hl0, hg⟩
  · unfold Reconcile
    rw [hg]
    simp only []
    split <;> exact ⟨_, rfl, hJ.get _ _ _ _⟩
  · have hf : Fetched env req w o := ⟨hf0, hl0⟩
    have hkey : ObjectKeyFromObject o = req := Store.lookup_key hl0
    have hget : J w.store [Event.get req (some o) none] w.store := hJ.get _ _ _ _
    by_cases hdel : IsZero o.ObjectMeta.DeletionTimestamp = true
    · rw [Reconcile_live env req w o hf hdel]
      by_cases hc : ContainsString o.ObjectMeta.Finalizers myFinalizerName = true
      · rw [if_pos hc]
        obtain ⟨seg, htr, hseg⟩ := hJ.step_dispatch env hunits o o
          (w.log (Event.get req (some o) none)) (by rw [hkey]; exact hl0) rfl
        exact ⟨Event.get req (some o) none :: seg, by rw [htr]; simp [World.log],
          hJ.trans _ _ _ _ _ hget hseg⟩
      · rw [if_neg hc]
        obtain ⟨seg, htr, hseg⟩ := hJ.step_finalizer env req AddFinalizer AddFinalizer_key
          hJ.addFinalizer o (w.log (Event.get req (some o) none))
        obtain ⟨_, _, _, _, _, hok⟩ := finalizer_retry env req AddFinalizer
          AddFinalizer_key o (w.log (Event.get req (some o) none))
        rcases hr : RetryOnConflict DefaultRetry (finalizerAttempt env req AddFinalizer)
            (o, w.log (Event.get req (some o) none)) with ⟨_ | e, obj2, w2⟩
        · rw [hr] at hok htr hseg
          obtain ⟨o', hl', hobj, hst⟩ := hok rfl
          have ho : o = o' := by
            have hl1 : w.store.lookup req = some o' := hl'
            rw [hl0] at hl1
            exact Option.some.inj hl1
          subst ho
          simp only at hobj hst htr hseg
          have hk2 : ObjectKeyFromObject obj2 = req := by
            rw [hobj]
            exact (AddFinalizer_key o myFinalizerName).trans hkey
          have hcur2 : w2.store.lookup (ObjectKeyFromObject obj2) = some obj2 := by
            rw [hst, ← hobj]
            exact Store.lookup_put_self _ obj2 o (by rw [hk2]; exact hl0)
          obtain ⟨seg2, htr2, hseg2⟩ := hJ.step_dispatch env hunits obj2 obj2 w2 hcur2 rfl
          refine ⟨Event.get req (some o) none :: (seg ++ seg2), ?_, ?_⟩
          · rw [htr2, htr]
            simp [World.log]
          · exact hJ.trans _ _ _ [Event.get req (some o) none] (seg ++ seg2) hget
              (hJ.trans _ _ _ _ _ hseg hseg2)
        · rw [hr] at htr hseg
          exact ⟨Event.get req (some o) none :: seg,
            by rw [show w2.trace = _ from htr]; simp [World.log],
            hJ.trans _ _ _ [Event.get req (some o) none] seg hget hseg⟩
    · have hdel' : IsZero o.ObjectMeta.DeletionTimestamp = false := by simpa using hdel
      rw [Reconcile_deleting env req w o hf hdel']
      by_cases hc : ContainsString o.ObjectMeta.Finalizers myFinalizerName = true
      · rw [if_pos hc]
        obtain ⟨seg, ret, htr, hspec, _, hst, _⟩ :=
          deleteExternalResources_loop env o (w.log (Event.get req (some o) none))
        have hJd : J w.store (Event.get req (some o) none ::
            Event.enter Func.deleteExternalResources :: seg) w.store := by
          refine hJ.trans _ _ _ [Event.get req (some o) none] _ hget
            (hJ.trans _ _ _ [Event.enter Func.deleteExternalResources] seg
              (hJ.enter _ _) (hJ.step_events _ seg ?_))
          intro e he
          obtain ⟨c, m, handed, r, err, rfl, _⟩ := LoopSpec.events hspec e he
          exact hJ.component _ _ _ _ _ _
        rcases hd : deleteExternalResources env o (w.log (Event.get req (some o) none))
          with ⟨⟨result, _ | err⟩, obj2, w2⟩
        · rw [hd] at hst htr
          have h2 : w2.store = w.store := hst hunits
          simp only []
          obtain ⟨seg3, htr3, hseg3⟩ := hJ.step_finalizer env req RemoveFinalizer
            RemoveFinalizer_key hJ.removeFinalizer obj2 w2
          rw [h2] at hseg3
          have hfin : ∀ x : (Option Err × OpenSearchCluster × World),
              x = RetryOnConflict DefaultRetry (finalizerAttempt env req RemoveFinalizer)
                (obj2, w2) →
              ∃ sg, x.2.2.trace = w.trace ++ sg ∧ J w.store sg x.2.2.store := by
            intro x hx
            subst hx
            refine ⟨Event.get req (some o) none ::
              Event.enter Func.deleteExternalResources :: seg ++ seg3, ?_, ?_⟩
            · rw [htr3, show w2.trace = _ from htr]
              simp [World.log]
            · exact hJ.trans _ _ _ _ _ hJd hseg3
          rcases hr : RetryOnConflict DefaultRetry (finalizerAttempt env req RemoveFinalizer)
              (obj2, w2) with ⟨_ | e, obj3, w3⟩
          · exact hfin _ hr.symm
          · exact hfin _ hr.symm
        · rw [hd] at hst htr
          refine ⟨Event.get req (some o) none ::
            Event.enter Func.deleteExternalResources :: seg,
            by rw [show w2.trace = _ from htr]; simp [World.log], ?_⟩
          show J w.store _ w2.store
          rw [show w2.store = _ from hst hunits]
          exact hJd
      · rw [if_neg hc]
        exact ⟨_, rfl, hget⟩

theorem StepClosed.step_reconcileAll {J : Store → List Event → Store → Prop}
    (hJ : StepClosed J) (env : Env) (hunits : UnitsKeepStore env)
    (reqs : List NamespacedName) :
    ∀ w : World, ∃ seg, (ReconcileAll env reqs w).trace = w.trace ++ seg ∧
      J w.store seg (ReconcileAll env reqs w).store := by
  induction reqs with
  | nil => intro w; exact ⟨[], by simp [ReconcileAll], hJ.refl _⟩
  | cons req rest ih =>
    intro w
    obtain ⟨s1, h1, hJ1⟩ := hJ.step_reconcile env hunits req w
    obtain ⟨s2, h2, hJ2⟩ := ih (Reconcile env req w).2
    exact ⟨s1 ++ s2, by rw [ReconcileAll, h2, h1, List.append_assoc],
      hJ.trans _ _ _ _ _ hJ1 hJ2⟩

/-! ## The `Initialized` flag -/

theorem InitializedStable.of_same (k : NamespacedName) (s s1 : Store) (seg : List Event)
    (hsame : (s1.lookup k).map (fun o => o.Status) = (s.lookup k).map (fun o => o.Status))
    (hready : ∀ o b, Event.allMastersReady o b ∉ seg)
    (hstatus : ∀ o err, Event.statusUpdate o err ∈ seg → ObjectKeyFromObject o = k →
      storedInitialized s k = some o.Status.Initialized) :
    InitializedStable k s seg s1 := by
  have hflag : storedInitialized s1 k = storedInitialized s k := by
    unfold storedInitialized
    have := congrArg (Option.map (fun st : ClusterStatus => st.Initialized)) hsame
    simpa [Option.map_map, Function.comp] using this
  refine ⟨?_, ?_, ?_⟩
  · have := congrArg Option.isSome hsame
    simpa using this
  · intro ht
    refine ⟨by rw [hflag]; exact ht, fun o b hm => absurd hm (hready o b), ?_⟩
    intro o err hm hk
    have := hstatus o err hm hk
    rw [ht] at this
    exact (Option.some.inj this).symm
  · intro hf ht
    rw [hflag, hf] at ht
    cases ht

theorem Store.after_congr {α : Type} (f : OpenSearchCluster → α) (s : Store)
    (err : Option Err) (obj cur : OpenSearchCluster)
    (h : s.lookup (ObjectKeyFromObject obj) = some cur) (hf : f obj = f cur)
    (key : NamespacedName) :
    ((s.after err obj).lookup key).map f = (s.lookup key).map f := by
  cases err with
  | none => exact Store.lookup_put_congr f s obj cur h hf key
  | some e => rfl

theorem Store.after_other (s : Store) (err : Option Err) (obj : OpenSearchCluster)
    (key : NamespacedName) (h : key ≠ ObjectKeyFromObject obj) :
    (s.after err obj).lookup key = s.lookup key := by
  cases err with
  | none => exact Store.lookup_put_other s obj key h
  | some e => rfl

theorem initializedStable_stepClosed (k : NamespacedName) :
    StepClosed (InitializedStable k) where
  refl := fun s => InitializedStable.of_same k s s [] rfl (by simp) (by simp)
  trans := by
    intro a b c s t hab hbc
    obtain ⟨hp1, ht1, hf1⟩ := hab
    obtain ⟨hp2, ht2, hf2⟩ := hbc
    refine ⟨hp2.trans hp1, ?_, ?_⟩
    · intro ha
      obtain ⟨hb, hr1, hs1⟩ := ht1 ha
      obtain ⟨hc, hr2, hs2⟩ := ht2 hb
      refine ⟨hc, ?_, ?_⟩
      · intro o b1 hm
        rcases List.mem_append.mp hm with h | h
        · exact hr1 o b1 h
        · exact hr2 o b1 h
      · intro o err hm hk
        rcases List.mem_append.mp hm with h | h
        · exact hs1 o err h hk
        · exact hs2 o err h hk
    · intro ha hc
      rcases hb : storedInitialized b k with _ | _ | _
      · -- the object cannot vanish in between
        exfalso
        unfold storedInitialized at hb ha
        rcases hl : b.lookup k with _ | x
        · rw [hl] at hp1
          rcases hl2 : a.lookup k with _ | y
          · rw [hl2] at ha
            cases ha
          · rw [hl2] at hp1
            cases hp1
        · rw [hl] at hb
          cases hb
      · obtain ⟨o, hk, hm⟩ := hf2 hb hc
        exact ⟨o, hk, List.mem_append.mpr (Or.inr hm)⟩
      · obtain ⟨o, hk, hm⟩ := hf1 ha hb
        exact ⟨o, hk, List.mem_append.mpr (Or.inl hm)⟩
  get := fun s _ _ _ => InitializedStable.of_same k s s _ rfl (by simp) (by simp)
  enter := fun s _ => InitializedStable.of_same k s s _ rfl (by simp) (by simp)
  component := fun s _ _ _ _ _ => InitializedStable.of_same k s s _ rfl (by simp) (by simp)
  addFinalizer := by
    intro s key o err hl
    refine InitializedStable.of_same k s _ _ ?_ (by simp) (by simp)
    refine Store.after_congr (fun o => o.Status) s err
      (writeMeta o (AddFinalizer o myFinalizerName)) o ?_ rfl k
    rw [show ObjectKeyFromObject (writeMeta o (AddFinalizer o myFinalizerName)) = key
      from (AddFinalizer_key o myFinalizerName).trans (Store.lookup_key hl)]
    exact hl
  removeFinalizer := by
    intro s key o err hl
    refine InitializedStable.of_same k s _ _ ?_ (by simp) (by simp)
    refine Store.after_congr (fun o => o.Status) s err
      (writeMeta o (RemoveFinalizer o myFinalizerName)) o ?_ rfl k
    rw [show ObjectKeyFromObject (writeMeta o (RemoveFinalizer o myFinalizerName)) = key
      from (RemoveFinalizer_key o myFinalizerName).trans (Store.lookup_key hl)]
    exact hl
  pending := by
    intro s key o err hl
    have hkey : ObjectKeyFromObject o = key := Store.lookup_key hl
    have hflag : storedInitialized (s.after err (writeStatus o { o with Status :=
        { o.Status with Phase := PhaseRunning, ComponentsStatus := [] } })) k
        = storedInitialized s k := by
      refine Store.after_congr (fun o => o.Status.Initialized) s err (writeStatus o
        { o with Status := { o.Status with Phase := PhaseRunning, ComponentsStatus := [] } })
        o ?_ rfl k
      rw [writeStatus_key, hkey]
      exact hl
    have hpres : ((s.after err (writeStatus o { o with Status :=
        { o.Status with Phase := PhaseRunning, ComponentsStatus := [] } })).lookup k).isSome
        = (s.lookup k).isSome := by
      have := Store.after_congr (fun _ => ()) s err (writeStatus o { o with Status :=
        { o.Status with Phase := PhaseRunning, ComponentsStatus := [] } }) o
        (by rw [writeStatus_key, hkey]; exact hl) rfl k
      have h2 := congrArg Option.isSome this
      simpa using h2
    refine ⟨hpres, ?_, ?_⟩
    · intro ht
      refine ⟨by rw [hflag]; exact ht, by simp, ?_⟩
      intro o1 err1 hm hk
      simp only [List.mem_cons, List.mem_singleton, Event.statusUpdate.injEq,
        List.not_mem_nil, or_false, false_or, reduceCtorEq] at hm
      obtain ⟨ho1, _⟩ := hm
      subst ho1
      have hk' : key = k := by rw [← hkey]; exact hk
      subst hk'
      unfold storedInitialized at ht
      rw [hl] at ht
      exact Option.some.inj ht
    · intro hf ht
      rw [hflag, hf] at ht
      cases ht
  initialized := by
    intro s key o b err hl hfalse
    have hkey : ObjectKeyFromObject o = key := Store.lookup_key hl
    by_cases hk : k = key
    · subst hk
      have hs : storedInitialized s k = some false := by
        unfold storedInitialized
        rw [hl]
        exact congrArg some hfalse
      have hpres : ((s.after err (writeStatus o
          { o with Status := { o.Status with Initialized := b } })).lookup k).isSome
          = (s.lookup k).isSome := by
        have := Store.after_congr (fun _ => ()) s err (writeStatus o
          { o with Status := { o.Status with Initialized := b } }) o
          (by rw [writeStatus_key, hkey]; exact hl) rfl k
        have h2 := congrArg Option.isSome this
        simpa using h2
      refine ⟨hpres, ?_, ?_⟩
      · intro ht
        rw [hs] at ht
        cases ht
      · intro _ ht
        refine ⟨o, hkey, ?_⟩
        cases err with
        | some e =>
          have : storedInitialized s k = some true := ht
          rw [hs] at this
          cases this
        | none =>
          have hput := Store.lookup_put_self s (writeStatus o
            { o with Status := { o.Status with Initialized := b } }) o
            (by rw [writeStatus_key, hkey]; exact hl)
          rw [writeStatus_key, hkey] at hput
          unfold storedInitialized at ht
          have ht' : ((s.put (writeStatus o
            { o with Status := { o.Status with Initialized := b } })).lookup k).map
              (fun o => o.Status.Initialized) = some true := ht
          rw [hput] at ht'
          have hb : b = true := Option.some.inj ht'
          subst hb
          simp
    · have hother : (s.after err (writeStatus o
          { o with Status := { o.Status with Initialized := b } })).lookup k = s.lookup k :=
        Store.after_other s err _ k (by rw [writeStatus_key, hkey]; exact hk)
      have hne : ObjectKeyFromObject o ≠ k := by rw [hkey]; exact fun h => hk h.symm
      refine ⟨by rw [hother], ?_, ?_⟩
      · intro ht
        refine ⟨by unfold storedInitialized at ht ⊢; rw [hother]; exact ht, ?_, ?_⟩
        · intro o1 b1 hm
          simp only [List.mem_cons, List.mem_singleton, Event.allMastersReady.injEq,
            List.not_mem_nil, or_false, false_or, reduceCtorEq] at hm
          obtain ⟨ho1, _⟩ := hm
          subst ho1
          exact hne
        · intro o1 err1 hm hk1
          simp only [List.mem_cons, List.mem_singleton, Event.statusUpdate.injEq,
            List.not_mem_nil, or_false, false_or, reduceCtorEq] at hm
          obtain ⟨ho1, _⟩ := hm
          subst ho1
          exact absurd hk1 hne
      · intro hf ht
        unfold storedInitialized at hf ht
        rw [hother, hf] at ht
        cases ht

/-- Claim C16. The `Initialized` flag is write-once-then-stable.  With pipeline units
that leave the store alone, whatever they return, whatever the readiness predicate
answers and whatever the outcome of every store operation: a `Reconcile` call after
which the stored flag of an object is `true`, while it was not before, is a call in
which the readiness predicate answered `true` for that object; and once the stored
flag is `true`, over every sequence of `Reconcile` calls it is still `true` at the end,
the readiness predicate is never asked about that object, and every `Status().Update`
of that object submits the flag `true`. -/
theorem initialized_write_once (env : Env) (hunits : UnitsKeepStore env)
    (k : NamespacedName) :
    (∀ (req : NamespacedName) (w : World),
      storedInitialized w.store k ≠ some true →
      storedInitialized (Reconcile env req w).2.store k = some true →
      ∃ seg o, (Reconcile env req w).2.trace = w.trace ++ seg ∧
        ObjectKeyFromObject o = k ∧ Event.allMastersReady o true ∈ seg) ∧
    (∀ (reqs : List NamespacedName) (w : World),
      storedInitialized w.store k = some true →
      ∃ seg, (ReconcileAll env reqs w).trace = w.trace ++ seg ∧
        storedInitialized (ReconcileAll env reqs w).store k = some true ∧
        (∀ o b, Event.allMastersReady o b ∈ seg → ObjectKeyFromObject o ≠ k) ∧
        (∀ o err, Event.statusUpdate o err ∈ seg → ObjectKeyFromObject o = k →
          o.Status.Initialized = true)) := by
  refine ⟨?_, ?_⟩
  · intro req w hne ht
    obtain ⟨seg, htr, hp, _, hf⟩ :=
      (initializedStable_stepClosed k).step_reconcile env hunits req w
    rcases hs : storedInitialized w.store k with _ | _ | _
    · exfalso
      unfold storedInitialized at hs ht
      rcases hl : w.store.lookup k with _ | x
      · rw [hl] at hp
        rcases hl2 : (Reconcile env req w).2.store.lookup k with _ | y
        · rw [hl2] at ht
          cases ht
        · rw [hl2] at hp
          cases hp
      · rw [hl] at hs
        cases hs
    · obtain ⟨o, hk, hm⟩ := hf hs ht
      exact ⟨seg, o, htr, hk, hm⟩
    · exact absurd hs hne
  · intro reqs w ht
    obtain ⟨seg, htr, _, htrue, _⟩ :=
      (initializedStable_stepClosed k).step_reconcileAll env hunits reqs w
    obtain ⟨h1, h2, h3⟩ := htrue ht
    exact ⟨seg, htr, h1, h2, h3⟩

/-! ## A second call -/

theorem runComponentReconcilers_timeless (env : Env) (hdet : UnitsTimeless env)
    (l : List (Component × Method)) :
    ∀ (obj : OpenSearchCluster) (w w1 : World), w.store = w1.store →
      (runComponentReconcilers env l obj w).1 = (runComponentReconcilers env l obj w1).1 := by
  induction l with
  | nil => intro obj w w1 _; rfl
  | cons b rest ih =>
    intro obj w w1 hs
    obtain ⟨c, m⟩ := b
    rw [runComponentReconcilers_cons, runComponentReconcilers_cons]
    have hout : env.reconcilers c m w.clock obj w.store
        = env.reconcilers c m w1.clock obj w1.store := by
      rw [hs]
      exact hdet c m _ _ obj w1.store
    rw [hout]
    split
    · rfl
    · exact ih _ _ _ rfl

theorem deleteExternalResources_timeless (env : Env) (hdet : UnitsTimeless env)
    (obj : OpenSearchCluster) (w w1 : World) (hs : w.store = w1.store) :
    (deleteExternalResources env obj w).1 = (deleteExternalResources env obj w1).1 := by
  have h := runComponentReconcilers_timeless env hdet teardownReconcilers obj
    (w.log (Event.enter Func.deleteExternalResources))
    (w1.log (Event.enter Func.deleteExternalResources)) hs
  unfold deleteExternalResources
  rcases hr : runComponentReconcilers env teardownReconcilers obj
      (w.log (Event.enter Func.deleteExternalResources)) with ⟨_ | r, o2, w2⟩ <;>
    rcases hr1 : runComponentReconcilers env teardownReconcilers obj
      (w1.log (Event.enter Func.deleteExternalResources)) with ⟨_ | r1, o3, w3⟩ <;>
    rw [hr, hr1] at h <;> simp only at h ⊢
  · cases h
  · cases h
  · exact Option.some.inj h

/-- The store after the `Running` handler, no store operation failing. -/
theorem reconcilePhaseRunning_store (env : Env) (hnf : NoFaults env)
    (hunits : UnitsKeepStore env) (obj cur : OpenSearchCluster) (w : World)
    (hcur : w.store.lookup (ObjectKeyFromObject obj) = some cur) :
    (reconcilePhaseRunning env obj w).2.store =
      if obj.Status.Initialized then w.store
      else w.store.put (writeStatus cur { cur with Status := { cur.Status with
        Initialized := env.AllMastersReady (w.clock + 2) cur w.store } }) := by
  unfold OpenSearchController.reconcilePhaseRunning
  simp only []
  have hloop : ∀ (obj2 : OpenSearchCluster) (w2 : World),
      (match runComponentReconcilers env applyReconcilers obj2 w2 with
          | (some r, _, w3) => (r, w3)
          | (none, _, w3) =>
            (({ Requeue := true, RequeueAfter := 30 * Second }, none), w3)).2.store
        = w2.store := by
    intro obj2 w2
    have hst := runComponentReconcilers_store env hunits applyReconcilers obj2 w2
    rcases hrun : runComponentReconcilers env applyReconcilers obj2 w2
      with ⟨_ | r, obj3, w3⟩
    · rw [hrun] at hst
      exact hst
    · rw [hrun] at hst
      exact hst
  by_cases hinit : obj.Status.Initialized = true
  · simp only [hinit, Bool.not_true, Bool.false_eq_true, if_false, if_true]
    rw [hloop]
    rfl
  · have hinit' : obj.Status.Initialized = false := by simpa using hinit
    simp only [hinit', Bool.not_false, if_true, Bool.false_eq_true, if_false]
    have hcur' : (w.log (Event.enter Func.reconcilePhaseRunning)).store.lookup
        (ObjectKeyFromObject obj) = some cur := hcur
    have hfirst := initializedAttempt_noFault env obj cur
      (w.log (Event.enter Func.reconcilePhaseRunning)) hcur' (hnf _) (hnf _)
    obtain ⟨o', hl', heq⟩ := initializedAttempt_ok env obj
      (w.log (Event.enter Func.reconcilePhaseRunning)) hfirst
    rw [hcur'] at hl'
    have ho : cur = o' := Option.some.inj hl'
    subst ho
    rw [RetryOnConflict_first _ _ hfirst, heq]
    simp only []
    rw [hloop]
    simp [World.log, World.clock]

/-- The store after the phase dispatch on a coherent state whose phase is not
`Pending`, no store operation failing and the readiness predicate answering `b`. -/
theorem phaseDispatch_store (env : Env) (hnf : NoFaults env) (hunits : UnitsKeepStore env)
    (b : Bool) (hready : ∀ n o s, env.AllMastersReady n o s = b)
    (cur : OpenSearchCluster) (w : World)
    (hcur : w.store.lookup (ObjectKeyFromObject cur) = some cur)
    (hph : cur.Status.Phase ≠ PhasePending) :
    (phaseDispatch env cur w).2.store =
      if (cur.Status.Phase = PhaseRunning ∨ cur.Status.Phase = "") ∧
          cur.Status.Initialized = false then
        w.store.put (writeStatus cur { cur with Status := { cur.Status with
          Initialized := b } })
      else w.store := by
  by_cases hrun : cur.Status.Phase = PhaseRunning ∨ cur.Status.Phase = ""
  · rw [phaseDispatch_running env cur w hrun]
    have hst := reconcilePhaseRunning_store env hnf hunits
      (if cur.Status.Phase = "" then
          { cur with Status :=
              { cur.Status with Phase := PhaseRunning, ComponentsStatus := [] } }
         else cur) cur w (by split <;> exact hcur)
    rw [hst, hready]
    have hinit : (if cur.Status.Phase = "" then
          ({ cur with Status :=
              { cur.Status with Phase := PhaseRunning, ComponentsStatus := [] } } :
            OpenSearchCluster)
         else cur).Status.Initialized = cur.Status.Initialized := by
      split <;> rfl
    rw [hinit]
    cases hi : cur.Status.Initialized <;> simp [hrun]
  · have h0 : cur.Status.Phase ≠ "" := fun h => hrun (Or.inr h)
    have h2 : cur.Status.Phase ≠ PhaseRunning := fun h => hrun (Or.inl h)
    rw [phaseDispatch_default env cur w h0 hph h2]
    simp [hrun]

theorem eraseVersion_initialized (o : OpenSearchCluster) (h : o.Status.Initialized = false) :
    eraseVersion (writeStatus o { o with Status := { o.Status with Initialized := false } })
      = eraseVersion o := by
  obtain ⟨m, sp, ⟨ph, cs, ini⟩⟩ := o
  simp only at h
  subst h
  rfl

/-- One call on a stored object that is not being deleted and whose phase is not
`Pending`, no store operation failing: afterwards the stored object carries the
marker and its flag is settled; and the call changes nothing but version tokens when
the object was in that state before. -/
theorem Reconcile_live_settles (env : Env) (hnf : NoFaults env)
    (hunits : UnitsKeepStore env) (b : Bool) (hready : ∀ n o s, env.AllMastersReady n o s = b)
    (req : NamespacedName) (w : World) (o : OpenSearchCluster)
    (hl : w.store.lookup req = some o)
    (hdel : IsZero o.ObjectMeta.DeletionTimestamp = true)
    (hph : o.Status.Phase ≠ PhasePending) :
    (∃ x, (Reconcile env req w).2.store.lookup req = some x ∧
      IsZero x.ObjectMeta.DeletionTimestamp = true ∧
      ContainsString x.ObjectMeta.Finalizers myFinalizerName = true ∧
      x.Status.Phase ≠ PhasePending ∧
      (x.Status.Initialized = false →
        (x.Status.Phase = PhaseRunning ∨ x.Status.Phase = "") → b = false)) ∧
    (ContainsString o.ObjectMeta.Finalizers myFinalizerName = true →
      (o.Status.Initialized = false →
        (o.Status.Phase = PhaseRunning ∨ o.Status.Phase = "") → b = false) →
      ∀ key, ((Reconcile env req w).2.store.lookup key).map eraseVersion
        = (w.store.lookup key).map eraseVersion) := by
  have hf : Fetched env req w o := ⟨hnf _, hl⟩
  have hkey : ObjectKeyFromObject o = req := Store.lookup_key hl
  have hl1 : (w.log (Event.get req (some o) none)).store.lookup req = some o := hl
  have hens := Reconcile_ensure env req w o hf hdel
  -- the dispatch on a coherent state
  have hdisp : ∀ (cur : OpenSearchCluster) (w2 : World),
      w2.store.lookup req = some cur →
      IsZero cur.ObjectMeta.DeletionTimestamp = true →
      ContainsString cur.ObjectMeta.Finalizers myFinalizerName = true →
      cur.Status.Phase ≠ PhasePending →
      (∃ x, (phaseDispatch env cur w2).2.store.lookup req = some x ∧
        IsZero x.ObjectMeta.DeletionTimestamp = true ∧
        ContainsString x.ObjectMeta.Finalizers myFinalizerName = true ∧
        x.Status.Phase ≠ PhasePending ∧
        (x.Status.Initialized = false →
          (x.Status.Phase = PhaseRunning ∨ x.Status.Phase = "") → b = false)) ∧
      ((cur.Status.Initialized = false →
          (cur.Status.Phase = PhaseRunning ∨ cur.Status.Phase = "") → b = false) →
        ∀ key, ((phaseDispatch env cur w2).2.store.lookup key).map eraseVersion
          = (w2.store.lookup key).map eraseVersion) := by
    intro cur w2 hcur hd hc hp
    have hk : ObjectKeyFromObject cur = req := Store.lookup_key hcur
    have hst := phaseDispatch_store env hnf hunits b hready cur w2
      (by rw [hk]; exact hcur) hp
    rw [hst]
    by_cases hcond : (cur.Status.Phase = PhaseRunning ∨ cur.Status.Phase = "") ∧
        cur.Status.Initialized = false
    · rw [if_pos hcond]
      have hput := Store.lookup_put_self w2.store
        (writeStatus cur { cur with Status := { cur.Status with Initialized := b } }) cur
        (by rw [writeStatus_key, hk]; exact hcur)
      rw [writeStatus_key, hk] at hput
      refine ⟨⟨_, hput, hd, hc, hp, fun hb _ => hb⟩, ?_⟩
      intro hsettled key
      have hb : b = false := hsettled hcond.2 hcond.1
      subst hb
      refine Store.lookup_put_congr eraseVersion w2.store
        (writeStatus cur { cur with Status := { cur.Status with Initialized := false } })
        cur ?_ (eraseVersion_initialized cur hcond.2) key
      rw [writeStatus_key, hk]
      exact hcur
    · rw [if_neg hcond]
      exact ⟨⟨cur, hcur, hd, hc, hp, fun hi hr => absurd ⟨hr, hi⟩ hcond⟩, fun _ _ => rfl⟩
  have hstep := ensureFinalizer_noFault env hnf req o (w.log (Event.get req (some o) none)) hl1
  by_cases hc : ContainsString o.ObjectMeta.Finalizers myFinalizerName = true
  · rw [if_pos hc] at hstep
    rw [hens, hstep]
    simp only []
    obtain ⟨h1, h2⟩ := hdisp o (w.log (Event.get req (some o) none)) hl1 hdel hc hph
    exact ⟨h1, fun _ hs => h2 hs⟩
  · rw [if_neg hc] at hstep
    rw [hens, hstep]
    simp only []
    have hk2 : ObjectKeyFromObject (writeMeta o (AddFinalizer o myFinalizerName)) = req :=
      (AddFinalizer_key o myFinalizerName).trans hkey
    have hl2 : ((w.log (Event.get req (some o) none)).store.put
        (writeMeta o (AddFinalizer o myFinalizerName))).lookup req
        = some (writeMeta o (AddFinalizer o myFinalizerName)) := by
      have := Store.lookup_put_self (w.log (Event.get req (some o) none)).store
        (writeMeta o (AddFinalizer o myFinalizerName)) o (by rw [hk2]; exact hl1)
      rw [hk2] at this
      exact this
    have hd2 : IsZero (writeMeta o (AddFinalizer o myFinalizerName)).ObjectMeta.DeletionTimestamp
        = true := by
      have : (writeMeta o (AddFinalizer o myFinalizerName)).ObjectMeta.DeletionTimestamp
          = o.ObjectMeta.DeletionTimestamp := by
        unfold writeMeta AddFinalizer
        split <;> rfl
      rw [this]
      exact hdel
    obtain ⟨h1, _⟩ := hdisp (writeMeta o (AddFinalizer o myFinalizerName))
      (World.mk ((w.log (Event.get req (some o) none)).store.put
          (writeMeta o (AddFinalizer o myFinalizerName)))
        ((w.log (Event.get req (some o) none)).trace ++ [Event.get req (some o) none,
          Event.update (AddFinalizer o myFinalizerName) none]))
      hl2 hd2 (AddFinalizer_contains o myFinalizerName) hph
    exact ⟨h1, fun h => absurd h hc⟩

theorem RemoveFinalizer_not_contains (o : OpenSearchCluster) (m : String) :
    ContainsString (RemoveFinalizer o m).ObjectMeta.Finalizers m = false := by
  unfold ContainsString RemoveFinalizer
  simp [List.any_eq_true, List.mem_filter]

theorem Reconcile_absent_store (env : Env) (req : NamespacedName) (w : World)
    (hl : w.store.lookup req = none) : (Reconcile env req w).2.store = w.store := by
  rcases Get_cases env req {} w with ⟨e, hg⟩ | ⟨o, _, hl0, _⟩
  · unfold Reconcile
    rw [hg]
    simp only []
    split <;> rfl
  · rw [hl] at hl0
    cases hl0

/-- One call on a stored object that is being deleted, no store operation failing:
either the store is left as it is, the teardown having failed when the object carries
the marker, or the teardown went through and the marker is removed. -/
theorem Reconcile_deleting_store (env : Env) (hnf : NoFaults env)
    (hunits : UnitsKeepStore env) (req : NamespacedName) (w : World) (o : OpenSearchCluster)
    (hl : w.store.lookup req = some o)
    (hdel : IsZero o.ObjectMeta.DeletionTimestamp = false) :
    ((Reconcile env req w).2.store = w.store ∧
      (ContainsString o.ObjectMeta.Finalizers myFinalizerName = true →
        ∃ e, (deleteExternalResources env o (w.log (Event.get req (some o) none))).1.2
          = some e)) ∨
    (ContainsString o.ObjectMeta.Finalizers myFinalizerName = true ∧
      (deleteExternalResources env o (w.log (Event.get req (some o) none))).1.2 = none ∧
      (Reconcile env req w).2.store
        = w.store.put (writeMeta o (RemoveFinalizer o myFinalizerName))) := by
  have hf : Fetched env req w o := ⟨hnf _, hl⟩
  rw [Reconcile_deleting env req w o hf hdel]
  by_cases hc : ContainsString o.ObjectMeta.Finalizers myFinalizerName = true
  · rw [if_pos hc]
    obtain ⟨seg, ret, _, _, _, hst, _⟩ :=
      deleteExternalResources_loop env o (w.log (Event.get req (some o) none))
    rcases hd : deleteExternalResources env o (w.log (Event.get req (some o) none))
      with ⟨⟨result, _ | err⟩, obj2, w2⟩
    · rw [hd] at hst
      have h2 : w2.store = w.store := hst hunits
      simp only []
      have hl2 : w2.store.lookup req = some o := by rw [h2]; exact hl
      have hfirst := finalizerAttempt_noFault env req RemoveFinalizer RemoveFinalizer_key
        RemoveFinalizer_version obj2 o w2 hl2 (hnf _) (hnf _)
      have h1 : (finalizerAttempt env req RemoveFinalizer (obj2, w2)).1 = none := by
        rw [hfirst]
      rw [RetryOnConflict_first _ _ h1, hfirst]
      exact Or.inr ⟨hc, trivial, by simp only []; rw [h2]⟩
    · rw [hd] at hst
      exact Or.inl ⟨hst hunits, fun _ => ⟨err, rfl⟩⟩
  · rw [if_neg hc]
    exact Or.inl ⟨rfl, fun h => absurd h hc⟩

/-- Claim C19 (amended). `Reconcile` is idempotent on the store, once the stored phase
is not `Pending`.  When no store operation fails, the pipeline units leave the store
alone and answer the same whenever they are asked the same, and the readiness
predicate keeps one answer `b`: for an object that is absent, or being deleted, or
whose stored phase is not `Pending`, a second `Reconcile` call right after the first
leaves every stored object, its version token erased, as the first call left it. -/
theorem reconcile_idempotent (env : Env) (hnf : NoFaults env) (hunits : UnitsKeepStore env)
    (hdet : UnitsTimeless env) (b : Bool) (hready : ∀ n o s, env.AllMastersReady n o s = b)
    (req : NamespacedName) (w : World)
    (hphase : ∀ o, w.store.lookup req = some o →
      IsZero o.ObjectMeta.DeletionTimestamp = true → o.Status.Phase ≠ PhasePending) :
    ∀ key, ((Reconcile env req (Reconcile env req w).2).2.store.lookup key).map eraseVersion
      = ((Reconcile env req w).2.store.lookup key).map eraseVersion := by
  intro key
  rcases hl : w.store.lookup req with _ | o
  · have h1 := Reconcile_absent_store env req w hl
    have h2 := Reconcile_absent_store env req (Reconcile env req w).2 (by rw [h1]; exact hl)
    rw [h2]
  · by_cases hdel : IsZero o.ObjectMeta.DeletionTimestamp = true
    · obtain ⟨⟨x, hx, hxd, hxc, hxp, hxs⟩, _⟩ := Reconcile_live_settles env hnf hunits b
        hready req w o hl hdel (hphase o hl hdel)
      obtain ⟨_, h2⟩ := Reconcile_live_settles env hnf hunits b hready req
        (Reconcile env req w).2 x hx hxd hxp
      exact h2 hxc hxs key
    · have hdel' : IsZero o.ObjectMeta.DeletionTimestamp = false := by simpa using hdel
      rcases Reconcile_deleting_store env hnf hunits req w o hl hdel' with
        ⟨hs, hfail⟩ | ⟨hc, _, hs⟩
      · have hl1 : (Reconcile env req w).2.store.lookup req = some o := by rw [hs]; exact hl
        rcases Reconcile_deleting_store env hnf hunits req (Reconcile env req w).2 o hl1 hdel'
          with ⟨hs2, _⟩ | ⟨hc2, hok2, _⟩
        · rw [hs2]
        · exfalso
          obtain ⟨e, he⟩ := hfail hc2
          have hsame := deleteExternalResources_timeless env hdet o
            (w.log (Event.get req (some o) none))
            ((Reconcile env req w).2.log (Event.get req (some o) none)) hs.symm
          rw [hsame, hok2] at he
          cases he
      · have hkey : ObjectKeyFromObject o = req := Store.lookup_key hl
        have hk2 : ObjectKeyFromObject (writeMeta o (RemoveFinalizer o myFinalizerName))
            = req := (RemoveFinalizer_key o myFinalizerName).trans hkey
        have hl1 : (Reconcile env req w).2.store.lookup req
            = some (writeMeta o (RemoveFinalizer o myFinalizerName)) := by
          rw [hs]
          have := Store.lookup_put_self w.store
            (writeMeta o (RemoveFinalizer o myFinalizerName)) o (by rw [hk2]; exact hl)
          rw [hk2] at this
          exact this
        have hnc : ContainsString
            (writeMeta o (RemoveFinalizer o myFinalizerName)).ObjectMeta.Finalizers
            myFinalizerName = false := RemoveFinalizer_not_contains o myFinalizerName
        rcases Reconcile_deleting_store env hnf hunits req (Reconcile env req w).2
            (writeMeta o (RemoveFinalizer o myFinalizerName)) hl1 hdel'
          with ⟨hs2, _⟩ | ⟨hc2, _, _⟩
        · rw [hs2]
        · rw [hnc] at hc2
          cases hc2

/-! ## The apply-mode pipeline -/

theorem componentCalls_length_of_all {seg : List Event}
    (h : ∀ e ∈ seg, (Event.call? e).isSome = true) :
    (componentCalls seg).length = seg.length := by
  induction seg with
  | nil => rfl
  | cons a t ih =>
    have ha := h a (List.mem_cons_self _ _)
    have ht := ih (fun e he => h e (List.mem_cons_of_mem _ he))
    rcases hc : Event.call? a with _ | c
    · rw [hc] at ha
      cases ha
    · simp [componentCalls, List.filterMap_cons, hc] at ht ⊢
      exact ht

/-- The pipeline of `reconcilePhaseRunning` against the answers of the eight units. -/
theorem applyPipeline_spec (env : Env) (obj : OpenSearchCluster) (w : World) :
    ∃ seg : List Event,
      (applyPipeline env obj w).2.trace = w.trace ++ seg ∧
      seg = (unitEvents env applyReconcilers obj w.store w.clock).take seg.length ∧
      (∀ e ∈ seg, (Event.call? e).isSome = true) ∧
      ((∃ pre c, componentCalls seg = pre ++ [c] ∧
          (∀ x ∈ pre, x.err = none ∧ x.result.Requeue = false) ∧
          (c.err ≠ none ∨ c.result.Requeue = true) ∧
          (applyPipeline env obj w).1 = (c.result, c.err)) ∨
       (seg = unitEvents env applyReconcilers obj w.store w.clock ∧
          (∀ c ∈ componentCalls seg, c.err = none ∧ c.result.Requeue = false) ∧
          (applyPipeline env obj w).1
            = ({ Requeue := true, RequeueAfter := 30 * Second }, none))) := by
  have hclean : ∀ x : Call, Call.halts x = false → x.err = none ∧ x.result.Requeue = false := by
    intro x hx
    simpa [Call.halts] using hx
  have hhalt : ∀ x : Call, Call.halts x = true → x.err ≠ none ∨ x.result.Requeue = true := by
    intro x hx
    simpa [Call.halts, Option.isSome_iff_ne_none] using hx
  obtain ⟨seg, htr, hall, _, hres⟩ := runComponentReconcilers_spec env applyReconcilers obj w
  have hans := runComponentReconcilers_answers env applyReconcilers obj w seg htr
  unfold applyPipeline
  rcases hrun : runComponentReconcilers env applyReconcilers obj w with ⟨_ | r, obj1, w1⟩
  · rw [hrun] at htr hres
    simp only at htr hres ⊢
    refine ⟨seg, htr, hans, hall, ?_⟩
    rcases hres with ⟨_, hlen, hcl⟩ | ⟨pre, c, _, _, _, hret⟩
    · refine Or.inr ⟨?_, fun x hx => hclean x (hcl x hx), trivial⟩
      have hl : seg.length = applyReconcilers.length := by
        rw [← componentCalls_length_of_all hall]
        exact hlen
      rw [hl, ← unitEvents_length env applyReconcilers obj w.store w.clock,
        List.take_length] at hans
      exact hans
    · cases hret
  · rw [hrun] at htr hres
    simp only at htr hres ⊢
    refine ⟨seg, htr, hans, hall, ?_⟩
    rcases hres with ⟨hn, _, _⟩ | ⟨pre, c, hc, hpre, hh, hret⟩
    · cases hn
    · simp only [Option.some.injEq] at hret
      exact Or.inl ⟨pre, c, hc, fun x hx => hclean x (hpre x hx), hhalt c hh, hret⟩

/-- The pipeline when no unit halts: all eight answer, and the resync is returned. -/
theorem applyPipeline_clean (env : Env) (obj : OpenSearchCluster) (w : World)
    (hunits : ∀ (c : Component) (n : Nat) (obj : OpenSearchCluster) (s : Store),
      (env.reconcilers c Method.Reconcile n obj s).err = none ∧
      (env.reconcilers c Method.Reconcile n obj s).result.Requeue = false) :
    (applyPipeline env obj w).1 = ({ Requeue := true, RequeueAfter := 30 * Second }, none) ∧
    (applyPipeline env obj w).2.trace
      = w.trace ++ unitEvents env applyReconcilers obj w.store w.clock := by
  have hcl : ∀ b ∈ applyReconcilers, ∀ (n : Nat) (obj : OpenSearchCluster) (s : Store),
      (env.reconcilers b.1 b.2 n obj s).err = none ∧
      (env.reconcilers b.1 b.2 n obj s).result.Requeue = false := by
    intro b hb n obj s
    simp only [applyReconcilers, List.mem_cons, List.mem_singleton, List.not_mem_nil,
      or_false] at hb
    rcases hb with rfl | rfl | rfl | rfl | rfl | rfl | rfl | rfl <;> exact hunits _ n obj s
  obtain ⟨hnone, _⟩ := runComponentReconcilers_clean env applyReconcilers hcl obj w
  obtain ⟨seg, htr, hall, _, hres⟩ := runComponentReconcilers_spec env applyReconcilers obj w
  have hans := runComponentReconcilers_answers env applyReconcilers obj w seg htr
  have hlen : seg.length = applyReconcilers.length := by
    rw [← componentCalls_length_of_all hall]
    rcases hres with ⟨_, hlen, _⟩ | ⟨pre, c, _, _, _, hret⟩
    · exact hlen
    · rw [hnone] at hret
      cases hret
  rw [hlen, ← unitEvents_length env applyReconcilers obj w.store w.clock,
    List.take_length] at hans
  unfold applyPipeline
  rcases hrun : runComponentReconcilers env applyReconcilers obj w with ⟨_ | r, obj1, w1⟩
  · rw [hrun] at htr
    exact ⟨rfl, by rw [← hans]; exact htr⟩
  · rw [hrun] at hnone
    cases hnone

theorem reconcilePhaseRunning_update (env : Env) (obj : OpenSearchCluster) (w : World) :
    reconcilePhaseRunning env obj w =
      match updateInitialized env obj (w.log (Event.enter Func.reconcilePhaseRunning)) with
      | (some e, _, w1) => (({}, some e), w1)
      | (none, obj1, w1) => applyPipeline env obj1 w1 := by
  unfold reconcilePhaseRunning updateInitialized applyPipeline
  rfl

/-- The flag update appends no unit call. -/
theorem updateInitialized_quiet (env : Env) (obj : OpenSearchCluster) (w : World) :
    componentCalls (updateInitialized env obj w).2.2.trace = componentCalls w.trace := by
  unfold updateInitialized
  by_cases hinit : obj.Status.Initialized = true
  · simp [hinit]
  · have hinit' : obj.Status.Initialized = false := by simpa using hinit
    simp only [hinit', Bool.not_false, if_true]
    obtain ⟨atoms, last, htr, hseg, _, _⟩ := initialized_retry env obj w
    have hquiet : componentCalls (atoms.flatten ++ last) = [] :=
      componentCalls_nil_of_forall
        (RetrySegment.forall_mem (fun e => Event.call? e = none)
          InitializedAtom.quiet_initialized hseg)
    rw [htr, List.append_assoc, componentCalls_append, hquiet, List.append_nil]

/-- Claim C1 (amended). Apply-mode short-circuit.  For an object that is fetched, is not
being deleted and is in phase `Running` or has no phase, and whatever the eight units
do: when the finalizer step fails, or the update of the flag `Initialized` fails,
`Reconcile` returns `(empty result, that error)` and calls no unit.  When both went
through, what `Reconcile` records from there is an initial stretch of the answers
`env.reconcilers` gives when TLS, security configuration, configuration, cluster,
scaler, dashboards, upgrade, rolling restart are asked through `Reconcile` one after the
other, the first on the object and the store the flag update left, each later one on
what the unit before it left; either the last call is the first whose `err` is
non-nil or whose `Requeue` is set, its `(result, err)` is what `Reconcile` returns and
no later unit is called, or all eight answered, none halting, and `Reconcile` returns
the 30 s resync. -/
theorem apply_short_circuit (env : Env) (req : NamespacedName) (w : World)
    (o : OpenSearchCluster) (hf : Fetched env req w o)
    (hdel : IsZero o.ObjectMeta.DeletionTimestamp = true)
    (hphase : o.Status.Phase = PhaseRunning ∨ o.Status.Phase = "") :
    (∀ e obj2 w2,
      ensureFinalizer env req o (w.log (Event.get req (some o) none)) = (some e, obj2, w2) →
      Reconcile env req w = (({}, some e), w2) ∧
      componentCalls w2.trace = componentCalls w.trace) ∧
    (∀ obj2 w2,
      ensureFinalizer env req o (w.log (Event.get req (some o) none)) = (none, obj2, w2) →
      (∀ e obj3 w3,
        updateInitialized env
          (if obj2.Status.Phase = "" then
            { obj2 with Status :=
                { obj2.Status with Phase := PhaseRunning, ComponentsStatus := [] } }
           else obj2) (w2.log (Event.enter Func.reconcilePhaseRunning)) = (some e, obj3, w3) →
        Reconcile env req w = (({}, some e), w3) ∧
        componentCalls w3.trace = componentCalls w.trace) ∧
      (∀ obj3 w3,
        updateInitialized env
          (if obj2.Status.Phase = "" then
            { obj2 with Status :=
                { obj2.Status with Phase := PhaseRunning, ComponentsStatus := [] } }
           else obj2) (w2.log (Event.enter Func.reconcilePhaseRunning)) = (none, obj3, w3) →
        componentCalls w3.trace = componentCalls w.trace ∧
        ∃ seg : List Event,
          (Reconcile env req w).2.trace = w3.trace ++ seg ∧
          seg = (unitEvents env
            [(Component.tls, Method.Reconcile), (Component.securityconfig, Method.Reconcile),
             (Component.config, Method.Reconcile), (Component.cluster, Method.Reconcile),
             (Component.scaler, Method.Reconcile), (Component.dashboards, Method.Reconcile),
             (Component.upgrade, Method.Reconcile), (Component.restart, Method.Reconcile)]
            obj3 w3.store w3.clock).take seg.length ∧
          (∀ ev ∈ seg, (Event.call? ev).isSome = true) ∧
          ((∃ pre c, componentCalls seg = pre ++ [c] ∧
              (∀ x ∈ pre, x.err = none ∧ x.result.Requeue = false) ∧
              (c.err ≠ none ∨ c.result.Requeue = true) ∧
              (Reconcile env req w).1 = (c.result, c.err)) ∨
           (seg.length = 8 ∧
              (∀ c ∈ componentCalls seg, c.err = none ∧ c.result.Requeue = false) ∧
              (Reconcile env req w).1
                = ({ Requeue := true, RequeueAfter := 30 * Second }, none))))) := by
  have hens := Reconcile_ensure env req w o hf hdel
  have hl1 : (w.log (Event.get req (some o) none)).store.lookup req = some o := hf.2
  have hq1 : componentCalls (w.log (Event.get req (some o) none)).trace
      = componentCalls w.trace := by
    simp [World.log, componentCalls_append, componentCalls, Event.call?]
  refine ⟨?_, ?_⟩
  · intro e obj2 w2 hstep
    obtain ⟨hq, _, _⟩ := ensureFinalizer_spec env req o (w.log (Event.get req (some o) none)) hl1
    rw [hstep] at hq
    exact ⟨by rw [hens, hstep], hq.trans hq1⟩
  · intro obj2 w2 hstep
    obtain ⟨_, _, hst, _, hq2, _⟩ := ensureFinalizer_coherent env req o _ hl1 obj2 w2 hstep
    have hrec : Reconcile env req w =
        match updateInitialized env
          (if obj2.Status.Phase = "" then
            { obj2 with Status :=
                { obj2.Status with Phase := PhaseRunning, ComponentsStatus := [] } }
           else obj2) (w2.log (Event.enter Func.reconcilePhaseRunning)) with
        | (some e, _, w1) => (({}, some e), w1)
        | (none, obj1, w1) => applyPipeline env obj1 w1 := by
      rw [hens, hstep]
      simp only []
      rw [phaseDispatch_running env obj2 w2 (by rw [hst]; exact hphase)]
      exact reconcilePhaseRunning_update env _ w2
    have hq3 := updateInitialized_quiet env
      (if obj2.Status.Phase = "" then
        { obj2 with Status :=
            { obj2.Status with Phase := PhaseRunning, ComponentsStatus := [] } }
       else obj2) (w2.log (Event.enter Func.reconcilePhaseRunning))
    have hq4 : componentCalls (w2.log (Event.enter Func.reconcilePhaseRunning)).trace
        = componentCalls w.trace := by
      rw [← hq1, ← hq2]
      simp [World.log, componentCalls_append, componentCalls, Event.call?]
    refine ⟨?_, ?_⟩
    · intro e obj3 w3 hupd
      rw [hupd] at hq3 hrec
      exact ⟨hrec, hq3.trans hq4⟩
    · intro obj3 w3 hupd
      rw [hupd] at hq3 hrec
      simp only [] at hrec
      refine ⟨hq3.trans hq4, ?_⟩
      obtain ⟨seg, htr, hans, hall, hcase⟩ := applyPipeline_spec env obj3 w3
      rw [hrec]
      refine ⟨seg, htr, hans, hall, ?_⟩
      rcases hcase with h | ⟨hfull, hcl, hret⟩
      · exact Or.inl h
      · refine Or.inr ⟨?_, hcl, hret⟩
        rw [hfull, unitEvents_length]
        rfl

/-- Claim C4. Steady-state re-sync.  For an object that is fetched, is not being deleted
and is in phase `Running`: when no store operation of the engine fails and every
apply-mode unit returns a nil error with `Requeue = false`, the finalizer step and the
update of the flag `Initialized` go through, and from there `Reconcile` records
exactly the answers `env.reconcilers` gives when the eight units are asked through
`Reconcile` one after the other in the fixed order, each once, the first on the object
and the store the flag update left, each later one on what the unit before it left;
it returns `(Requeue = true, RequeueAfter = 30 s, nil)`. -/
theorem steady_state_resync (env : Env) (req : NamespacedName) (w : World)
    (o : OpenSearchCluster) (hf : Fetched env req w o)
    (hdel : IsZero o.ObjectMeta.DeletionTimestamp = true)
    (hphase : o.Status.Phase = PhaseRunning)
    (hstore : NoFaults env)
    (hunits : ∀ (c : Component) (n : Nat) (obj : OpenSearchCluster) (s : Store),
      (env.reconcilers c Method.Reconcile n obj s).err = none ∧
      (env.reconcilers c Method.Reconcile n obj s).result.Requeue = false) :
    (Reconcile env req w).1 = ({ Requeue := true, RequeueAfter := 30 * Second }, none) ∧
    ∃ (obj2 : OpenSearchCluster) (w2 : World) (obj3 : OpenSearchCluster) (w3 : World),
      ensureFinalizer env req o (w.log (Event.get req (some o) none)) = (none, obj2, w2) ∧
      updateInitialized env obj2 (w2.log (Event.enter Func.reconcilePhaseRunning))
        = (none, obj3, w3) ∧
      componentCalls w3.trace = componentCalls w.trace ∧
      (Reconcile env req w).2.trace = w3.trace ++ unitEvents env
        [(Component.tls, Method.Reconcile), (Component.securityconfig, Method.Reconcile),
         (Component.config, Method.Reconcile), (Component.cluster, Method.Reconcile),
         (Component.scaler, Method.Reconcile), (Component.dashboards, Method.Reconcile),
         (Component.upgrade, Method.Reconcile), (Component.restart, Method.Reconcile)]
        obj3 w3.store w3.clock ∧
      (componentCalls (Reconcile env req w).2.trace).length
        = (componentCalls w.trace).length + 8 := by
  have hens := Reconcile_ensure env req w o hf hdel
  have hl1 : (w.log (Event.get req (some o) none)).store.lookup req = some o := hf.2
  have hq1 : componentCalls (w.log (Event.get req (some o) none)).trace
      = componentCalls w.trace := by
    simp [World.log, componentCalls_append, componentCalls, Event.call?]
  have hstep0 := ensureFinalizer_noFault env hstore req o
    (w.log (Event.get req (some o) none)) hl1
  have hnone : (ensureFinalizer env req o (w.log (Event.get req (some o) none))).1 = none := by
    rw [hstep0]
    split <;> rfl
  rcases hstep : ensureFinalizer env req o (w.log (Event.get req (some o) none))
    with ⟨r, obj2, w2⟩
  rw [hstep] at hnone
  simp only at hnone
  subst hnone
  obtain ⟨hl2, hk2, hst, _, hq2, _⟩ := ensureFinalizer_coherent env req o _ hl1 obj2 w2 hstep
  have hp2 : obj2.Status.Phase = PhaseRunning := by rw [hst]; exact hphase
  have hne : ¬ obj2.Status.Phase = "" := by rw [hp2]; decide
  have hunone : (updateInitialized env obj2
      (w2.log (Event.enter Func.reconcilePhaseRunning))).1 = none := by
    unfold updateInitialized
    by_cases hinit : obj2.Status.Initialized = true
    · simp [hinit]
    · have hinit' : obj2.Status.Initialized = false := by simpa using hinit
      simp only [hinit', Bool.not_false, if_true]
      have hfirst := initializedAttempt_noFault env obj2 obj2
        (w2.log (Event.enter Func.reconcilePhaseRunning))
        (by rw [hk2]; exact hl2) (hstore _) (hstore _)
      rw [RetryOnConflict_first _ _ hfirst]
      exact hfirst
  rcases hupd : updateInitialized env obj2 (w2.log (Event.enter Func.reconcilePhaseRunning))
    with ⟨r, obj3, w3⟩
  rw [hupd] at hunone
  simp only at hunone
  subst hunone
  have hq3 := updateInitialized_quiet env obj2 (w2.log (Event.enter Func.reconcilePhaseRunning))
  rw [hupd] at hq3
  have hq4 : componentCalls w3.trace = componentCalls w.trace := by
    have : componentCalls (w2.log (Event.enter Func.reconcilePhaseRunning)).trace
        = componentCalls w.trace := by
      rw [← hq1, ← hq2]
      simp [World.log, componentCalls_append, componentCalls, Event.call?]
    exact hq3.trans this
  have hrec : Reconcile env req w = applyPipeline env obj3 w3 := by
    rw [hens, hstep]
    simp only []
    rw [phaseDispatch_running env obj2 w2 (Or.inl hp2)]
    simp only [hne, if_false]
    rw [reconcilePhaseRunning_update, hupd]
  obtain ⟨hres, htr⟩ := applyPipeline_clean env obj3 w3 hunits
  refine ⟨by rw [hrec]; exact hres, obj2, w2, obj3, w3, rfl, hupd, hq4,
    by rw [hrec]; exact htr, ?_⟩
  rw [hrec, htr, componentCalls_append, hq4, List.length_append]
  rfl

/-! ## The later claims at concrete inputs -/

theorem finalizer_added_first_witness :
    (Reconcile secondWriteFailsEnv exampleKey { store := [newCluster] }).1
      = ({}, some errOther) :=
  let ⟨_, _, h⟩ := (finalizer_added_first secondWriteFailsEnv exampleKey
    { store := [newCluster] } newCluster ⟨rfl, rfl⟩ rfl rfl).2 errOther (by decide) rfl
  congrArg Prod.fst h

theorem conflict_retry_converges_witness :
    ((Reconcile oneConflictEnv exampleKey { store := [newCluster] }).2.store.lookup
        exampleKey).map (fun x => x.ObjectMeta.Finalizers)
      = some (AddFinalizer newCluster myFinalizerName).ObjectMeta.Finalizers :=
  ((conflict_retry_converges oneConflictEnv exampleKey { store := [newCluster] } newCluster
    ⟨rfl, rfl⟩ rfl rfl).1 errConflict rfl rfl rfl rfl rfl).2.2.2 (fun _ _ _ _ _ => rfl)

theorem pending_handler_witness :
    (Reconcile quietEnv exampleKey { store := [pendingCluster] }).1
      = ({ Requeue := true, RequeueAfter := 0 }, none) :=
  ((pending_handler quietEnv exampleKey { store := [pendingCluster] } pendingCluster
    ⟨rfl, rfl⟩ rfl rfl).2.1 (fun _ => rfl)).1

/-- Claim C14 as stated fails at an object of unknown phase that lacks the finalizer
marker when the `Update` that adds the marker fails: `Reconcile` returns that error,
not the 30 s resync. -/
theorem default_phase_counterexample :
    unknownPhaseCluster.Status.Phase ≠ "" ∧
    unknownPhaseCluster.Status.Phase ≠ PhasePending ∧
    unknownPhaseCluster.Status.Phase ≠ PhaseRunning ∧
    IsZero unknownPhaseCluster.ObjectMeta.DeletionTimestamp = true ∧
    (Reconcile secondWriteFailsEnv exampleKey { store := [unknownPhaseCluster] }).1
      = ({}, some errOther) ∧
    (Reconcile secondWriteFailsEnv exampleKey { store := [unknownPhaseCluster] }).1
      ≠ ({ Requeue := true, RequeueAfter := 30 * Second }, none) := by
  decide

theorem default_phase_resync_witness :
    Reconcile quietEnv exampleKey { store := [unknownPhaseCluster] }
      = (({ Requeue := true, RequeueAfter := 30 * Second }, none),
        (ensureFinalizer quietEnv exampleKey unknownPhaseCluster
          (World.log { store := [unknownPhaseCluster] }
            (Event.get exampleKey (some unknownPhaseCluster) none))).2.2) :=
  (default_phase_resync quietEnv exampleKey { store := [unknownPhaseCluster] }
    unknownPhaseCluster ⟨rfl, rfl⟩ rfl (by decide) (by decide) (by decide)).2.1
    (ensureFinalizer quietEnv exampleKey unknownPhaseCluster
      (World.log { store := [unknownPhaseCluster] }
        (Event.get exampleKey (some unknownPhaseCluster) none))).2.1
    (ensureFinalizer quietEnv exampleKey unknownPhaseCluster
      (World.log { store := [unknownPhaseCluster] }
        (Event.get exampleKey (some unknownPhaseCluster) none))).2.2
    (by decide)

/-- Claim C15 as stated fails at an object in phase `Running` whose flag is false when
the `Status().Update` of the flag fails: the readiness predicate was asked, the write
failed, and `Reconcile` returns that error without calling any pipeline unit.  It
fails as well at such an object without the finalizer marker when the `Update` adding
the marker fails, and at such an object that is being deleted: the readiness predicate
is never asked and no apply-mode unit is called. -/
theorem initialized_write_blocks_pipeline :
    runningCluster.Status.Phase = PhaseRunning ∧
    runningCluster.Status.Initialized = false ∧
    (Reconcile statusWriteFailsEnv exampleKey { store := [runningCluster] }).1
      = ({}, some errOther) ∧
    componentCalls
      (Reconcile statusWriteFailsEnv exampleKey { store := [runningCluster] }).2.trace = [] ∧
    (Reconcile statusWriteFailsEnv exampleKey { store := [runningCluster] }).2.trace
      = [Event.get exampleKey (some runningCluster) none,
         Event.enter Func.reconcilePhaseRunning,
         Event.get exampleKey (some runningCluster) none,
         Event.allMastersReady runningCluster true,
         Event.statusUpdate { runningCluster with Status :=
           { runningCluster.Status with Initialized := true } } (some errOther)] ∧
    (bareRunningCluster.Status.Phase = PhaseRunning ∧
      bareRunningCluster.Status.Initialized = false ∧
      (Reconcile secondWriteFailsEnv exampleKey { store := [bareRunningCluster] }).1
        = ({}, some errOther) ∧
      readinessAnswers
        (Reconcile secondWriteFailsEnv exampleKey { store := [bareRunningCluster] }).2.trace
        = [] ∧
      componentCalls
        (Reconcile secondWriteFailsEnv exampleKey { store := [bareRunningCluster] }).2.trace
        = []) ∧
    (deletingBareCluster.Status.Phase = PhaseRunning ∧
      deletingBareCluster.Status.Initialized = false ∧
      readinessAnswers
        (Reconcile quietEnv exampleKey { store := [deletingBareCluster] }).2.trace = [] ∧
      (componentCalls
        (Reconcile quietEnv exampleKey { store := [deletingBareCluster] }).2.trace).map
          Call.bound
        = [(Component.tls, Method.DeleteResources),
           (Component.securityconfig, Method.DeleteResources),
           (Component.config, Method.DeleteResources),
           (Component.cluster, Method.DeleteResources),
           (Component.dashboards, Method.DeleteResources)]) := by
  decide

theorem initialized_then_pipeline_witness :
    ∃ c rest, componentCalls
        (Reconcile quietEnv exampleKey { store := [runningCluster] }).2.trace
          = componentCalls [] ++ c :: rest ∧
      Call.bound c = (Component.tls, Method.Reconcile) :=
  let ⟨_, _, _, _, _, _, _, _, h⟩ :=
    ((initialized_then_pipeline quietEnv exampleKey { store := [runningCluster] }
      runningCluster ⟨rfl, rfl⟩ rfl rfl rfl).2 runningCluster
      (World.log { store := [runningCluster] }
        (Event.get exampleKey (some runningCluster) none)) (by decide)).1 (by decide)
  h

theorem initialized_write_once_witness :
    (∃ seg o, (Reconcile quietEnv exampleKey { store := [runningCluster] }).2.trace
        = [] ++ seg ∧
      ObjectKeyFromObject o = exampleKey ∧ Event.allMastersReady o true ∈ seg) ∧
    (∃ seg, (ReconcileAll quietEnv [exampleKey, exampleKey]
        { store := [phaselessCluster] }).trace = [] ++ seg ∧
      storedInitialized (ReconcileAll quietEnv [exampleKey, exampleKey]
        { store := [phaselessCluster] }).store exampleKey = some true ∧
      (∀ o b, Event.allMastersReady o b ∈ seg → ObjectKeyFromObject o ≠ exampleKey) ∧
      (∀ o err, Event.statusUpdate o err ∈ seg → ObjectKeyFromObject o = exampleKey →
        o.Status.Initialized = true)) :=
  let h := initialized_write_once quietEnv (fun _ _ _ _ _ => rfl) exampleKey
  ⟨h.1 exampleKey { store := [runningCluster] } (by decide) (by decide),
   h.2 [exampleKey, exampleKey] { store := [phaselessCluster] } (by decide)⟩

theorem engine_mutates_only_status_and_marker_witness :
    ∃ o1, (Reconcile quietEnv exampleKey { store := [newCluster] }).2.store.lookup exampleKey
        = some o1 ∧
      o1.Spec = newCluster.Spec ∧
      o1.ObjectMeta.DeletionTimestamp = newCluster.ObjectMeta.DeletionTimestamp :=
  let ⟨o1, h1, h2, h3, _⟩ :=
    (engine_mutates_only_status_and_marker quietEnv (fun _ _ _ _ _ => rfl) exampleKey
      { store := [newCluster] }).1 exampleKey newCluster rfl
  ⟨o1, h1, h2, h3⟩

/-- Claim C19 as stated fails at a stored object in phase `Pending`, every store
operation succeeding, the units writing nothing and the readiness predicate always
answering true: the first call stores the phase `Running`, the second call stores
`Initialized = true`, so the stored object differs after the second call even with
the version token erased.  It fails as well when the first call ends at a failed
fetch: the store is untouched, and the second call stores `Initialized = true`. -/
theorem second_call_changes_pending_object :
    ((Reconcile quietEnv exampleKey { store := [pendingCluster] }).2.store.lookup
        exampleKey).map (fun o => (o.Status.Phase, o.Status.Initialized))
      = some (PhaseRunning, false) ∧
    ((Reconcile quietEnv exampleKey
        (Reconcile quietEnv exampleKey { store := [pendingCluster] }).2).2.store.lookup
        exampleKey).map (fun o => (o.Status.Phase, o.Status.Initialized))
      = some (PhaseRunning, true) ∧
    ((Reconcile quietEnv exampleKey
        (Reconcile quietEnv exampleKey { store := [pendingCluster] }).2).2.store.lookup
        exampleKey).map eraseVersion
      ≠ ((Reconcile quietEnv exampleKey { store := [pendingCluster] }).2.store.lookup
        exampleKey).map eraseVersion ∧
    (Reconcile firstFetchFailsEnv exampleKey { store := [runningCluster] }).2.store
      = [runningCluster] ∧
    ((Reconcile firstFetchFailsEnv exampleKey
        (Reconcile firstFetchFailsEnv exampleKey { store := [runningCluster] }).2).2.store.lookup
        exampleKey).map eraseVersion
      ≠ ((Reconcile firstFetchFailsEnv exampleKey
        { store := [runningCluster] }).2.store.lookup exampleKey).map eraseVersion := by
  decide

theorem reconcile_idempotent_witness :
    ((Reconcile quietEnv exampleKey
        (Reconcile quietEnv exampleKey { store := [runningCluster] }).2).2.store.lookup
        exampleKey).map eraseVersion
      = ((Reconcile quietEnv exampleKey { store := [runningCluster] }).2.store.lookup
        exampleKey).map eraseVersion :=
  reconcile_idempotent quietEnv (fun _ => rfl) (fun _ _ _ _ _ => rfl)
    (fun _ _ _ _ _ _ => rfl) true (fun _ _ _ => rfl) exampleKey { store := [runningCluster] }
    (fun o hl _ =>
      (Option.some.inj (hl : some runningCluster = some o)) ▸ (by decide)) exampleKey

/-- Claim C20, from a newly created object, every store operation succeeding, the
readiness predicate answering true and the TLS unit recording its component status:
after the first call the store holds that component status and still no phase, so
the second call and the third call each find the object without a phase again, clear
`ComponentsStatus` in memory again, and hand the TLS unit the cleared sequence with
the phase `Running`, not the stored one. -/
theorem components_status_cleared_every_call :
    ((ReconcileAll recordingEnv [exampleKey] { store := [newCluster] }).store.lookup
        exampleKey).map
        (fun o => (o.Status.Phase, o.Status.ComponentsStatus, o.Status.Initialized))
      = some ("", [{ payload := "tls" }], true) ∧
    ((handedObjects ((ReconcileAll recordingEnv [exampleKey, exampleKey]
        { store := [newCluster] }).trace.drop
        (ReconcileAll recordingEnv [exampleKey] { store := [newCluster] }).trace.length)).head?).map
        (fun o => (o.Status.Phase, o.Status.ComponentsStatus))
      = some (PhaseRunning, []) ∧
    ((ReconcileAll recordingEnv [exampleKey, exampleKey] { store := [newCluster] }).store.lookup
        exampleKey).map
        (fun o => (o.Status.Phase, o.Status.ComponentsStatus, o.Status.Initialized))
      = some ("", [{ payload := "tls" }], true) ∧
    ((handedObjects ((ReconcileAll recordingEnv [exampleKey, exampleKey, exampleKey]
        { store := [newCluster] }).trace.drop
        (ReconcileAll recordingEnv [exampleKey, exampleKey]
          { store := [newCluster] }).trace.length)).head?).map
        (fun o => (o.Status.Phase, o.Status.ComponentsStatus))
      = some (PhaseRunning, []) ∧
    ((ReconcileAll recordingEnv [exampleKey, exampleKey, exampleKey]
        { store := [newCluster] }).store.lookup exampleKey).map
        (fun o => o.Status.Phase) = some "" := by
  decide

/-- Claim C1 as stated fails when a store error ends the call before the pipeline: at
a newly created object whose finalizer `Update` fails, and at an object in phase
`Running` whose `Status().Update` of the flag `Initialized` fails, the object is
fetched, is not being deleted, and `Reconcile` returns the error without calling any
unit. -/
theorem apply_pipeline_not_reached :
    (secondWriteFailsEnv.fault 0 = none ∧
      Store.lookup [newCluster] exampleKey = some newCluster ∧
      IsZero newCluster.ObjectMeta.DeletionTimestamp = true ∧
      newCluster.Status.Phase = "" ∧
      (Reconcile secondWriteFailsEnv exampleKey { store := [newCluster] }).1
        = ({}, some errOther) ∧
      componentCalls
        (Reconcile secondWriteFailsEnv exampleKey { store := [newCluster] }).2.trace = []) ∧
    (statusWriteFailsEnv.fault 0 = none ∧
      Store.lookup [runningCluster] exampleKey = some runningCluster ∧
      IsZero runningCluster.ObjectMeta.DeletionTimestamp = true ∧
      runningCluster.Status.Phase = PhaseRunning ∧
      (Reconcile statusWriteFailsEnv exampleKey { store := [runningCluster] }).1
        = ({}, some errOther) ∧
      componentCalls
        (Reconcile statusWriteFailsEnv exampleKey { store := [runningCluster] }).2.trace
        = []) := by
  decide

theorem apply_short_circuit_witness :
    ∃ (obj3 : OpenSearchCluster) (w3 : World) (seg : List Event),
      (Reconcile configRequeueEnv exampleKey { store := [phaselessCluster] }).2.trace
        = w3.trace ++ seg ∧
      seg = (unitEvents configRequeueEnv
        [(Component.tls, Method.Reconcile), (Component.securityconfig, Method.Reconcile),
         (Component.config, Method.Reconcile), (Component.cluster, Method.Reconcile),
         (Component.scaler, Method.Reconcile), (Component.dashboards, Method.Reconcile),
         (Component.upgrade, Method.Reconcile), (Component.restart, Method.Reconcile)]
        obj3 w3.store w3.clock).take seg.length :=
  let ⟨seg, h1, h2, _⟩ :=
    ((((apply_short_circuit configRequeueEnv exampleKey { store := [phaselessCluster] }
      phaselessCluster ⟨rfl, rfl⟩ rfl (Or.inr rfl)).2 phaselessCluster
      (World.log { store := [phaselessCluster] }
        (Event.get exampleKey (some phaselessCluster) none)) (by decide)).2
      { phaselessCluster with Status :=
          { phaselessCluster.Status with Phase := PhaseRunning, ComponentsStatus := [] } }
      (World.log (World.log { store := [phaselessCluster] }
        (Event.get exampleKey (some phaselessCluster) none))
        (Event.enter Func.reconcilePhaseRunning)) (by decide))).2
  ⟨_, _, seg, h1, h2⟩

theorem steady_state_resync_witness :
    (Reconcile quietEnv exampleKey { store := [runningCluster] }).1
      = ({ Requeue := true, RequeueAfter := 30 * Second }, none) :=
  (steady_state_resync quietEnv exampleKey { store := [runningCluster] } runningCluster
    ⟨rfl, rfl⟩ rfl rfl (fun _ => rfl) (fun _ _ _ _ => ⟨rfl, rfl⟩)).1

end OpenSearchController
